import Mathlib

/-!
# Lending / reservation engine (Task-4 `services` package)

A shallow embedding of `Task-4/services/library_service.go` and
`Task-4/services/reservation_worker.go`.

* Go maps `map[int]V` are finite maps `Finmap (fun _ : Int => V)`: lookups,
  inserts and deletes are the map operations of the source, and two maps are
  equal exactly when they agree on every key (a Go map has no observable order).
* Go `int` identifiers are only ever compared, never computed with, so they are `Int`.
* A Go `error` is `Option String`: `none` is `nil`, `some msg` is `errors.New(msg)`.
* A method with a pointer receiver that mutates the library returns the new
  library next to its Go result.
* In namespace `Task4` the `BorrowedBooks` of a member is the list of the elements of its
  slice, and `nil` is the empty list: this is the engine as it behaves when no two members'
  slices share a backing array. Namespace `Task4Mem` further down models the slice headers
  and the backing arrays, which `RegisterMember` lets a caller share between members; every
  claim on which sharing bears is settled there.
* Every method body runs under the single mutex `mu`, so each method is one
  atomic transition of the library state.
* A timer set by `time.AfterFunc` is the transition `expiry`, which a run may take at any
  point after the request was accepted (also after `timer.Stop()`, which does not stop a
  closure that has already started and waits for the mutex).
-/

namespace Task4

/-- Record `models.Book`: the fields the services and controllers use. -/
structure Book where
  ID : Int
  Title : String
  Author : String
  Status : String
deriving DecidableEq, Repr

/-- Record `models.Member`, read through its slice: `BorrowedBooks` is the list of the
elements of the slice of held book records. The slice header itself, with its backing array,
is in `Task4Mem.Member`. -/
structure Member where
  ID : Int
  Name : String
  BorrowedBooks : List Book
deriving DecidableEq, Repr

/-- The `reservation` struct. Its `timer` field is the handle of the pending expiry
action; the expiry action itself is the transition `expiry` below, which may run at any
later point, so the handle carries no further state in the embedding. -/
structure reservation where
  MemberID : Int
deriving DecidableEq, Repr

/-- The `ReservationRequest` struct; the reply channel `RespCh` is the second component of
the result of `handleRequest`. -/
structure ReservationRequest where
  BookID : Int
  MemberID : Int
deriving DecidableEq, Repr

/-- The three maps of the `Library` struct that the mutex guards. -/
structure Library where
  Books : Finmap (fun _ : Int => Book)
  Members : Finmap (fun _ : Int => Member)
  reservations : Finmap (fun _ : Int => reservation)
deriving DecidableEq

/-- Function `NewLibrary`: three empty maps. -/
def NewLibrary : Library :=
  { Books := ∅, Members := ∅, reservations := ∅ }

/-- Method `RegisterMember`: `l.Members[m.ID] = m`. -/
def RegisterMember (l : Library) (m : Member) : Library :=
  { l with Members := l.Members.insert m.ID m }

/-- Method `AddBook`: `l.Books[book.ID] = book`. -/
def AddBook (l : Library) (book : Book) : Library :=
  { l with Books := l.Books.insert book.ID book }

/-- Method `RemoveBook`. -/
def RemoveBook (l : Library) (bookID : Int) : Library × Option String :=
  match l.Books.lookup bookID with
  | none => (l, some "book not found")
  | some book =>
    if book.Status = "Borrowed" then
      (l, some "cannot remove: book is borrowed")
    else
      match l.reservations.lookup bookID with
      | some _ => (l, some "cannot remove: book is reserved")
      | none => ({ l with Books := l.Books.erase bookID }, none)

/-- Method `BorrowBook`, on the elements of the slices: `append(member.BorrowedBooks, book)`
has the elements of the slice followed by the book. `Task4Mem.BorrowBook` is the method with
slice headers and backing arrays; the two reply alike in every state (`BorrowBook_reply`)
and leave the same state when no two members' slices share a backing array
(`BorrowBook_view`). -/
def BorrowBook (l : Library) (bookID memberID : Int) : Library × Option String :=
  match l.Books.lookup bookID with
  | none => (l, some "book not found")
  | some book =>
    match l.Members.lookup memberID with
    | none => (l, some "member not found")
    | some member =>
      if (match l.reservations.lookup bookID with
          | some res => decide (res.MemberID ≠ memberID)
          | none => false) then
        (l, some "book is reserved by another member")
      else if book.Status = "Borrowed" then
        (l, some "book already borrowed")
      else
        let book1 : Book := { book with Status := "Borrowed" }
        let member1 : Member :=
          { member with BorrowedBooks := member.BorrowedBooks ++ [book1] }
        ({ Books := l.Books.insert bookID book1
           Members := l.Members.insert memberID member1
           reservations :=
             match l.reservations.lookup bookID with
             | some res =>
               if res.MemberID = memberID then l.reservations.erase bookID
               else l.reservations
             | none => l.reservations }, none)

/-- The search loop of `ReturnBook`: at the first index `i` whose record has `ID == bookID`
the slice becomes `append(s[:i], s[i+1:]...)` and the loop breaks (`some`); when no record
matches, `found` stays false (`none`). -/
def removeBorrowed (bookID : Int) : List Book → Option (List Book)
  | [] => none
  | b :: bs =>
    if b.ID = bookID then some bs
    else (removeBorrowed bookID bs).map (fun rest => b :: rest)

/-- Method `ReturnBook`, on the elements of the slices. `Task4Mem.ReturnBook` is the method
with slice headers and backing arrays, where `append(s[:i], s[i+1:]...)` shifts the array in
place; the two reply alike in every state (`ReturnBook_reply`) and leave the same state when
no two members' slices share a backing array (`ReturnBook_view`). -/
def ReturnBook (l : Library) (bookID memberID : Int) : Library × Option String :=
  match l.Members.lookup memberID with
  | none => (l, some "member not found")
  | some member =>
    match l.Books.lookup bookID with
    | none => (l, some "book not found")
    | some book =>
      match removeBorrowed bookID member.BorrowedBooks with
      | none => (l, some "book not borrowed by this member")
      | some rest =>
        ({ l with
           Books := l.Books.insert bookID { book with Status := "Available" }
           Members := l.Members.insert memberID { member with BorrowedBooks := rest } },
         none)

/-- Method `ListAvailableBooks`: the library after the call and the returned slice. The
source ranges over the map in Go's unspecified iteration order, so the slice is taken up to
order: a multiset with one occurrence per map entry that passes both tests. -/
def ListAvailableBooks (l : Library) : Library × Multiset Book :=
  (l, (l.Books.entries.filter
    (fun e => e.2.Status = "Available" ∧ l.reservations.lookup e.1 = none)).map
    (fun e => e.2))

/-- Method `ListBorrowedBooks`: the library after the call and the returned slice, `nil`
for an unknown member, else `append([]models.Book(nil), member.BorrowedBooks...)`. -/
def ListBorrowedBooks (l : Library) (memberID : Int) : Library × List Book :=
  match l.Members.lookup memberID with
  | none => (l, [])
  | some member => (l, [] ++ member.BorrowedBooks)

/-- One iteration of the loop of `startReservationWorker` for a received request: the new
state and the value sent on `req.RespCh`. -/
def handleRequest (l : Library) (req : ReservationRequest) : Library × Option String :=
  match l.Books.lookup req.BookID with
  | none => (l, some "book not found")
  | some book =>
    match l.Members.lookup req.MemberID with
    | none => (l, some "member not found")
    | some _ =>
      if book.Status = "Borrowed" then
        (l, some "book already borrowed")
      else
        match l.reservations.lookup req.BookID with
        | some _ => (l, some "book already reserved")
        | none =>
          ({ l with
             reservations := l.reservations.insert req.BookID { MemberID := req.MemberID } },
           none)

/-- The loop of `startReservationWorker` over the requests received from `reservationCh`, in
the order received: the final state and the replies, in the same order. -/
def startReservationWorker (l : Library) :
    List ReservationRequest → Library × List (Option String)
  | [] => (l, [])
  | req :: rest =>
    let r := handleRequest l req
    let rs := startReservationWorker r.1 rest
    (rs.1, r.2 :: rs.2)

/-- Method `ReserveBook`: sends one request to the worker and returns what arrives on the
request's own reply channel (`<-resp`); `nil` when nothing was sent on it. -/
def ReserveBook (l : Library) (bookID memberID : Int) : Library × Option String :=
  let r := startReservationWorker l [{ BookID := bookID, MemberID := memberID }]
  (r.1, r.2.head?.join)

/-- The closure passed to `time.AfterFunc` for an accepted request `(bookID, memberID)`. -/
def expiry (l : Library) (bookID memberID : Int) : Library :=
  match l.reservations.lookup bookID with
  | some r =>
    if r.MemberID = memberID then
      match l.Books.lookup bookID with
      | some b =>
        if b.Status ≠ "Borrowed" then
          { l with reservations := l.reservations.erase bookID }
        else l
      | none => l
    else l
  | none => l

/-- The engine's operations, as events of a run. -/
inductive Op where
  | addBook (book : Book)
  | registerMember (m : Member)
  | removeBook (bookID : Int)
  | borrowBook (bookID memberID : Int)
  | returnBook (bookID memberID : Int)
  | reserve (bookID memberID : Int)
  | expire (bookID memberID : Int)
deriving DecidableEq, Repr

/-- The state after one operation. -/
def step (l : Library) : Op → Library
  | .addBook book => AddBook l book
  | .registerMember m => RegisterMember l m
  | .removeBook bookID => (RemoveBook l bookID).1
  | .borrowBook bookID memberID => (BorrowBook l bookID memberID).1
  | .returnBook bookID memberID => (ReturnBook l bookID memberID).1
  | .reserve bookID memberID =>
    (handleRequest l { BookID := bookID, MemberID := memberID }).1
  | .expire bookID memberID => expiry l bookID memberID

/-- The state after a sequence of operations, starting from `l`. -/
def runFrom (l : Library) (ops : List Op) : Library :=
  ops.foldl step l

/-- The state after a sequence of operations on a fresh library. -/
def run (ops : List Op) : Library :=
  runFrom NewLibrary ops

/-- The library `RunLibrarySystem` seeds before its menu loop: five members, two books. -/
def seedLibrary : Library :=
  run [ .registerMember { ID := 1, Name := "Alice", BorrowedBooks := [] },
        .registerMember { ID := 2, Name := "Bob", BorrowedBooks := [] },
        .registerMember { ID := 3, Name := "Charlie", BorrowedBooks := [] },
        .registerMember { ID := 4, Name := "Dana", BorrowedBooks := [] },
        .registerMember { ID := 5, Name := "Evan", BorrowedBooks := [] },
        .addBook { ID := 1, Title := "The Go Programming Language",
                   Author := "Donovan & Kernighan", Status := "Available" },
        .addBook { ID := 2, Title := "Concurrency in Go",
                   Author := "Katherine Cox-Buday", Status := "Available" } ]

/-- Member `h` is registered and its `BorrowedBooks` has an entry whose `ID` is `id`. -/
def heldBy (l : Library) (id h : Int) : Prop :=
  ∃ m, l.Members.lookup h = some m ∧ ∃ e ∈ m.BorrowedBooks, e.ID = id

instance heldByDecidable (l : Library) (id h : Int) : Decidable (heldBy l id h) :=
  decidable_of_iff (∃ m ∈ l.Members.lookup h, ∃ e ∈ m.BorrowedBooks, e.ID = id)
    (by simp [heldBy, Option.mem_def])

/-- Invariant I1 of the data model: the status of a catalog book is Borrowed if and only if
exactly one member's `BorrowedBooks` contains an entry with that book's id. -/
def I1 (l : Library) : Prop :=
  ∀ id b, l.Books.lookup id = some b → (b.Status = "Borrowed" ↔ ∃! h, heldBy l b.ID h)

/-- Calls that keep the books and their holders in step: `AddBook` of a record whose
status is not Borrowed, not over a Borrowed book; `RegisterMember` of a member with no held
books, not over a member who holds books. Every other operation is unrestricted. -/
def admissible (l : Library) : Op → Prop
  | .addBook book =>
    book.Status ≠ "Borrowed" ∧ ∀ b ∈ l.Books.lookup book.ID, b.Status ≠ "Borrowed"
  | .registerMember m =>
    m.BorrowedBooks = [] ∧ ∀ m0 ∈ l.Members.lookup m.ID, m0.BorrowedBooks = []
  | _ => True

instance (l : Library) (op : Op) : Decidable (admissible l op) := by
  cases op <;> unfold admissible <;> infer_instance

/-- Every operation of the sequence is admissible in the state it is applied to. -/
def admissibleFrom (l : Library) : List Op → Prop
  | [] => True
  | op :: ops => admissible l op ∧ admissibleFrom (step l op) ops

instance admissibleFromDecidable (l : Library) (ops : List Op) :
    Decidable (admissibleFrom l ops) := by
  induction ops generalizing l with
  | nil => unfold admissibleFrom; infer_instance
  | cons op ops ih =>
    unfold admissibleFrom
    exact @instDecidableAnd _ _ _ (ih _)

/-- The consistency invariant of the three maps: every key of `Books` maps to a record
carrying that id; no id occurs twice within one member's `BorrowedBooks`, nor in two
members' `BorrowedBooks`; an id is held by some member if and only if the catalog has that
id with status Borrowed; every reserved id is in the catalog with a status other than
Borrowed. -/
structure Inv (l : Library) : Prop where
  keyID : ∀ k b, l.Books.lookup k = some b → b.ID = k
  nodup : ∀ h m, l.Members.lookup h = some m →
    (m.BorrowedBooks.map (fun e => e.ID)).Nodup
  oneHolder : ∀ id h1 h2, heldBy l id h1 → heldBy l id h2 → h1 = h2
  heldIff : ∀ id, (∃ h, heldBy l id h) ↔
    ∃ b, l.Books.lookup id = some b ∧ b.Status = "Borrowed"
  reserved : ∀ id r, l.reservations.lookup id = some r →
    ∃ b, l.Books.lookup id = some b ∧ b.Status ≠ "Borrowed"

/-- A run the menu of `RunLibrarySystem` allows: two members, book 1 added, member 1
borrows it, book 1 is added again (option 1 with the same id, status "Available"), and
member 2 borrows it. -/
def doubleGrant : List Op :=
  [ .registerMember { ID := 1, Name := "Alice", BorrowedBooks := [] },
    .registerMember { ID := 2, Name := "Bob", BorrowedBooks := [] },
    .addBook { ID := 1, Title := "The Go Programming Language",
               Author := "Donovan & Kernighan", Status := "Available" },
    .borrowBook 1 1,
    .addBook { ID := 1, Title := "The Go Programming Language",
               Author := "Donovan & Kernighan", Status := "Available" },
    .borrowBook 1 2 ]

/-- A run in which every `AddBook` and `RegisterMember` is admissible: two members and two
books, a reservation that its owner consumes, borrows, returns, an expiry, a removal. -/
def sampleRun : List Op :=
  [ .registerMember { ID := 1, Name := "Alice", BorrowedBooks := [] },
    .registerMember { ID := 2, Name := "Bob", BorrowedBooks := [] },
    .addBook { ID := 1, Title := "The Go Programming Language",
               Author := "Donovan & Kernighan", Status := "Available" },
    .addBook { ID := 2, Title := "Concurrency in Go",
               Author := "Katherine Cox-Buday", Status := "Available" },
    .reserve 1 2,
    .borrowBook 1 1,
    .borrowBook 1 2,
    .borrowBook 2 2,
    .expire 1 2,
    .returnBook 1 2,
    .reserve 1 1,
    .expire 1 1,
    .removeBook 1,
    .addBook { ID := 1, Title := "The Go Programming Language",
               Author := "Donovan & Kernighan", Status := "Available" } ]

/-- Every key of `Books` maps to a record carrying that id. -/
def keysCarryIDs (l : Library) : Prop :=
  ∀ k b, l.Books.lookup k = some b → b.ID = k

/-- Invariant I2 of the data model: every item that has a reservation is in the catalog
with status Available. -/
def I2 (l : Library) : Prop :=
  ∀ id r, l.reservations.lookup id = some r →
    ∃ b, l.Books.lookup id = some b ∧ b.Status = "Available"

/-- Invariant I3 of the data model: the reservation table has at most one entry per
item. -/
def I3 (l : Library) : Prop :=
  ∀ id, (l.reservations.entries.map (fun e => e.1)).count id ≤ 1

/-- Calls of `AddBook` that store a record with status Available, as the front end's menu
does; every other operation is unrestricted. -/
def addsAvailable : Op → Prop
  | .addBook book => book.Status = "Available"
  | _ => True

instance (op : Op) : Decidable (addsAvailable op) := by
  cases op <;> unfold addsAvailable <;> infer_instance

/-- A run in which `AddBook` overwrites a reserved book with a Borrowed record. -/
def overwriteReserved : List Op :=
  [ .registerMember { ID := 1, Name := "Alice", BorrowedBooks := [] },
    .addBook { ID := 1, Title := "The Go Programming Language",
               Author := "Donovan & Kernighan", Status := "Available" },
    .reserve 1 1,
    .addBook { ID := 1, Title := "The Go Programming Language",
               Author := "Donovan & Kernighan", Status := "Borrowed" } ]

/-- Every catalog status is Available or Borrowed, and I2 holds. -/
structure StatusInv (l : Library) : Prop where
  twoStatus : ∀ k b, l.Books.lookup k = some b →
    b.Status = "Available" ∨ b.Status = "Borrowed"
  reservedAvailable : I2 l

/-- The state after `BorrowBook x h` immediately followed by `ReturnBook x h`. -/
def borrowReturn (l : Library) (x h : Int) : Library :=
  (ReturnBook (BorrowBook l x h).1 x h).1

/-- A run the menu of `RunLibrarySystem` allows: member 1 borrows books 1 and 2, then book 1
is added again (option 1 with the same id). -/
def readdHeld : List Op :=
  [ .registerMember { ID := 1, Name := "Alice", BorrowedBooks := [] },
    .addBook { ID := 1, Title := "The Go Programming Language",
               Author := "Donovan & Kernighan", Status := "Available" },
    .addBook { ID := 2, Title := "Concurrency in Go",
               Author := "Katherine Cox-Buday", Status := "Available" },
    .borrowBook 1 1,
    .borrowBook 2 1,
    .addBook { ID := 1, Title := "The Go Programming Language",
               Author := "Donovan & Kernighan", Status := "Available" } ]

/-- Operations that are neither a successful `ReturnBook` of `x` nor an `AddBook` with id
`x`. -/
def keepsHeld (x : Int) (l : Library) : Op → Prop
  | .returnBook y h => y = x → (ReturnBook l y h).2 ≠ none
  | .addBook book => book.ID ≠ x
  | _ => True

instance (x : Int) (l : Library) (op : Op) : Decidable (keepsHeld x l op) := by
  cases op <;> unfold keepsHeld <;> infer_instance

/-- No operation of the sequence, run from `l`, is a successful `ReturnBook` of `x` or an
`AddBook` with id `x`. -/
def keepsHeldFrom (x : Int) (l : Library) : List Op → Prop
  | [] => True
  | op :: ops => keepsHeld x l op ∧ keepsHeldFrom x (step l op) ops

instance keepsHeldFromDecidable (x : Int) (l : Library) (ops : List Op) :
    Decidable (keepsHeldFrom x l ops) := by
  induction ops generalizing l with
  | nil => unfold keepsHeldFrom; infer_instance
  | cons op ops ih =>
    unfold keepsHeldFrom
    exact @instDecidableAnd _ _ _ (ih _)

/-- Operations other than a Reserve request for `(x, h)` that the worker accepts. -/
def noNewReservation (x h : Int) (l : Library) : Op → Prop
  | .reserve y h1 =>
    y = x → h1 = h → (handleRequest l { BookID := y, MemberID := h1 }).2 ≠ none
  | _ => True

instance (x h : Int) (l : Library) (op : Op) : Decidable (noNewReservation x h l op) := by
  cases op <;> unfold noNewReservation <;> infer_instance

/-- No operation of the sequence, run from `l`, is a Reserve request for `(x, h)` that the
worker accepts. -/
def noNewReservationFrom (x h : Int) (l : Library) : List Op → Prop
  | [] => True
  | op :: ops => noNewReservation x h l op ∧ noNewReservationFrom x h (step l op) ops

instance noNewReservationFromDecidable (x h : Int) (l : Library) (ops : List Op) :
    Decidable (noNewReservationFrom x h l ops) := by
  induction ops generalizing l with
  | nil => unfold noNewReservationFrom; infer_instance
  | cons op ops ih =>
    unfold noNewReservationFrom
    exact @instDecidableAnd _ _ _ (ih _)

/-- Calls of `RegisterMember` that leave `x` with the holder `h`: a member stored under id
`h` has an entry with id `x`, a member stored under another id has none. Every other
operation is unrestricted. -/
def keepsHolder (x h : Int) (_l : Library) : Op → Prop
  | .registerMember m => (m.ID = h ↔ ∃ e ∈ m.BorrowedBooks, e.ID = x)
  | _ => True

instance (x h : Int) (l : Library) (op : Op) : Decidable (keepsHolder x h l op) := by
  cases op <;> unfold keepsHolder <;> infer_instance

end Task4

/-! # The plain engine (Task-3 `services` package)

`Task-3/services/library_service.go`: the same catalog without mutex, reservations or
worker. The records of `task3/models` have the fields of `task4/models`, so the two engines
share `Book` and `Member`. -/

namespace Task3

/-- The `Library` struct of Task-3: the catalog and the members. -/
structure Library where
  Books : Finmap (fun _ : Int => Task4.Book)
  Members : Finmap (fun _ : Int => Task4.Member)
deriving DecidableEq

/-- Method `BorrowBook` of Task-3. -/
def BorrowBook (l : Library) (bookID memberID : Int) : Library × Option String :=
  match l.Books.lookup bookID with
  | none => (l, some "book not found")
  | some book =>
    match l.Members.lookup memberID with
    | none => (l, some "member not found")
    | some member =>
      if book.Status = "Borrowed" then
        (l, some "book is already borrowed")
      else
        let book1 : Task4.Book := { book with Status := "Borrowed" }
        let member1 : Task4.Member :=
          { member with BorrowedBooks := member.BorrowedBooks ++ [book1] }
        ({ Books := l.Books.insert bookID book1
           Members := l.Members.insert memberID member1 }, none)

/-- The search loop of Task-3's `ReturnBook`: the slice without the first record whose `ID`
is `bookID`, or `none` when `found` stays false. -/
def removeBorrowed (bookID : Int) : List Task4.Book → Option (List Task4.Book)
  | [] => none
  | b :: bs =>
    if b.ID = bookID then some bs
    else (removeBorrowed bookID bs).map (fun rest => b :: rest)

/-- Method `ReturnBook` of Task-3. -/
def ReturnBook (l : Library) (bookID memberID : Int) : Library × Option String :=
  match l.Members.lookup memberID with
  | none => (l, some "member not found")
  | some member =>
    match l.Books.lookup bookID with
    | none => (l, some "book not found")
    | some book =>
      match removeBorrowed bookID member.BorrowedBooks with
      | none => (l, some "book not borrowed by this member")
      | some rest =>
        ({ Books := l.Books.insert bookID { book with Status := "Available" }
           Members := l.Members.insert memberID { member with BorrowedBooks := rest } },
         none)

end Task3


/-! # The engine with Go slices in memory

`models.Member.BorrowedBooks` is a Go slice: a header (pointer into a backing array, length,
capacity) whose array may be shared. `RegisterMember` stores the caller's header as it is,
`append(member.BorrowedBooks, book)` writes into the backing array when the length is below
the capacity and allocates a new array otherwise, and `append(s[:i], s[i+1:]...)` shifts the
tail of the array in place. The namespace `Task4Mem` embeds the engine with these slices:
the state carries the contents of the backing arrays next to the three maps.

The engine of namespace `Task4` above, with one list per member, is the view of this one
when no two members' slices share a backing array (`BorrowBook_view`, `ReturnBook_view`). -/

namespace Task4Mem

/-- The identity of a backing array: allocated by the caller of the engine, or by a call of
`append` inside the engine. -/
inductive ArrId where
  | caller (n : Nat)
  | engine (n : Nat)
deriving DecidableEq, Repr

/-- A slice header of type `[]models.Book`: the backing array and the offset of the first
element in it, the length and the capacity. -/
structure Slice where
  arr : ArrId
  off : Nat
  len : Nat
  cap : Nat
deriving DecidableEq, Repr

/-- The nil slice: length and capacity 0. -/
def nilSlice : Slice :=
  { arr := .caller 0, off := 0, len := 0, cap := 0 }

/-- The contents of all backing arrays: the record in cell `i` of array `a`. A slice reads
and writes only the cells from `off` up to `off + cap`. -/
abbrev Heap := ArrId → Nat → Task4.Book

/-- The zero value of `models.Book`, which a freshly allocated cell holds. -/
def zeroBook : Task4.Book :=
  { ID := 0, Title := "", Author := "", Status := "" }

/-- The elements of a slice: the cells `off, …, off + len - 1` of its backing array. -/
def view (hp : Heap) (s : Slice) : List Task4.Book :=
  (List.range s.len).map (fun i => hp s.arr (s.off + i))

/-- The heap after copying `vals` into the cells `start, start + 1, …` of array `a`. -/
def writeAt (hp : Heap) (a : ArrId) (start : Nat) (vals : List Task4.Book) : Heap :=
  fun a1 i =>
    if a1 = a ∧ start ≤ i ∧ i < start + vals.length then vals.getD (i - start) zeroBook
    else hp a1 i

/-- The builtin `append(s, vals...)`: when the result fits the capacity, the values are
written behind the slice's elements in its own backing array and the header grows in place;
otherwise a new array `fresh` receives the elements and the values. `g` is the capacity the
runtime chooses for a new array holding the given number of elements. -/
def goAppend (g : Nat → Nat) (hp : Heap) (fresh : ArrId) (s : Slice)
    (vals : List Task4.Book) : Heap × Slice :=
  if s.len + vals.length ≤ s.cap then
    (writeAt hp s.arr (s.off + s.len) vals, { s with len := s.len + vals.length })
  else
    (fun a i => if a = fresh then (view hp s ++ vals).getD i zeroBook else hp a i,
     { arr := fresh, off := 0, len := s.len + vals.length,
       cap := max (g (s.len + vals.length)) (s.len + vals.length) })

/-- Record `models.Member` with its slice header. -/
structure Member where
  ID : Int
  Name : String
  BorrowedBooks : Slice
deriving DecidableEq, Repr

/-- The three maps of the `Library` struct, and the backing arrays of the slices. -/
structure Library where
  Books : Finmap (fun _ : Int => Task4.Book)
  Members : Finmap (fun _ : Int => Member)
  reservations : Finmap (fun _ : Int => Task4.reservation)
  heap : Heap

/-- Function `NewLibrary`, in a memory whose arrays the caller has filled as `hp`. -/
def NewLibrary (hp : Heap) : Library :=
  { Books := ∅, Members := ∅, reservations := ∅, heap := hp }

/-- Method `RegisterMember`: `l.Members[m.ID] = m`, slice header included. -/
def RegisterMember (l : Library) (m : Member) : Library :=
  { l with Members := l.Members.insert m.ID m }

/-- Method `AddBook`: `l.Books[book.ID] = book`. -/
def AddBook (l : Library) (book : Task4.Book) : Library :=
  { l with Books := l.Books.insert book.ID book }

/-- Method `RemoveBook`. -/
def RemoveBook (l : Library) (bookID : Int) : Library × Option String :=
  match l.Books.lookup bookID with
  | none => (l, some "book not found")
  | some book =>
    if book.Status = "Borrowed" then
      (l, some "cannot remove: book is borrowed")
    else
      match l.reservations.lookup bookID with
      | some _ => (l, some "cannot remove: book is reserved")
      | none => ({ l with Books := l.Books.erase bookID }, none)

/-- The number of an engine array, plus one; 0 for a caller's array. -/
def engineIndex : ArrId → Nat
  | .engine n => n + 1
  | .caller _ => 0

/-- An array no member's slice points into: the one a call of `append` allocates. -/
def freshArr (l : Library) : ArrId :=
  .engine (l.Members.entries.map (fun e => engineIndex e.2.BorrowedBooks.arr)).sup

/-- Method `BorrowBook`; the member's slice becomes `append(member.BorrowedBooks, book)`. -/
def BorrowBook (g : Nat → Nat) (l : Library) (bookID memberID : Int) :
    Library × Option String :=
  match l.Books.lookup bookID with
  | none => (l, some "book not found")
  | some book =>
    match l.Members.lookup memberID with
    | none => (l, some "member not found")
    | some member =>
      if (match l.reservations.lookup bookID with
          | some res => decide (res.MemberID ≠ memberID)
          | none => false) then
        (l, some "book is reserved by another member")
      else if book.Status = "Borrowed" then
        (l, some "book already borrowed")
      else
        let book1 : Task4.Book := { book with Status := "Borrowed" }
        let r := goAppend g l.heap (freshArr l) member.BorrowedBooks [book1]
        ({ Books := l.Books.insert bookID book1
           Members := l.Members.insert memberID { member with BorrowedBooks := r.2 }
           reservations :=
             match l.reservations.lookup bookID with
             | some res =>
               if res.MemberID = memberID then l.reservations.erase bookID
               else l.reservations
             | none => l.reservations
           heap := r.1 }, none)

/-- The search loop of `ReturnBook` over the elements of the member's slice: the first index
`i` whose record has `ID == bookID`, or `none` when `found` stays false. -/
def indexOfID (bookID : Int) : List Task4.Book → Option Nat
  | [] => none
  | b :: bs =>
    if b.ID = bookID then some 0
    else (indexOfID bookID bs).map (fun i => i + 1)

/-- Method `ReturnBook`; at the index `i` found, the member's slice becomes
`append(s[:i], s[i+1:]...)`. -/
def ReturnBook (g : Nat → Nat) (l : Library) (bookID memberID : Int) :
    Library × Option String :=
  match l.Members.lookup memberID with
  | none => (l, some "member not found")
  | some member =>
    match l.Books.lookup bookID with
    | none => (l, some "book not found")
    | some book =>
      match indexOfID bookID (view l.heap member.BorrowedBooks) with
      | none => (l, some "book not borrowed by this member")
      | some i =>
        let s := member.BorrowedBooks
        let r := goAppend g l.heap (freshArr l) { s with len := i }
          (view l.heap
            { s with off := s.off + (i + 1), len := s.len - (i + 1), cap := s.cap - (i + 1) })
        ({ Books := l.Books.insert bookID { book with Status := "Available" }
           Members := l.Members.insert memberID { member with BorrowedBooks := r.2 }
           reservations := l.reservations
           heap := r.1 }, none)

/-- Method `ListBorrowedBooks`: the returned slice is a copy in an array of its own, so the
caller receives the elements only. -/
def ListBorrowedBooks (l : Library) (memberID : Int) : Library × List Task4.Book :=
  match l.Members.lookup memberID with
  | none => (l, [])
  | some member => (l, [] ++ view l.heap member.BorrowedBooks)

/-- One iteration of the loop of `startReservationWorker` for a received request. -/
def handleRequest (l : Library) (req : Task4.ReservationRequest) :
    Library × Option String :=
  match l.Books.lookup req.BookID with
  | none => (l, some "book not found")
  | some book =>
    match l.Members.lookup req.MemberID with
    | none => (l, some "member not found")
    | some _ =>
      if book.Status = "Borrowed" then
        (l, some "book already borrowed")
      else
        match l.reservations.lookup req.BookID with
        | some _ => (l, some "book already reserved")
        | none =>
          ({ l with
             reservations := l.reservations.insert req.BookID { MemberID := req.MemberID } },
           none)

/-- The closure passed to `time.AfterFunc` for an accepted request `(bookID, memberID)`. -/
def expiry (l : Library) (bookID memberID : Int) : Library :=
  match l.reservations.lookup bookID with
  | some r =>
    if r.MemberID = memberID then
      match l.Books.lookup bookID with
      | some b =>
        if b.Status ≠ "Borrowed" then
          { l with reservations := l.reservations.erase bookID }
        else l
      | none => l
    else l
  | none => l

/-- The engine's operations, as events of a run. -/
inductive Op where
  | addBook (book : Task4.Book)
  | registerMember (m : Member)
  | removeBook (bookID : Int)
  | borrowBook (bookID memberID : Int)
  | returnBook (bookID memberID : Int)
  | reserve (bookID memberID : Int)
  | expire (bookID memberID : Int)
deriving DecidableEq, Repr

/-- The state after one operation. -/
def step (g : Nat → Nat) (l : Library) : Op → Library
  | .addBook book => AddBook l book
  | .registerMember m => RegisterMember l m
  | .removeBook bookID => (RemoveBook l bookID).1
  | .borrowBook bookID memberID => (BorrowBook g l bookID memberID).1
  | .returnBook bookID memberID => (ReturnBook g l bookID memberID).1
  | .reserve bookID memberID =>
    (handleRequest l { BookID := bookID, MemberID := memberID }).1
  | .expire bookID memberID => expiry l bookID memberID

/-- The state after a sequence of operations, starting from `l`. -/
def runFrom (g : Nat → Nat) (l : Library) (ops : List Op) : Library :=
  ops.foldl (step g) l

/-- The state after a sequence of operations on a fresh library, in a memory whose arrays
the caller has filled as `hp`. -/
def run (g : Nat → Nat) (hp : Heap) (ops : List Op) : Library :=
  runFrom g (NewLibrary hp) ops

/-- The member record with the elements of its slice. -/
def viewMember (hp : Heap) (m : Member) : Task4.Member :=
  { ID := m.ID, Name := m.Name, BorrowedBooks := view hp m.BorrowedBooks }

/-- The map with `f` applied to every value. -/
def mapVal {V W : Type} (f : V → W) (m : Finmap (fun _ : Int => V)) :
    Finmap (fun _ : Int => W) :=
  { entries := m.entries.map (fun e => ⟨e.1, f e.2⟩)
    nodupKeys := Multiset.nodup_keys.1 (by
      simpa [Multiset.keys, Multiset.map_map, Function.comp] using m.nodupKeys.nodup_keys) }

/-- What the engine's methods read of a state: the three maps, each member with the
elements of its slice. -/
def viewLibrary (l : Library) : Task4.Library :=
  { Books := l.Books
    Members := mapVal (viewMember l.heap) l.Members
    reservations := l.reservations }

/-- Two slices that cannot see each other's writes: they lie in different backing arrays,
or one of them is empty with capacity 0 (as the nil slice is). -/
def apart (s t : Slice) : Prop :=
  s.arr ≠ t.arr ∨ (s.len = 0 ∧ s.cap = 0) ∨ (t.len = 0 ∧ t.cap = 0)

instance (s t : Slice) : Decidable (apart s t) := by
  unfold apart; infer_instance

/-- No two members' slices share a backing array. -/
def Sep (l : Library) : Prop :=
  ∀ k1 k2 m1 m2, k1 ≠ k2 → l.Members.lookup k1 = some m1 → l.Members.lookup k2 = some m2 →
    apart m1.BorrowedBooks m2.BorrowedBooks

/-- The operation as the engine with one list per member sees it: a member to register
comes with the elements of its slice. -/
def viewOp (hp : Heap) : Op → Task4.Op
  | .addBook book => .addBook book
  | .registerMember m => .registerMember (viewMember hp m)
  | .removeBook bookID => .removeBook bookID
  | .borrowBook bookID memberID => .borrowBook bookID memberID
  | .returnBook bookID memberID => .returnBook bookID memberID
  | .reserve bookID memberID => .reserve bookID memberID
  | .expire bookID memberID => .expire bookID memberID

/-- Calls of `RegisterMember` whose slice is apart from the slice of every member registered
under another id; every other operation is unrestricted. -/
def ownArray (l : Library) : Op → Prop
  | .registerMember m =>
    ∀ e ∈ l.Members.entries, e.1 ≠ m.ID → apart m.BorrowedBooks e.2.BorrowedBooks
  | _ => True

instance (l : Library) (op : Op) : Decidable (ownArray l op) := by
  cases op <;> unfold ownArray <;> infer_instance

/-- Every `RegisterMember` of the sequence, run from `l`, brings a slice apart from the
slices of the members registered under another id. -/
def ownArrayFrom (g : Nat → Nat) (l : Library) : List Op → Prop
  | [] => True
  | op :: ops => ownArray l op ∧ ownArrayFrom g (step g l op) ops

instance ownArrayFromDecidable (g : Nat → Nat) (l : Library) (ops : List Op) :
    Decidable (ownArrayFrom g l ops) := by
  induction ops generalizing l with
  | nil => unfold ownArrayFrom; infer_instance
  | cons op ops ih =>
    unfold ownArrayFrom
    exact @instDecidableAnd _ _ _ (ih _)

/-- Every operation of the sequence, run from `l`, satisfies `P` in the view of the state it
is applied to. -/
def alongRun (g : Nat → Nat) (P : Task4.Library → Task4.Op → Prop) (l : Library) :
    List Op → Prop
  | [] => True
  | op :: ops => P (viewLibrary l) (viewOp l.heap op) ∧ alongRun g P (step g l op) ops

instance alongRunDecidable (g : Nat → Nat) (P : Task4.Library → Task4.Op → Prop)
    [∀ s op, Decidable (P s op)] (l : Library) (ops : List Op) :
    Decidable (alongRun g P l ops) := by
  induction ops generalizing l with
  | nil => unfold alongRun; infer_instance
  | cons op ops ih =>
    unfold alongRun
    exact @instDecidableAnd _ _ _ (ih _)

/-- The state after `BorrowBook x h` immediately followed by `ReturnBook x h`. -/
def borrowReturn (g : Nat → Nat) (l : Library) (x h : Int) : Library :=
  (ReturnBook g (BorrowBook g l x h).1 x h).1

/-- A memory in which every cell holds the zero value. -/
def emptyHeap : Heap :=
  fun _ _ => zeroBook

/-- A growth rule for `append`: a new array has twice the capacity needed. -/
def doubling (n : Nat) : Nat :=
  2 * n

/-- The library `RunLibrarySystem` seeds before its menu loop: five members, each with the
nil slice the struct literal `models.Member{ID: i, Name: n}` gives, and two books. -/
def seedLibrary : Library :=
  run doubling emptyHeap
    [ .registerMember { ID := 1, Name := "Alice", BorrowedBooks := nilSlice },
      .registerMember { ID := 2, Name := "Bob", BorrowedBooks := nilSlice },
      .registerMember { ID := 3, Name := "Charlie", BorrowedBooks := nilSlice },
      .registerMember { ID := 4, Name := "Dana", BorrowedBooks := nilSlice },
      .registerMember { ID := 5, Name := "Evan", BorrowedBooks := nilSlice },
      .addBook { ID := 1, Title := "The Go Programming Language",
                 Author := "Donovan & Kernighan", Status := "Available" },
      .addBook { ID := 2, Title := "Concurrency in Go",
                 Author := "Katherine Cox-Buday", Status := "Available" } ]

/-- The slice `make([]models.Book, 0, 4)` of a caller: empty, with room for four records in
the caller's array 0. -/
def sharedSlice : Slice :=
  { arr := .caller 0, off := 0, len := 0, cap := 4 }

/-- A caller registers two members with one and the same slice `sharedSlice` and adds three
books. -/
def sharedOps : List Op :=
  [ .registerMember { ID := 1, Name := "Alice", BorrowedBooks := sharedSlice },
    .registerMember { ID := 2, Name := "Bob", BorrowedBooks := sharedSlice },
    .addBook { ID := 1, Title := "The Go Programming Language",
               Author := "Donovan & Kernighan", Status := "Available" },
    .addBook { ID := 2, Title := "Concurrency in Go",
               Author := "Katherine Cox-Buday", Status := "Available" },
    .addBook { ID := 3, Title := "Learning Go", Author := "Jon Bodner",
               Status := "Available" } ]

/-- The state after `sharedOps`. -/
def sharedLibrary : Library :=
  run doubling emptyHeap sharedOps

/-- The state after `sharedOps` and `BorrowBook 1 1`: member 1 holds book 1, written into
cell 0 of the shared array. -/
def sharedBorrowed : Library :=
  (BorrowBook doubling sharedLibrary 1 1).1

/-- The run `Task4.doubleGrant`, the members registered with nil slices. -/
def doubleGrant : List Op :=
  [ .registerMember { ID := 1, Name := "Alice", BorrowedBooks := nilSlice },
    .registerMember { ID := 2, Name := "Bob", BorrowedBooks := nilSlice },
    .addBook { ID := 1, Title := "The Go Programming Language",
               Author := "Donovan & Kernighan", Status := "Available" },
    .borrowBook 1 1,
    .addBook { ID := 1, Title := "The Go Programming Language",
               Author := "Donovan & Kernighan", Status := "Available" },
    .borrowBook 1 2 ]

/-- The run `Task4.sampleRun`, the members registered with nil slices. -/
def sampleRun : List Op :=
  [ .registerMember { ID := 1, Name := "Alice", BorrowedBooks := nilSlice },
    .registerMember { ID := 2, Name := "Bob", BorrowedBooks := nilSlice },
    .addBook { ID := 1, Title := "The Go Programming Language",
               Author := "Donovan & Kernighan", Status := "Available" },
    .addBook { ID := 2, Title := "Concurrency in Go",
               Author := "Katherine Cox-Buday", Status := "Available" },
    .reserve 1 2,
    .borrowBook 1 1,
    .borrowBook 1 2,
    .borrowBook 2 2,
    .expire 1 2,
    .returnBook 1 2,
    .reserve 1 1,
    .expire 1 1,
    .removeBook 1,
    .addBook { ID := 1, Title := "The Go Programming Language",
               Author := "Donovan & Kernighan", Status := "Available" } ]

/-- The run `Task4.readdHeld`, the member registered with a nil slice. -/
def readdHeld : List Op :=
  [ .registerMember { ID := 1, Name := "Alice", BorrowedBooks := nilSlice },
    .addBook { ID := 1, Title := "The Go Programming Language",
               Author := "Donovan & Kernighan", Status := "Available" },
    .addBook { ID := 2, Title := "Concurrency in Go",
               Author := "Katherine Cox-Buday", Status := "Available" },
    .borrowBook 1 1,
    .borrowBook 2 1,
    .addBook { ID := 1, Title := "The Go Programming Language",
               Author := "Donovan & Kernighan", Status := "Available" } ]

end Task4Mem

namespace Task4

/-! ## Helper lemmas -/

theorem removeBorrowed_eq_none (x : Int) (bs : List Book) :
    removeBorrowed x bs = none ↔ ∀ e ∈ bs, e.ID ≠ x := by
  induction bs with
  | nil => simp [removeBorrowed]
  | cons b bs ih =>
    by_cases hb : b.ID = x
    · simp [removeBorrowed, hb]
    · simp [removeBorrowed, hb, ih]

theorem removeBorrowed_eq_some (x : Int) (bs rest : List Book)
    (h : removeBorrowed x bs = some rest) :
    ∃ pre e post, bs = pre ++ e :: post ∧ e.ID = x ∧ (∀ p ∈ pre, p.ID ≠ x) ∧
      rest = pre ++ post := by
  induction bs generalizing rest with
  | nil => simp [removeBorrowed] at h
  | cons b bs ih =>
    by_cases hb : b.ID = x
    · simp [removeBorrowed, hb] at h
      exact ⟨[], b, bs, by simp, hb, by simp, by simp [h]⟩
    · simp [removeBorrowed, hb] at h
      obtain ⟨r, hr, rfl⟩ := h
      obtain ⟨pre, e, post, h1, h2, h3, h4⟩ := ih r hr
      refine ⟨b :: pre, e, post, by simp [h1], h2, ?_, by simp [h4]⟩
      intro p hp
      rcases List.mem_cons.mp hp with rfl | hp
      · exact hb
      · exact h3 p hp

/-- Erasing a key that is not in the map leaves the map as it was. -/
theorem erase_of_lookup_none {V : Type} (m : Finmap (fun _ : Int => V)) (k : Int)
    (h : m.lookup k = none) : m.erase k = m := by
  apply Finmap.ext_lookup
  intro a
  by_cases ha : a = k
  · subst ha
    rw [Finmap.lookup_erase, h]
  · rw [Finmap.lookup_erase_ne ha]

/-- A failing `BorrowBook` returns the library it was given. -/
theorem BorrowBook_fail_state (l : Library) (x h : Int)
    (hf : (BorrowBook l x h).2 ≠ none) : (BorrowBook l x h).1 = l := by
  cases hb : l.Books.lookup x with
  | none => simp [BorrowBook, hb]
  | some b =>
    cases hm : l.Members.lookup h with
    | none => simp [BorrowBook, hb, hm]
    | some m =>
      by_cases hst : b.Status = "Borrowed"
      · cases hr : l.reservations.lookup x with
        | none => simp [BorrowBook, hb, hm, hr, hst]
        | some r =>
          by_cases hne : r.MemberID = h
          · simp [BorrowBook, hb, hm, hr, hst, hne]
          · simp [BorrowBook, hb, hm, hr, hne]
      · cases hr : l.reservations.lookup x with
        | none => simp [BorrowBook, hb, hm, hr, hst] at hf
        | some r =>
          by_cases hne : r.MemberID = h
          · simp [BorrowBook, hb, hm, hr, hst, hne] at hf
          · simp [BorrowBook, hb, hm, hr, hne]

/-- What a successful `BorrowBook` found and what it returns. -/
theorem BorrowBook_ok (l : Library) (x h : Int) (hok : (BorrowBook l x h).2 = none) :
    ∃ b m, l.Books.lookup x = some b ∧ l.Members.lookup h = some m ∧
      b.Status ≠ "Borrowed" ∧
      (∀ r, l.reservations.lookup x = some r → r.MemberID = h) ∧
      (BorrowBook l x h).1 =
        { Books := l.Books.insert x { b with Status := "Borrowed" }
          Members := l.Members.insert h
            { m with BorrowedBooks := m.BorrowedBooks ++ [{ b with Status := "Borrowed" }] }
          reservations := l.reservations.erase x } := by
  cases hb : l.Books.lookup x with
  | none => simp [BorrowBook, hb] at hok
  | some b =>
    cases hm : l.Members.lookup h with
    | none => simp [BorrowBook, hb, hm] at hok
    | some m =>
      refine ⟨b, m, rfl, rfl, ?_⟩
      cases hr : l.reservations.lookup x with
      | none =>
        by_cases hst : b.Status = "Borrowed"
        · simp [BorrowBook, hb, hm, hr, hst] at hok
        · refine ⟨hst, by simp, ?_⟩
          simp [BorrowBook, hb, hm, hr, hst, erase_of_lookup_none _ _ hr]
      | some r =>
        by_cases hne : r.MemberID = h
        · by_cases hst : b.Status = "Borrowed"
          · simp [BorrowBook, hb, hm, hr, hst, hne] at hok
          · refine ⟨hst, by simp [hne], ?_⟩
            simp [BorrowBook, hb, hm, hr, hst, hne]
        · simp [BorrowBook, hb, hm, hr, hne] at hok

/-- A failing `ReturnBook` returns the library it was given. -/
theorem ReturnBook_fail_state (l : Library) (x h : Int)
    (hf : (ReturnBook l x h).2 ≠ none) : (ReturnBook l x h).1 = l := by
  cases hm : l.Members.lookup h with
  | none => simp [ReturnBook, hm]
  | some m =>
    cases hb : l.Books.lookup x with
    | none => simp [ReturnBook, hb, hm]
    | some b =>
      cases hr : removeBorrowed x m.BorrowedBooks with
      | none => simp [ReturnBook, hb, hm, hr]
      | some rest => simp [ReturnBook, hb, hm, hr] at hf

/-- What a successful `ReturnBook` found and what it returns. -/
theorem ReturnBook_ok (l : Library) (x h : Int) (hok : (ReturnBook l x h).2 = none) :
    ∃ b m rest, l.Books.lookup x = some b ∧ l.Members.lookup h = some m ∧
      removeBorrowed x m.BorrowedBooks = some rest ∧
      (ReturnBook l x h).1 =
        { Books := l.Books.insert x { b with Status := "Available" }
          Members := l.Members.insert h { m with BorrowedBooks := rest }
          reservations := l.reservations } := by
  cases hm : l.Members.lookup h with
  | none => simp [ReturnBook, hm] at hok
  | some m =>
    cases hb : l.Books.lookup x with
    | none => simp [ReturnBook, hb, hm] at hok
    | some b =>
      cases hr : removeBorrowed x m.BorrowedBooks with
      | none => simp [ReturnBook, hb, hm, hr] at hok
      | some rest =>
        exact ⟨b, m, rest, rfl, rfl, hr, by simp [ReturnBook, hb, hm, hr]⟩

/-- A failing `RemoveBook` returns the library it was given. -/
theorem RemoveBook_fail_state (l : Library) (x : Int)
    (hf : (RemoveBook l x).2 ≠ none) : (RemoveBook l x).1 = l := by
  cases hb : l.Books.lookup x with
  | none => simp [RemoveBook, hb]
  | some b =>
    by_cases hst : b.Status = "Borrowed"
    · simp [RemoveBook, hb, hst]
    · cases hr : l.reservations.lookup x with
      | some r => simp [RemoveBook, hb, hst, hr]
      | none => simp [RemoveBook, hb, hst, hr] at hf

/-- What a successful `RemoveBook` found and what it returns. -/
theorem RemoveBook_ok (l : Library) (x : Int) (hok : (RemoveBook l x).2 = none) :
    ∃ b, l.Books.lookup x = some b ∧ b.Status ≠ "Borrowed" ∧
      l.reservations.lookup x = none ∧
      (RemoveBook l x).1 = { l with Books := l.Books.erase x } := by
  cases hb : l.Books.lookup x with
  | none => simp [RemoveBook, hb] at hok
  | some b =>
    by_cases hst : b.Status = "Borrowed"
    · simp [RemoveBook, hb, hst] at hok
    · cases hr : l.reservations.lookup x with
      | some r => simp [RemoveBook, hb, hst, hr] at hok
      | none => exact ⟨b, rfl, hst, rfl, by simp [RemoveBook, hb, hst, hr]⟩

/-- A request the worker rejects leaves the library as it was. -/
theorem handleRequest_fail_state (l : Library) (req : ReservationRequest)
    (hf : (handleRequest l req).2 ≠ none) : (handleRequest l req).1 = l := by
  cases hb : l.Books.lookup req.BookID with
  | none => simp [handleRequest, hb]
  | some b =>
    cases hm : l.Members.lookup req.MemberID with
    | none => simp [handleRequest, hb, hm]
    | some m =>
      by_cases hst : b.Status = "Borrowed"
      · simp [handleRequest, hb, hm, hst]
      · cases hr : l.reservations.lookup req.BookID with
        | some r => simp [handleRequest, hb, hm, hst, hr]
        | none => simp [handleRequest, hb, hm, hst, hr] at hf

/-- What the worker found for a request it accepts and what it leaves behind. -/
theorem handleRequest_ok (l : Library) (req : ReservationRequest)
    (hok : (handleRequest l req).2 = none) :
    ∃ b m, l.Books.lookup req.BookID = some b ∧ l.Members.lookup req.MemberID = some m ∧
      b.Status ≠ "Borrowed" ∧ l.reservations.lookup req.BookID = none ∧
      (handleRequest l req).1 =
        { l with reservations :=
            l.reservations.insert req.BookID { MemberID := req.MemberID } } := by
  cases hb : l.Books.lookup req.BookID with
  | none => simp [handleRequest, hb] at hok
  | some b =>
    cases hm : l.Members.lookup req.MemberID with
    | none => simp [handleRequest, hb, hm] at hok
    | some m =>
      by_cases hst : b.Status = "Borrowed"
      · simp [handleRequest, hb, hm, hst] at hok
      · cases hr : l.reservations.lookup req.BookID with
        | some r => simp [handleRequest, hb, hm, hst, hr] at hok
        | none => exact ⟨b, m, rfl, rfl, hst, rfl, by simp [handleRequest, hb, hm, hst, hr]⟩

/-- Requests for a book that already carries a reservation are all answered "book already
reserved" and change nothing. -/
theorem worker_all_rejected (l : Library) (x : Int) (b : Book) (r : reservation)
    (hb : l.Books.lookup x = some b) (hst : b.Status ≠ "Borrowed")
    (hr : l.reservations.lookup x = some r) (reqs : List ReservationRequest)
    (hx : ∀ q ∈ reqs, q.BookID = x ∧ q.MemberID ∈ l.Members) :
    startReservationWorker l reqs =
      (l, List.replicate reqs.length (some "book already reserved")) := by
  induction reqs with
  | nil => simp [startReservationWorker]
  | cons q rest ih =>
    obtain ⟨hq, hm⟩ := hx q (List.mem_cons_self _ _)
    obtain ⟨m, hm⟩ := Finmap.mem_iff.mp hm
    have hstep : handleRequest l q = (l, some "book already reserved") := by
      rw [← hq] at hb hr
      simp [handleRequest, hb, hm, hst, hr]
    have ih1 := ih (fun q1 hq1 => hx q1 (List.mem_cons_of_mem _ hq1))
    simp [startReservationWorker, hstep, ih1, List.replicate_succ]

/-- An entry of a map is what looking up its key returns. -/
theorem lookup_of_mem_entries {V : Type} (m : Finmap (fun _ : Int => V))
    (e : Sigma (fun _ : Int => V)) (he : e ∈ m.entries) : m.lookup e.1 = some e.2 :=
  Finmap.lookup_eq_some_iff.mpr he

/-- The number of times a record is listed by `ListAvailableBooks` is the number of keys
that carry it, are Available and are not reserved. -/
theorem count_ListAvailableBooks (l : Library) (r : Book) :
    (ListAvailableBooks l).2.count r =
      (l.Books.keys.filter (fun id => l.Books.lookup id = some r ∧ r.Status = "Available" ∧
        l.reservations.lookup id = none)).card := by
  unfold ListAvailableBooks
  simp only [Multiset.count_map, Multiset.filter_filter, Finset.card, Finset.filter_val,
    Finmap.keys, Multiset.keys, Multiset.filter_map, Multiset.card_map]
  congr 1
  apply Multiset.filter_congr
  intro e he
  have hl := lookup_of_mem_entries l.Books e he
  simp only [Function.comp, hl, Option.some.injEq]
  constructor
  · rintro ⟨h1, h2, h3⟩
    subst h1
    exact ⟨rfl, h2, h3⟩
  · rintro ⟨h1, h2, h3⟩
    subst h1
    exact ⟨rfl, h2, h3⟩

/-- Membership in the result of `ListAvailableBooks`. -/
theorem mem_ListAvailableBooks (l : Library) (r : Book) :
    r ∈ (ListAvailableBooks l).2 ↔
      ∃ id, l.Books.lookup id = some r ∧ r.Status = "Available" ∧
        l.reservations.lookup id = none := by
  unfold ListAvailableBooks
  simp only [Multiset.mem_map, Multiset.mem_filter]
  constructor
  · rintro ⟨e, ⟨he, h2, h3⟩, rfl⟩
    exact ⟨e.1, lookup_of_mem_entries l.Books e he, h2, h3⟩
  · rintro ⟨id, h1, h2, h3⟩
    exact ⟨⟨id, r⟩, ⟨Finmap.lookup_eq_some_iff.mp h1, h2, h3⟩, rfl⟩

/-- A fresh library satisfies the invariant. -/
theorem Inv_NewLibrary : Inv NewLibrary := by
  constructor
  · intro k b h; simp [NewLibrary] at h
  · intro h m hm; simp [NewLibrary] at hm
  · rintro id h1 h2 ⟨m, hm, _⟩; simp [NewLibrary] at hm
  · intro id
    constructor
    · rintro ⟨h, m, hm, _⟩; simp [NewLibrary] at hm
    · rintro ⟨b, hb, _⟩; simp [NewLibrary] at hb
  · intro id r hr; simp [NewLibrary] at hr

/-- An admissible `AddBook` keeps the invariant. -/
theorem Inv_AddBook (l : Library) (book : Book) (hI : Inv l)
    (ha : admissible l (.addBook book)) : Inv (AddBook l book) := by
  obtain ⟨hst, hold⟩ := ha
  have hlk : ∀ k, k ≠ book.ID → (AddBook l book).Books.lookup k = l.Books.lookup k :=
    fun k hk => Finmap.lookup_insert_of_ne _ hk
  have hself : (AddBook l book).Books.lookup book.ID = some book :=
    Finmap.lookup_insert _
  constructor
  · intro k b h
    by_cases hk : k = book.ID
    · subst hk
      rw [hself] at h
      cases h; rfl
    · rw [hlk k hk] at h
      exact hI.keyID k b h
  · exact hI.nodup
  · exact hI.oneHolder
  · intro id
    by_cases hk : id = book.ID
    · subst hk
      constructor
      · intro hh
        obtain ⟨b, hb, hbs⟩ := (hI.heldIff _).mp hh
        exact absurd hbs (hold b hb)
      · rintro ⟨b, hb, hbs⟩
        rw [hself] at hb
        cases hb
        exact absurd hbs hst
    · rw [hlk id hk]
      exact hI.heldIff id
  · intro id r hr
    by_cases hk : id = book.ID
    · subst hk
      exact ⟨book, hself, hst⟩
    · rw [hlk id hk]
      exact hI.reserved id r hr


/-- Who holds what depends on `Members` only. -/
theorem heldBy_of_Members_eq (l l1 : Library) (hM : l1.Members = l.Members) (id h : Int) :
    heldBy l1 id h ↔ heldBy l id h := by
  unfold heldBy
  rw [hM]

/-- An admissible `RegisterMember` keeps the invariant. -/
theorem Inv_RegisterMember (l : Library) (m : Member) (hI : Inv l)
    (ha : admissible l (.registerMember m)) : Inv (RegisterMember l m) := by
  obtain ⟨hempty, hold⟩ := ha
  have hheld : ∀ id h, heldBy (RegisterMember l m) id h ↔ heldBy l id h := by
    intro id h
    unfold heldBy RegisterMember
    by_cases hk : h = m.ID
    · subst hk
      simp only [Finmap.lookup_insert, Option.some.injEq]
      constructor
      · rintro ⟨m1, rfl, e, he, _⟩
        rw [hempty] at he
        simp at he
      · rintro ⟨m0, hm0, e, he, _⟩
        rw [hold m0 hm0] at he
        simp at he
    · simp only [Finmap.lookup_insert_of_ne _ hk]
  constructor
  · exact hI.keyID
  · intro h m1 hm1
    by_cases hk : h = m.ID
    · subst hk
      simp only [RegisterMember, Finmap.lookup_insert, Option.some.injEq] at hm1
      subst hm1
      simp [hempty]
    · simp only [RegisterMember, Finmap.lookup_insert_of_ne _ hk] at hm1
      exact hI.nodup h m1 hm1
  · intro id h1 h2 hh1 hh2
    exact hI.oneHolder id h1 h2 ((hheld id h1).mp hh1) ((hheld id h2).mp hh2)
  · intro id
    simp only [hheld]
    exact hI.heldIff id
  · exact hI.reserved

/-- `RemoveBook` keeps the invariant, whether it succeeds or fails. -/
theorem Inv_RemoveBook (l : Library) (x : Int) (hI : Inv l) : Inv (RemoveBook l x).1 := by
  by_cases hok : (RemoveBook l x).2 = none
  · obtain ⟨b, hb, hst, hr, heq⟩ := RemoveBook_ok l x hok
    rw [heq]
    constructor
    · intro k b1 h1
      by_cases hk : k = x
      · subst hk
        simp at h1
      · simp only [Finmap.lookup_erase_ne hk] at h1
        exact hI.keyID k b1 h1
    · exact hI.nodup
    · exact hI.oneHolder
    · intro id
      by_cases hk : id = x
      · subst hk
        constructor
        · intro hh
          obtain ⟨b1, hb1, hbs⟩ := (hI.heldIff _).mp hh
          rw [hb] at hb1
          cases hb1
          exact absurd hbs hst
        · rintro ⟨b1, hb1, _⟩
          simp at hb1
      · simp only [Finmap.lookup_erase_ne hk]
        exact hI.heldIff id
    · intro id r hres
      have hk : id ≠ x := by
        rintro rfl
        simp only [] at hres
        rw [hr] at hres
        cases hres
      simp only [Finmap.lookup_erase_ne hk]
      exact hI.reserved id r hres
  · rw [RemoveBook_fail_state l x hok]
    exact hI

/-- The worker's handling of a request keeps the invariant. -/
theorem Inv_handleRequest (l : Library) (req : ReservationRequest) (hI : Inv l) :
    Inv (handleRequest l req).1 := by
  by_cases hok : (handleRequest l req).2 = none
  · obtain ⟨b, m, hb, hm, hst, hr, heq⟩ := handleRequest_ok l req hok
    rw [heq]
    constructor
    · exact hI.keyID
    · exact hI.nodup
    · exact hI.oneHolder
    · exact hI.heldIff
    · intro id r hres
      by_cases hk : id = req.BookID
      · subst hk
        exact ⟨b, hb, hst⟩
      · simp only [Finmap.lookup_insert_of_ne _ hk] at hres
        exact hI.reserved id r hres
  · rw [handleRequest_fail_state l req hok]
    exact hI

/-- The expiry action changes neither `Books` nor `Members`, and every reservation it
leaves was there before. -/
theorem expiry_frame (l : Library) (x h : Int) :
    (expiry l x h).Books = l.Books ∧ (expiry l x h).Members = l.Members ∧
    ∀ id r, (expiry l x h).reservations.lookup id = some r →
      l.reservations.lookup id = some r := by
  unfold expiry
  split
  · split
    · split
      · split
        · refine ⟨rfl, rfl, ?_⟩
          intro id r hres
          by_cases hk : id = x
          · subst hk
            simp at hres
          · simpa [Finmap.lookup_erase_ne hk] using hres
        · exact ⟨rfl, rfl, fun _ _ h => h⟩
      · exact ⟨rfl, rfl, fun _ _ h => h⟩
    · exact ⟨rfl, rfl, fun _ _ h => h⟩
  · exact ⟨rfl, rfl, fun _ _ h => h⟩

/-- The expiry action keeps the invariant. -/
theorem Inv_expiry (l : Library) (x h : Int) (hI : Inv l) : Inv (expiry l x h) := by
  obtain ⟨hB, hM, hR⟩ := expiry_frame l x h
  have hheld := heldBy_of_Members_eq l (expiry l x h) hM
  constructor
  · rw [hB]; exact hI.keyID
  · rw [hM]; exact hI.nodup
  · intro id h1 h2 hh1 hh2
    exact hI.oneHolder id h1 h2 ((hheld id h1).mp hh1) ((hheld id h2).mp hh2)
  · intro id
    simp only [hheld, hB]
    exact hI.heldIff id
  · intro id r hres
    rw [hB]
    exact hI.reserved id r (hR id r hres)

/-- Who holds what after a successful `BorrowBook x h`: the holders before, and `h` for `x`. -/
theorem heldBy_BorrowBook (l : Library) (x h : Int) (b : Book) (m : Member)
    (hm : l.Members.lookup h = some m) (id h1 : Int) :
    heldBy
      { Books := l.Books.insert x { b with Status := "Borrowed" }
        Members := l.Members.insert h
          { m with BorrowedBooks := m.BorrowedBooks ++ [{ b with Status := "Borrowed" }] }
        reservations := l.reservations.erase x } id h1 ↔
      heldBy l id h1 ∨ (h1 = h ∧ id = b.ID) := by
  unfold heldBy
  by_cases hk : h1 = h
  · subst hk
    simp only [Finmap.lookup_insert, Option.some.injEq, hm]
    constructor
    · rintro ⟨m1, rfl, e, he, hid⟩
      rcases List.mem_append.mp he with he | he
      · exact Or.inl ⟨m, rfl, e, he, hid⟩
      · rw [List.mem_singleton] at he
        subst he
        exact Or.inr ⟨by trivial, hid.symm⟩
    · rintro (⟨m1, rfl, e, he, hid⟩ | ⟨_, hid⟩)
      · exact ⟨_, rfl, e, List.mem_append_left _ he, hid⟩
      · exact ⟨_, rfl, _, List.mem_append_right _ (List.mem_singleton_self _), hid.symm⟩
  · simp only [Finmap.lookup_insert_of_ne _ hk, hk, false_and, or_false]

/-- `BorrowBook` keeps the invariant, whether it succeeds or fails. -/
theorem Inv_BorrowBook (l : Library) (x h : Int) (hI : Inv l) : Inv (BorrowBook l x h).1 := by
  by_cases hok : (BorrowBook l x h).2 = none
  · obtain ⟨b, m, hb, hm, hst, _, heq⟩ := BorrowBook_ok l x h hok
    have hbx : b.ID = x := hI.keyID x b hb
    have hfree : ∀ h1, ¬ heldBy l x h1 := by
      intro h1 hh
      obtain ⟨b1, hb1, hbs⟩ := (hI.heldIff x).mp ⟨h1, hh⟩
      rw [hb] at hb1
      cases hb1
      exact hst hbs
    have hheld : ∀ id h1, heldBy
        { Books := l.Books.insert x { b with Status := "Borrowed" }
          Members := l.Members.insert h
            { m with BorrowedBooks := m.BorrowedBooks ++ [{ b with Status := "Borrowed" }] }
          reservations := l.reservations.erase x } id h1 ↔
        heldBy l id h1 ∨ (h1 = h ∧ id = x) := by
      intro id h1
      rw [heldBy_BorrowBook l x h b m hm, hbx]
    rw [heq]
    constructor
    · intro k b1 h1
      by_cases hk : k = x
      · subst hk
        simp only [Finmap.lookup_insert, Option.some.injEq] at h1
        subst h1
        exact hbx
      · simp only [Finmap.lookup_insert_of_ne _ hk] at h1
        exact hI.keyID k b1 h1
    · intro h1 m1 hm1
      by_cases hk : h1 = h
      · subst hk
        simp only [Finmap.lookup_insert, Option.some.injEq] at hm1
        subst hm1
        simp only [List.map_append, List.map_cons, List.map_nil]
        rw [List.nodup_append]
        refine ⟨hI.nodup h1 m hm, List.nodup_singleton _, ?_⟩
        intro a ha ha1
        rw [List.mem_singleton] at ha1
        subst ha1
        obtain ⟨e, he, hid⟩ := List.mem_map.mp ha
        exact hfree h1 ⟨m, hm, e, he, hid.trans hbx⟩
      · simp only [Finmap.lookup_insert_of_ne _ hk] at hm1
        exact hI.nodup h1 m1 hm1
    · intro id h1 h2 hh1 hh2
      rcases (hheld id h1).mp hh1 with o1 | ⟨e1, i1⟩ <;>
        rcases (hheld id h2).mp hh2 with o2 | ⟨e2, i2⟩
      · exact hI.oneHolder id h1 h2 o1 o2
      · subst i2
        exact absurd o1 (hfree h1)
      · subst i1
        exact absurd o2 (hfree h2)
      · rw [e1, e2]
    · intro id
      by_cases hk : id = x
      · subst hk
        constructor
        · intro _
          exact ⟨_, Finmap.lookup_insert _, rfl⟩
        · intro _
          exact ⟨h, (hheld id h).mpr (Or.inr ⟨rfl, rfl⟩)⟩
      · simp only [hheld, hk, and_false, or_false, Finmap.lookup_insert_of_ne _ hk]
        exact hI.heldIff id
    · intro id r hres
      have hk : id ≠ x := by
        rintro rfl
        simp at hres
      simp only [Finmap.lookup_erase_ne hk] at hres
      simp only [Finmap.lookup_insert_of_ne _ hk]
      exact hI.reserved id r hres
  · rw [BorrowBook_fail_state l x h hok]
    exact hI

/-- `ReturnBook` keeps the invariant, whether it succeeds or fails. -/
theorem Inv_ReturnBook (l : Library) (x h : Int) (hI : Inv l) : Inv (ReturnBook l x h).1 := by
  by_cases hok : (ReturnBook l x h).2 = none
  · obtain ⟨b, m, rest, hb, hm, hr, heq⟩ := ReturnBook_ok l x h hok
    obtain ⟨pre, e, post, hsplit, hex, hpre, hrest⟩ := removeBorrowed_eq_some x _ rest hr
    have hnd := hI.nodup h m hm
    rw [hsplit] at hnd
    simp only [List.map_append, List.map_cons] at hnd
    have hpost : ∀ p ∈ post, p.ID ≠ x := by
      intro p hp hpx
      have h1 := (List.nodup_append.mp hnd).2.1
      rw [List.nodup_cons] at h1
      apply h1.1
      rw [hex, ← hpx]
      exact List.mem_map_of_mem _ hp
    have hhx : heldBy l x h := ⟨m, hm, e, by rw [hsplit]; simp, hex⟩
    have hheld : ∀ id h1, heldBy (ReturnBook l x h).1 id h1 ↔ heldBy l id h1 ∧ id ≠ x := by
      intro id h1
      rw [heq]
      unfold heldBy
      by_cases hk : h1 = h
      · subst hk
        simp only [Finmap.lookup_insert, Option.some.injEq, hm]
        constructor
        · rintro ⟨m1, rfl, e1, he1, hid⟩
          have he2 : e1 ∈ pre ++ post := by
            rw [← hrest]
            exact he1
          rcases List.mem_append.mp he2 with hp | hp
          · refine ⟨⟨m, rfl, e1, ?_, hid⟩, fun hc => hpre e1 hp (hid.trans hc)⟩
            rw [hsplit]
            exact List.mem_append_left _ hp
          · refine ⟨⟨m, rfl, e1, ?_, hid⟩, fun hc => hpost e1 hp (hid.trans hc)⟩
            rw [hsplit]
            exact List.mem_append_right _ (List.mem_cons_of_mem _ hp)
        · rintro ⟨⟨m1, rfl, e1, he1, hid⟩, hne⟩
          refine ⟨_, rfl, e1, ?_, hid⟩
          show e1 ∈ rest
          rw [hrest]
          rw [hsplit] at he1
          rcases List.mem_append.mp he1 with hp | hp
          · exact List.mem_append_left _ hp
          · rcases List.mem_cons.mp hp with hp | hp
            · subst hp
              exact absurd (hid.symm.trans hex) hne
            · exact List.mem_append_right _ hp
      · simp only [Finmap.lookup_insert_of_ne _ hk]
        constructor
        · rintro ⟨m1, hm1, e1, he1, hid⟩
          refine ⟨⟨m1, hm1, e1, he1, hid⟩, ?_⟩
          rintro rfl
          exact hk (hI.oneHolder _ h1 h ⟨m1, hm1, e1, he1, hid⟩ hhx)
        · rintro ⟨hh, _⟩
          exact hh
    constructor
    · intro k b1 h1
      rw [heq] at h1
      by_cases hk : k = x
      · subst hk
        simp only [Finmap.lookup_insert, Option.some.injEq] at h1
        subst h1
        exact hI.keyID k b hb
      · simp only [Finmap.lookup_insert_of_ne _ hk] at h1
        exact hI.keyID k b1 h1
    · intro h1 m1 hm1
      rw [heq] at hm1
      by_cases hk : h1 = h
      · subst hk
        simp only [Finmap.lookup_insert, Option.some.injEq] at hm1
        subst hm1
        simp only [hrest, List.map_append]
        have hsub : (List.map (fun e => e.ID) pre ++ List.map (fun e => e.ID) post).Sublist
            (List.map (fun e => e.ID) pre ++ e.ID :: List.map (fun e => e.ID) post) :=
          List.Sublist.append (List.Sublist.refl _) (List.sublist_cons_self _ _)
        exact List.Nodup.sublist hsub hnd
      · simp only [Finmap.lookup_insert_of_ne _ hk] at hm1
        exact hI.nodup h1 m1 hm1
    · intro id h1 h2 hh1 hh2
      exact hI.oneHolder id h1 h2 ((hheld id h1).mp hh1).1 ((hheld id h2).mp hh2).1
    · intro id
      simp only [hheld]
      rw [heq]
      by_cases hk : id = x
      · subst hk
        simp
      · simp only [Finmap.lookup_insert_of_ne _ hk, ne_eq, hk, not_false_eq_true, and_true]
        exact hI.heldIff id
    · intro id r hres
      rw [heq] at hres ⊢
      by_cases hk : id = x
      · subst hk
        exact ⟨_, Finmap.lookup_insert _, by simp⟩
      · simp only [Finmap.lookup_insert_of_ne _ hk]
        exact hI.reserved id r hres
  · rw [ReturnBook_fail_state l x h hok]
    exact hI

/-- Every admissible operation keeps the invariant. -/
theorem Inv_step (l : Library) (op : Op) (hI : Inv l) (ha : admissible l op) :
    Inv (step l op) := by
  cases op with
  | addBook book => exact Inv_AddBook l book hI ha
  | registerMember m => exact Inv_RegisterMember l m hI ha
  | removeBook x => exact Inv_RemoveBook l x hI
  | borrowBook x h => exact Inv_BorrowBook l x h hI
  | returnBook x h => exact Inv_ReturnBook l x h hI
  | reserve x h => exact Inv_handleRequest l _ hI
  | expire x h => exact Inv_expiry l x h hI

/-- A run of admissible operations keeps the invariant. -/
theorem Inv_runFrom (ops : List Op) (l : Library) (hI : Inv l)
    (ha : admissibleFrom l ops) : Inv (runFrom l ops) := by
  induction ops generalizing l with
  | nil => exact hI
  | cons op ops ih =>
    obtain ⟨h1, h2⟩ := ha
    exact ih (step l op) (Inv_step l op hI h1) h2

/-- The invariant gives I1. -/
theorem I1_of_Inv (l : Library) (hI : Inv l) : I1 l := by
  intro id b hb
  have hbx := hI.keyID id b hb
  rw [hbx]
  constructor
  · intro hst
    obtain ⟨h, hh⟩ := (hI.heldIff id).mpr ⟨b, hb, hst⟩
    exact ⟨h, hh, fun h1 hh1 => hI.oneHolder id h1 h hh1 hh⟩
  · rintro ⟨h, hh, _⟩
    obtain ⟨b1, hb1, hst⟩ := (hI.heldIff id).mp ⟨h, hh⟩
    rw [hb] at hb1
    cases hb1
    exact hst

/-- The expiry action deletes the reservation on `x` when it names `h` and the book is in
the catalog with a status other than Borrowed. -/
theorem expiry_fires (l : Library) (x h : Int) (r : reservation) (b : Book)
    (hr : l.reservations.lookup x = some r) (hrh : r.MemberID = h)
    (hb : l.Books.lookup x = some b) (hst : b.Status ≠ "Borrowed") :
    expiry l x h = { l with reservations := l.reservations.erase x } := by
  simp [expiry, hr, hrh, hb, hst]

/-- The expiry action changes nothing when no reservation on `x` names `h`. -/
theorem expiry_noop_of_not_named (l : Library) (x h : Int)
    (hr : ∀ r, l.reservations.lookup x = some r → r.MemberID ≠ h) :
    expiry l x h = l := by
  cases hl : l.reservations.lookup x with
  | none => simp [expiry, hl]
  | some r => simp [expiry, hl, hr r hl]

/-- The expiry action changes nothing when the book is absent or Borrowed. -/
theorem expiry_noop_of_book (l : Library) (x h : Int)
    (hb : ∀ b, l.Books.lookup x = some b → b.Status = "Borrowed") :
    expiry l x h = l := by
  cases hl : l.reservations.lookup x with
  | none => simp [expiry, hl]
  | some r =>
    by_cases hrh : r.MemberID = h
    · cases hbk : l.Books.lookup x with
      | none => simp [expiry, hl, hrh, hbk]
      | some b => simp [expiry, hl, hrh, hbk, hb b hbk]
    · simp [expiry, hl, hrh]

/-- The expiry action either leaves the library as it was or erases the reservation on its
book. -/
theorem expiry_cases (l : Library) (x h : Int) :
    expiry l x h = l ∨ expiry l x h = { l with reservations := l.reservations.erase x } := by
  cases hl : l.reservations.lookup x with
  | none => exact Or.inl (expiry_noop_of_not_named l x h (by simp [hl]))
  | some r =>
    by_cases hrh : r.MemberID = h
    · cases hbk : l.Books.lookup x with
      | none => exact Or.inl (expiry_noop_of_book l x h (by simp [hbk]))
      | some b =>
        by_cases hst : b.Status = "Borrowed"
        · refine Or.inl (expiry_noop_of_book l x h ?_)
          intro b1 hb1
          rw [hbk] at hb1
          cases hb1
          exact hst
        · exact Or.inr (expiry_fires l x h r b hl hrh hbk hst)
    · refine Or.inl (expiry_noop_of_not_named l x h ?_)
      intro r1 hr1
      rw [hl] at hr1
      cases hr1
      exact hrh

/-- `RemoveBook` never touches the reservation table. -/
theorem RemoveBook_reservations (l : Library) (id : Int) :
    (RemoveBook l id).1.reservations = l.reservations := by
  by_cases hok : (RemoveBook l id).2 = none
  · obtain ⟨_, _, _, _, heq⟩ := RemoveBook_ok l id hok
    rw [heq]
  · rw [RemoveBook_fail_state l id hok]

/-- `ReturnBook` never touches the reservation table. -/
theorem ReturnBook_reservations (l : Library) (x h : Int) :
    (ReturnBook l x h).1.reservations = l.reservations := by
  by_cases hok : (ReturnBook l x h).2 = none
  · obtain ⟨_, _, _, _, _, _, heq⟩ := ReturnBook_ok l x h hok
    rw [heq]
  · rw [ReturnBook_fail_state l x h hok]

/-- `BorrowBook y` leaves the reservation of every other item as it was. -/
theorem BorrowBook_reservations_ne (l : Library) (y h k : Int) (hk : k ≠ y) :
    (BorrowBook l y h).1.reservations.lookup k = l.reservations.lookup k := by
  by_cases hok : (BorrowBook l y h).2 = none
  · obtain ⟨_, _, _, _, _, _, heq⟩ := BorrowBook_ok l y h hok
    rw [heq]
    exact Finmap.lookup_erase_ne hk
  · rw [BorrowBook_fail_state l y h hok]

/-- The worker's handling of a request keeps every reservation that was in the table. -/
theorem handleRequest_keeps (l : Library) (req : ReservationRequest) (k : Int)
    (r : reservation) (hr : l.reservations.lookup k = some r) :
    (handleRequest l req).1.reservations.lookup k = some r := by
  by_cases hok : (handleRequest l req).2 = none
  · obtain ⟨_, _, _, _, _, hnone, heq⟩ := handleRequest_ok l req hok
    rw [heq]
    have hk : k ≠ req.BookID := by
      rintro rfl
      rw [hnone] at hr
      cases hr
    show (l.reservations.insert req.BookID { MemberID := req.MemberID }).lookup k = some r
    rw [Finmap.lookup_insert_of_ne _ hk]
    exact hr
  · rw [handleRequest_fail_state l req hok]
    exact hr

/-- The expiry action for `y` leaves the reservation of every other item as it was. -/
theorem expiry_reservations_ne (l : Library) (y h k : Int) (hk : k ≠ y) :
    (expiry l y h).reservations.lookup k = l.reservations.lookup k := by
  rcases expiry_cases l y h with h1 | h1 <;> rw [h1]
  exact Finmap.lookup_erase_ne hk

/-- Every operation, with any arguments, keeps the keys of `Books` in step with the ids of
the records. -/
theorem keysCarryIDs_step (l : Library) (op : Op) (hk : keysCarryIDs l) :
    keysCarryIDs (step l op) := by
  intro k b hb
  cases op with
  | addBook book =>
    by_cases hkb : k = book.ID
    · subst hkb
      simp only [step, AddBook, Finmap.lookup_insert, Option.some.injEq] at hb
      rw [← hb]
    · simp only [step, AddBook, Finmap.lookup_insert_of_ne _ hkb] at hb
      exact hk k b hb
  | registerMember m => exact hk k b hb
  | removeBook id =>
    by_cases hok : (RemoveBook l id).2 = none
    · obtain ⟨_, _, _, _, heq⟩ := RemoveBook_ok l id hok
      simp only [step, heq] at hb
      by_cases hkb : k = id
      · subst hkb
        simp at hb
      · rw [Finmap.lookup_erase_ne hkb] at hb
        exact hk k b hb
    · simp only [step, RemoveBook_fail_state l id hok] at hb
      exact hk k b hb
  | borrowBook x h =>
    by_cases hok : (BorrowBook l x h).2 = none
    · obtain ⟨b0, _, hb0, _, _, _, heq⟩ := BorrowBook_ok l x h hok
      simp only [step, heq] at hb
      by_cases hkb : k = x
      · subst hkb
        simp only [Finmap.lookup_insert, Option.some.injEq] at hb
        rw [← hb]
        exact hk k b0 hb0
      · rw [Finmap.lookup_insert_of_ne _ hkb] at hb
        exact hk k b hb
    · simp only [step, BorrowBook_fail_state l x h hok] at hb
      exact hk k b hb
  | returnBook x h =>
    by_cases hok : (ReturnBook l x h).2 = none
    · obtain ⟨b0, _, _, hb0, _, _, heq⟩ := ReturnBook_ok l x h hok
      simp only [step, heq] at hb
      by_cases hkb : k = x
      · subst hkb
        simp only [Finmap.lookup_insert, Option.some.injEq] at hb
        rw [← hb]
        exact hk k b0 hb0
      · rw [Finmap.lookup_insert_of_ne _ hkb] at hb
        exact hk k b hb
    · simp only [step, ReturnBook_fail_state l x h hok] at hb
      exact hk k b hb
  | reserve x h =>
    by_cases hok : (handleRequest l { BookID := x, MemberID := h }).2 = none
    · obtain ⟨_, _, _, _, _, _, heq⟩ := handleRequest_ok l _ hok
      simp only [step, heq] at hb
      exact hk k b hb
    · simp only [step, handleRequest_fail_state l _ hok] at hb
      exact hk k b hb
  | expire x h =>
    simp only [step, (expiry_frame l x h).1] at hb
    exact hk k b hb

/-- In every state reached from a state whose keys carry the ids, the keys carry the ids. -/
theorem keysCarryIDs_runFrom (ops : List Op) (l : Library) (hk : keysCarryIDs l) :
    keysCarryIDs (runFrom l ops) := by
  induction ops generalizing l with
  | nil => exact hk
  | cons op ops ih => exact ih (step l op) (keysCarryIDs_step l op hk)

/-- In every state reached from a fresh library the keys of `Books` carry the ids. -/
theorem keysCarryIDs_run (ops : List Op) : keysCarryIDs (run ops) :=
  keysCarryIDs_runFrom ops NewLibrary (fun k b hb => by simp [NewLibrary] at hb)

/-- The reserve / refused borrow / borrow / return scenario, from any state in which the
record of `x` carries the id `x`. -/
theorem scenario_of_keyID (l : Library) (x a b : Int) (bk : Book)
    (hx : l.Books.lookup x = some bk) (hid : bk.ID = x) (hst : bk.Status = "Available")
    (hr : l.reservations.lookup x = none) (ha : a ∈ l.Members) (hb : b ∈ l.Members)
    (hab : a ≠ b) :
    ∃ s1 s2 s3,
      ReserveBook l x a = (s1, none) ∧
      BorrowBook s1 x b = (s1, some "book is reserved by another member") ∧
      BorrowBook s1 x a = (s2, none) ∧
      s2.Books.lookup x =
        some { ID := bk.ID, Title := bk.Title, Author := bk.Author, Status := "Borrowed" } ∧
      heldBy s2 x a ∧
      s2.reservations.lookup x = none ∧
      ReturnBook s2 x a = (s3, none) ∧
      s3.Books.lookup x =
        some { ID := bk.ID, Title := bk.Title, Author := bk.Author,
               Status := "Available" } := by
  obtain ⟨ma, ha⟩ := Finmap.mem_iff.mp ha
  obtain ⟨mb, hb⟩ := Finmap.mem_iff.mp hb
  have hnb : bk.Status ≠ "Borrowed" := by
    rw [hst]
    decide
  have hrem : ∃ rest, removeBorrowed x
      (ma.BorrowedBooks ++
        [{ ID := bk.ID, Title := bk.Title, Author := bk.Author, Status := "Borrowed" }]) =
      some rest := by
    cases hrm : removeBorrowed x (ma.BorrowedBooks ++
        [{ ID := bk.ID, Title := bk.Title, Author := bk.Author, Status := "Borrowed" }]) with
    | some rest => exact ⟨rest, rfl⟩
    | none =>
      have hne := (removeBorrowed_eq_none x _).mp hrm
        { ID := bk.ID, Title := bk.Title, Author := bk.Author, Status := "Borrowed" }
        (List.mem_append_right _ (List.mem_singleton_self _))
      exact absurd hid hne
  obtain ⟨rest, hrest⟩ := hrem
  refine ⟨{ l with reservations := l.reservations.insert x { MemberID := a } },
    { Books := l.Books.insert x { bk with Status := "Borrowed" }
      Members := l.Members.insert a
        { ma with BorrowedBooks := ma.BorrowedBooks ++ [{ bk with Status := "Borrowed" }] }
      reservations := (l.reservations.insert x { MemberID := a }).erase x },
    { Books := (l.Books.insert x { bk with Status := "Borrowed" }).insert x
        { bk with Status := "Available" }
      Members := (l.Members.insert a
        { ma with BorrowedBooks :=
            ma.BorrowedBooks ++ [{ bk with Status := "Borrowed" }] }).insert a
        { ma with BorrowedBooks := rest }
      reservations := (l.reservations.insert x { MemberID := a }).erase x },
    ?_, ?_, ?_, ?_, ?_, ?_, ?_, ?_⟩
  · simp [ReserveBook, startReservationWorker, handleRequest, hx, ha, hnb, hr]
  · simp [BorrowBook, hx, hb, hab]
  · simp [BorrowBook, hx, ha, hnb]
  · simp
  · exact ⟨_, Finmap.lookup_insert _, _,
      List.mem_append_right _ (List.mem_singleton_self _), hid⟩
  · simp
  · simp [ReturnBook, hrest]
  · simp

/-- A fresh library has no book and no reservation. -/
theorem StatusInv_NewLibrary : StatusInv NewLibrary := by
  constructor
  · intro k b hb
    simp [NewLibrary] at hb
  · intro id r hr
    simp [NewLibrary] at hr

/-- Every operation keeps `StatusInv`, provided `AddBook` stores Available records. -/
theorem StatusInv_step (l : Library) (op : Op) (hS : StatusInv l) (ha : addsAvailable op) :
    StatusInv (step l op) := by
  cases op with
  | addBook book =>
    have hst : book.Status = "Available" := ha
    constructor
    · intro k b hb
      by_cases hk : k = book.ID
      · subst hk
        simp only [step, AddBook, Finmap.lookup_insert, Option.some.injEq] at hb
        rw [← hb]
        exact Or.inl hst
      · simp only [step, AddBook, Finmap.lookup_insert_of_ne _ hk] at hb
        exact hS.twoStatus k b hb
    · intro id r hr
      by_cases hk : id = book.ID
      · subst hk
        exact ⟨book, Finmap.lookup_insert _, hst⟩
      · obtain ⟨b, hb, hbs⟩ := hS.reservedAvailable id r hr
        refine ⟨b, ?_, hbs⟩
        simp only [step, AddBook, Finmap.lookup_insert_of_ne _ hk]
        exact hb
  | registerMember m => exact ⟨hS.twoStatus, hS.reservedAvailable⟩
  | removeBook x =>
    by_cases hok : (RemoveBook l x).2 = none
    · obtain ⟨_, _, _, hnone, heq⟩ := RemoveBook_ok l x hok
      simp only [step, heq]
      constructor
      · intro k b hb
        by_cases hk : k = x
        · subst hk
          simp at hb
        · simp only [Finmap.lookup_erase_ne hk] at hb
          exact hS.twoStatus k b hb
      · intro id r hr
        have hk : id ≠ x := by
          rintro rfl
          simp only [] at hr
          rw [hnone] at hr
          cases hr
        simp only [Finmap.lookup_erase_ne hk]
        exact hS.reservedAvailable id r hr
    · simp only [step, RemoveBook_fail_state l x hok]
      exact hS
  | borrowBook x h =>
    by_cases hok : (BorrowBook l x h).2 = none
    · obtain ⟨_, _, _, _, _, _, heq⟩ := BorrowBook_ok l x h hok
      simp only [step, heq]
      constructor
      · intro k b hb
        by_cases hk : k = x
        · subst hk
          simp only [Finmap.lookup_insert, Option.some.injEq] at hb
          rw [← hb]
          exact Or.inr rfl
        · simp only [Finmap.lookup_insert_of_ne _ hk] at hb
          exact hS.twoStatus k b hb
      · intro id r hr
        have hk : id ≠ x := by
          rintro rfl
          simp at hr
        simp only [Finmap.lookup_erase_ne hk] at hr
        simp only [Finmap.lookup_insert_of_ne _ hk]
        exact hS.reservedAvailable id r hr
    · simp only [step, BorrowBook_fail_state l x h hok]
      exact hS
  | returnBook x h =>
    by_cases hok : (ReturnBook l x h).2 = none
    · obtain ⟨_, _, _, _, _, _, heq⟩ := ReturnBook_ok l x h hok
      simp only [step, heq]
      constructor
      · intro k b hb
        by_cases hk : k = x
        · subst hk
          simp only [Finmap.lookup_insert, Option.some.injEq] at hb
          rw [← hb]
          exact Or.inl rfl
        · simp only [Finmap.lookup_insert_of_ne _ hk] at hb
          exact hS.twoStatus k b hb
      · intro id r hr
        by_cases hk : id = x
        · subst hk
          exact ⟨_, Finmap.lookup_insert _, rfl⟩
        · simp only [Finmap.lookup_insert_of_ne _ hk]
          exact hS.reservedAvailable id r hr
    · simp only [step, ReturnBook_fail_state l x h hok]
      exact hS
  | reserve x h =>
    by_cases hok : (handleRequest l { BookID := x, MemberID := h }).2 = none
    · obtain ⟨b, _, hb, _, hst, _, heq⟩ := handleRequest_ok l _ hok
      simp only [step, heq]
      constructor
      · exact hS.twoStatus
      · intro id r hr
        by_cases hk : id = x
        · subst hk
          rcases hS.twoStatus id b hb with h1 | h1
          · exact ⟨b, hb, h1⟩
          · exact absurd h1 hst
        · simp only [Finmap.lookup_insert_of_ne _ hk] at hr
          exact hS.reservedAvailable id r hr
    · simp only [step, handleRequest_fail_state l _ hok]
      exact hS
  | expire x h =>
    obtain ⟨hB, _, hR⟩ := expiry_frame l x h
    constructor
    · intro k b hb
      simp only [step, hB] at hb
      exact hS.twoStatus k b hb
    · intro id r hr
      simp only [step, hB]
      exact hS.reservedAvailable id r (hR id r hr)

/-- A run whose `AddBook` calls all store Available records keeps `StatusInv`. -/
theorem StatusInv_runFrom (ops : List Op) (l : Library) (hS : StatusInv l)
    (ha : ∀ op ∈ ops, addsAvailable op) : StatusInv (runFrom l ops) := by
  induction ops generalizing l with
  | nil => exact hS
  | cons op ops ih =>
    exact ih (step l op) (StatusInv_step l op hS (ha op (List.mem_cons_self _ _)))
      (fun o ho => ha o (List.mem_cons_of_mem _ ho))

/-- A map has at most one entry per key. -/
theorem I3_holds (l : Library) : I3 l := by
  intro id
  exact Multiset.nodup_iff_count_le_one.mp l.reservations.nodupKeys.nodup_keys id

/-- The search loop removes a record appended to a list that has no entry with its id. -/
theorem removeBorrowed_append_self (x : Int) (bs : List Book) (b : Book)
    (hfree : ∀ e ∈ bs, e.ID ≠ x) (hid : b.ID = x) :
    removeBorrowed x (bs ++ [b]) = some bs := by
  induction bs with
  | nil => simp [removeBorrowed, hid]
  | cons e es ih =>
    have he : e.ID ≠ x := hfree e (List.mem_cons_self _ _)
    have ih1 := ih (fun e1 h1 => hfree e1 (List.mem_cons_of_mem _ h1))
    simp [removeBorrowed, he, ih1]

/-- Inserting under a key the value the map already has there leaves the map as it was. -/
theorem insert_of_lookup_some {V : Type} (m : Finmap (fun _ : Int => V)) (k : Int) (v : V)
    (h : m.lookup k = some v) : m.insert k v = m := by
  apply Finmap.ext_lookup
  intro a
  by_cases ha : a = k
  · subst ha
    rw [Finmap.lookup_insert, h]
  · rw [Finmap.lookup_insert_of_ne _ ha]

/-- Borrow followed by return, from a state in which the record of `x` carries the id `x`,
is not Borrowed, and is not yet among the books of `h`. -/
theorem round_trip_of (l : Library) (x h : Int) (b : Book) (m : Member)
    (hb : l.Books.lookup x = some b) (hm : l.Members.lookup h = some m)
    (hst : b.Status ≠ "Borrowed") (hid : b.ID = x)
    (hfree : ∀ e ∈ m.BorrowedBooks, e.ID ≠ x)
    (hres : ∀ r, l.reservations.lookup x = some r → r.MemberID = h) :
    (BorrowBook l x h).2 = none ∧
    (ReturnBook (BorrowBook l x h).1 x h).2 = none ∧
    borrowReturn l x h =
      { Books := l.Books.insert x { b with Status := "Available" }
        Members := l.Members
        reservations := l.reservations.erase x } := by
  have h1 : BorrowBook l x h =
      ({ Books := l.Books.insert x { b with Status := "Borrowed" }
         Members := l.Members.insert h
           { m with BorrowedBooks := m.BorrowedBooks ++ [{ b with Status := "Borrowed" }] }
         reservations := l.reservations.erase x }, none) := by
    cases hr : l.reservations.lookup x with
    | none => simp [BorrowBook, hb, hm, hr, hst, erase_of_lookup_none _ _ hr]
    | some r => simp [BorrowBook, hb, hm, hr, hst, hres r hr]
  have hrem := removeBorrowed_append_self x m.BorrowedBooks
    { b with Status := "Borrowed" } hfree hid
  have h2 : ReturnBook (BorrowBook l x h).1 x h =
      ({ Books := l.Books.insert x { b with Status := "Available" }
         Members := l.Members
         reservations := l.reservations.erase x }, none) := by
    rw [h1]
    simp only [ReturnBook, Finmap.lookup_insert, hrem, Finmap.insert_insert]
    have hmm : l.Members.insert h
        { ID := m.ID, Name := m.Name, BorrowedBooks := m.BorrowedBooks } = l.Members :=
      insert_of_lookup_some l.Members h m hm
    rw [hmm]
  refine ⟨by rw [h1], by rw [h2], ?_⟩
  unfold borrowReturn
  rw [h2]

/-- In a state that satisfies the invariant, a member who can borrow `x` does not hold it. -/
theorem not_held_of_Inv (l : Library) (hI : Inv l) (x h : Int) (b : Book) (m : Member)
    (hb : l.Books.lookup x = some b) (hm : l.Members.lookup h = some m)
    (hst : b.Status ≠ "Borrowed") : ∀ e ∈ m.BorrowedBooks, e.ID ≠ x := by
  intro e he hex
  obtain ⟨b1, hb1, hbs⟩ := (hI.heldIff x).mp ⟨h, m, hm, e, he, hex⟩
  rw [hb] at hb1
  cases hb1
  exact hst hbs

/-- `RemoveBook` never touches `Members`. -/
theorem RemoveBook_Members (l : Library) (id : Int) :
    (RemoveBook l id).1.Members = l.Members := by
  by_cases hok : (RemoveBook l id).2 = none
  · obtain ⟨_, _, _, _, heq⟩ := RemoveBook_ok l id hok
    rw [heq]
  · rw [RemoveBook_fail_state l id hok]

/-- The worker's handling of a request never touches `Members`. -/
theorem handleRequest_Members (l : Library) (req : ReservationRequest) :
    (handleRequest l req).1.Members = l.Members := by
  by_cases hok : (handleRequest l req).2 = none
  · obtain ⟨_, _, _, _, _, _, heq⟩ := handleRequest_ok l req hok
    rw [heq]
  · rw [handleRequest_fail_state l req hok]

/-- A member who holds `x` still holds it after any admissible operation that is neither a
successful `ReturnBook` of `x` nor an `AddBook` with id `x`. -/
theorem heldBy_step (l : Library) (op : Op) (x h : Int) (hh : heldBy l x h)
    (ha : admissible l op) (hk : keepsHeld x l op) : heldBy (step l op) x h := by
  cases op with
  | addBook book => exact hh
  | registerMember m =>
    obtain ⟨_, hold⟩ := ha
    obtain ⟨mh, hm, e, he, hid⟩ := hh
    have hne : h ≠ m.ID := by
      rintro rfl
      have := hold mh hm
      rw [this] at he
      simp at he
    refine ⟨mh, ?_, e, he, hid⟩
    simp only [step, RegisterMember, Finmap.lookup_insert_of_ne _ hne]
    exact hm
  | removeBook id =>
    exact (heldBy_of_Members_eq l _ (RemoveBook_Members l id) x h).mpr hh
  | borrowBook y h1 =>
    by_cases hok : (BorrowBook l y h1).2 = none
    · obtain ⟨b, m, _, hm, _, _, heq⟩ := BorrowBook_ok l y h1 hok
      simp only [step, heq]
      exact (heldBy_BorrowBook l y h1 b m hm x h).mpr (Or.inl hh)
    · simp only [step, BorrowBook_fail_state l y h1 hok]
      exact hh
  | returnBook y h1 =>
    by_cases hok : (ReturnBook l y h1).2 = none
    · have hyx : y ≠ x := fun hy => hk hy hok
      obtain ⟨b, m, rest, _, hm, hrem, heq⟩ := ReturnBook_ok l y h1 hok
      obtain ⟨pre, e0, post, hsplit, he0, _, hrest⟩ := removeBorrowed_eq_some y _ rest hrem
      obtain ⟨mh, hmh, e, he, hid⟩ := hh
      simp only [step, heq]
      by_cases hne : h = h1
      · subst hne
        rw [hm] at hmh
        cases hmh
        refine ⟨_, Finmap.lookup_insert _, e, ?_, hid⟩
        show e ∈ rest
        rw [hrest]
        rw [hsplit] at he
        rcases List.mem_append.mp he with hp | hp
        · exact List.mem_append_left _ hp
        · rcases List.mem_cons.mp hp with hp | hp
          · subst hp
            exact absurd (he0.symm.trans hid) hyx
          · exact List.mem_append_right _ hp
      · refine ⟨mh, ?_, e, he, hid⟩
        show (l.Members.insert h1 _).lookup h = some mh
        rw [Finmap.lookup_insert_of_ne _ hne]
        exact hmh
    · simp only [step, ReturnBook_fail_state l y h1 hok]
      exact hh
  | reserve y h1 =>
    exact (heldBy_of_Members_eq l _ (handleRequest_Members l _) x h).mpr hh
  | expire y h1 =>
    exact (heldBy_of_Members_eq l _ (expiry_frame l y h1).2.1 x h).mpr hh

/-- Along an admissible run without successful `ReturnBook` of `x` and without `AddBook`
with id `x`, the invariant holds and `h` keeps holding `x` after every prefix. -/
theorem held_along (x h : Int) (post : List Op) (l : Library) (hI : Inv l)
    (hh : heldBy l x h) (ha : admissibleFrom l post) (hk : keepsHeldFrom x l post) :
    ∀ n : Nat, Inv (runFrom l (post.take n)) ∧ heldBy (runFrom l (post.take n)) x h := by
  induction post generalizing l with
  | nil =>
    intro n
    simp only [List.take_nil]
    exact ⟨hI, hh⟩
  | cons op ops ih =>
    intro n
    cases n with
    | zero => exact ⟨hI, hh⟩
    | succ n =>
      obtain ⟨ha1, ha2⟩ := ha
      obtain ⟨hk1, hk2⟩ := hk
      exact ih (step l op) (Inv_step l op hI ha1) (heldBy_step l op x h hh ha1 hk1) ha2 hk2 n

/-- In a state that satisfies the invariant, a held book cannot be borrowed, and has one
holder. -/
theorem exclusive_of_Inv (l : Library) (hI : Inv l) (x h : Int) (hh : heldBy l x h) :
    (∀ h1, (BorrowBook l x h1).2 ≠ none) ∧ ∀ h1, heldBy l x h1 → h1 = h := by
  refine ⟨?_, fun h1 hh1 => hI.oneHolder x h1 h hh1 hh⟩
  intro h1 hok
  obtain ⟨b, _, hb, _, hst, _, _⟩ := BorrowBook_ok l x h1 hok
  obtain ⟨b1, hb1, hbs⟩ := (hI.heldIff x).mp ⟨h, hh⟩
  rw [hb] at hb1
  cases hb1
  exact hst hbs

/-- Every reservation left by `BorrowBook` was in the table before. -/
theorem BorrowBook_reservations_sub (l : Library) (y h k : Int) (r : reservation)
    (hr : (BorrowBook l y h).1.reservations.lookup k = some r) :
    l.reservations.lookup k = some r := by
  by_cases hok : (BorrowBook l y h).2 = none
  · obtain ⟨_, _, _, _, _, _, heq⟩ := BorrowBook_ok l y h hok
    rw [heq] at hr
    by_cases hk : k = y
    · subst hk
      simp at hr
    · simpa [Finmap.lookup_erase_ne hk] using hr
  · rw [BorrowBook_fail_state l y h hok] at hr
    exact hr

/-- An operation that is not an accepted Reserve request for `(x, h)` does not create a
reservation on `x` naming `h`. -/
theorem not_named_step (l : Library) (op : Op) (x h : Int)
    (hq : ∀ r, l.reservations.lookup x = some r → r.MemberID ≠ h)
    (hn : noNewReservation x h l op) :
    ∀ r, (step l op).reservations.lookup x = some r → r.MemberID ≠ h := by
  intro r hr
  cases op with
  | addBook book => exact hq r hr
  | registerMember m => exact hq r hr
  | removeBook id =>
    simp only [step, RemoveBook_reservations] at hr
    exact hq r hr
  | borrowBook y h1 => exact hq r (BorrowBook_reservations_sub l y h1 x r hr)
  | returnBook y h1 =>
    simp only [step, ReturnBook_reservations] at hr
    exact hq r hr
  | reserve y h1 =>
    by_cases hok : (handleRequest l { BookID := y, MemberID := h1 }).2 = none
    · obtain ⟨_, _, _, _, _, _, heq⟩ := handleRequest_ok l _ hok
      simp only [step, heq] at hr
      by_cases hk : x = y
      · subst hk
        simp only [Finmap.lookup_insert, Option.some.injEq] at hr
        rw [← hr]
        intro hh
        exact hn rfl hh hok
      · rw [Finmap.lookup_insert_of_ne _ hk] at hr
        exact hq r hr
    · simp only [step, handleRequest_fail_state l _ hok] at hr
      exact hq r hr
  | expire y h1 => exact hq r ((expiry_frame l y h1).2.2 x r hr)

/-- Along a run without accepted Reserve request for `(x, h)`, no reservation on `x` naming
`h` appears. -/
theorem not_named_runFrom (x h : Int) (ops : List Op) (l : Library)
    (hq : ∀ r, l.reservations.lookup x = some r → r.MemberID ≠ h)
    (hn : noNewReservationFrom x h l ops) :
    ∀ r, (runFrom l ops).reservations.lookup x = some r → r.MemberID ≠ h := by
  induction ops generalizing l with
  | nil => exact hq
  | cons op ops ih =>
    obtain ⟨h1, h2⟩ := hn
    exact ih (step l op) (not_named_step l op x h hq h1) h2

/-- `BorrowBook` fails on a book whose status is Borrowed. -/
theorem BorrowBook_fails_of_Borrowed (l : Library) (x h : Int) (b : Book)
    (hb : l.Books.lookup x = some b) (hst : b.Status = "Borrowed") :
    (BorrowBook l x h).2 ≠ none := by
  intro hok
  obtain ⟨b1, _, hb1, _, hst1, _, _⟩ := BorrowBook_ok l x h hok
  rw [hb] at hb1
  cases hb1
  exact hst1 hst

/-- `BorrowBook` succeeds on a book that is not Borrowed, for a registered member, when
the reservation on the book, if any, names that member. -/
theorem BorrowBook_succeeds (l : Library) (x h : Int) (b : Book) (m : Member)
    (hb : l.Books.lookup x = some b) (hm : l.Members.lookup h = some m)
    (hst : b.Status ≠ "Borrowed")
    (hres : ∀ r, l.reservations.lookup x = some r → r.MemberID = h) :
    (BorrowBook l x h).2 = none := by
  cases hr : l.reservations.lookup x with
  | none => simp [BorrowBook, hb, hm, hr, hst]
  | some r => simp [BorrowBook, hb, hm, hr, hst, hres r hr]

/-- A Borrowed book stays Borrowed under any operation that is neither a successful
`ReturnBook` of it nor an `AddBook` with its id. -/
theorem borrowed_step (l : Library) (op : Op) (x : Int)
    (hB : ∃ b, l.Books.lookup x = some b ∧ b.Status = "Borrowed")
    (hk : keepsHeld x l op) :
    ∃ b, (step l op).Books.lookup x = some b ∧ b.Status = "Borrowed" := by
  obtain ⟨b, hb, hst⟩ := hB
  cases op with
  | addBook book =>
    have hne : x ≠ book.ID := fun h => hk h.symm
    exact ⟨b, by simp only [step, AddBook, Finmap.lookup_insert_of_ne _ hne]; exact hb, hst⟩
  | registerMember m => exact ⟨b, hb, hst⟩
  | removeBook id =>
    by_cases hok : (RemoveBook l id).2 = none
    · obtain ⟨b0, hb0, hst0, _, heq⟩ := RemoveBook_ok l id hok
      have hne : x ≠ id := by
        rintro rfl
        rw [hb] at hb0
        cases hb0
        exact hst0 hst
      refine ⟨b, ?_, hst⟩
      simp only [step, heq, Finmap.lookup_erase_ne hne]
      exact hb
    · simp only [step, RemoveBook_fail_state l id hok]
      exact ⟨b, hb, hst⟩
  | borrowBook y h1 =>
    by_cases hok : (BorrowBook l y h1).2 = none
    · obtain ⟨b0, _, _, _, _, _, heq⟩ := BorrowBook_ok l y h1 hok
      by_cases hne : x = y
      · subst hne
        exact ⟨_, by simp only [step, heq]; exact Finmap.lookup_insert _, rfl⟩
      · refine ⟨b, ?_, hst⟩
        simp only [step, heq, Finmap.lookup_insert_of_ne _ hne]
        exact hb
    · simp only [step, BorrowBook_fail_state l y h1 hok]
      exact ⟨b, hb, hst⟩
  | returnBook y h1 =>
    by_cases hok : (ReturnBook l y h1).2 = none
    · have hne : x ≠ y := fun h => hk h.symm hok
      obtain ⟨_, _, _, _, _, _, heq⟩ := ReturnBook_ok l y h1 hok
      refine ⟨b, ?_, hst⟩
      simp only [step, heq, Finmap.lookup_insert_of_ne _ hne]
      exact hb
    · simp only [step, ReturnBook_fail_state l y h1 hok]
      exact ⟨b, hb, hst⟩
  | reserve y h1 =>
    by_cases hok : (handleRequest l { BookID := y, MemberID := h1 }).2 = none
    · obtain ⟨_, _, _, _, _, _, heq⟩ := handleRequest_ok l _ hok
      refine ⟨b, ?_, hst⟩
      simp only [step, heq]
      exact hb
    · simp only [step, handleRequest_fail_state l _ hok]
      exact ⟨b, hb, hst⟩
  | expire y h1 =>
    refine ⟨b, ?_, hst⟩
    simp only [step, (expiry_frame l y h1).1]
    exact hb

/-- Along a run without successful `ReturnBook` of `x` and without `AddBook` with id `x`, a
Borrowed book `x` is Borrowed after every prefix. -/
theorem borrowed_along (x : Int) (post : List Op) (l : Library)
    (hB : ∃ b, l.Books.lookup x = some b ∧ b.Status = "Borrowed")
    (hk : keepsHeldFrom x l post) :
    ∀ n : Nat, ∃ b, (runFrom l (post.take n)).Books.lookup x = some b ∧
      b.Status = "Borrowed" := by
  induction post generalizing l with
  | nil =>
    intro n
    simp only [List.take_nil]
    exact hB
  | cons op ops ih =>
    intro n
    cases n with
    | zero => exact hB
    | succ n =>
      obtain ⟨hk1, hk2⟩ := hk
      exact ih (step l op) (borrowed_step l op x hB hk1) hk2 n

/-- Borrow followed by return, from any state whose keys carry the ids: both succeed, and
the state afterwards. -/
theorem round_trip_general (l : Library) (x h : Int) (hkeys : keysCarryIDs l)
    (hok : (BorrowBook l x h).2 = none) :
    ∃ b m rest, l.Books.lookup x = some b ∧ l.Members.lookup h = some m ∧
      (ReturnBook (BorrowBook l x h).1 x h).2 = none ∧
      borrowReturn l x h =
        { Books := l.Books.insert x { b with Status := "Available" }
          Members := l.Members.insert h { m with BorrowedBooks := rest }
          reservations := l.reservations.erase x } := by
  obtain ⟨b, m, hb, hm, _, _, heq⟩ := BorrowBook_ok l x h hok
  have hid : b.ID = x := hkeys x b hb
  have hrem : ∃ rest, removeBorrowed x
      (m.BorrowedBooks ++
        [{ ID := b.ID, Title := b.Title, Author := b.Author, Status := "Borrowed" }]) =
      some rest := by
    cases hrm : removeBorrowed x (m.BorrowedBooks ++
        [{ ID := b.ID, Title := b.Title, Author := b.Author, Status := "Borrowed" }]) with
    | some rest => exact ⟨rest, rfl⟩
    | none =>
      have hne := (removeBorrowed_eq_none x _).mp hrm
        { ID := b.ID, Title := b.Title, Author := b.Author, Status := "Borrowed" }
        (List.mem_append_right _ (List.mem_singleton_self _))
      exact absurd hid hne
  obtain ⟨rest, hrest⟩ := hrem
  have h2 : ReturnBook (BorrowBook l x h).1 x h =
      ({ Books := l.Books.insert x { b with Status := "Available" }
         Members := l.Members.insert h { m with BorrowedBooks := rest }
         reservations := l.reservations.erase x }, none) := by
    rw [heq]
    simp only [ReturnBook, Finmap.lookup_insert, hrest, Finmap.insert_insert]
  refine ⟨b, m, rest, hb, hm, by rw [h2], ?_⟩
  unfold borrowReturn
  rw [h2]

/-- After borrow and return the keys still carry the ids and the borrow can be repeated. -/
theorem borrowReturn_again (l : Library) (x h : Int) (hkeys : keysCarryIDs l)
    (hok : (BorrowBook l x h).2 = none) :
    keysCarryIDs (borrowReturn l x h) ∧ (BorrowBook (borrowReturn l x h) x h).2 = none := by
  constructor
  · exact keysCarryIDs_step _ (.returnBook x h) (keysCarryIDs_step l (.borrowBook x h) hkeys)
  · obtain ⟨b, m, rest, _, _, _, heq⟩ := round_trip_general l x h hkeys hok
    rw [heq]
    exact BorrowBook_succeeds _ x h
      { ID := b.ID, Title := b.Title, Author := b.Author, Status := "Available" }
      { ID := m.ID, Name := m.Name, BorrowedBooks := rest }
      (Finmap.lookup_insert _) (Finmap.lookup_insert _)
      (show "Available" ≠ "Borrowed" by decide) (by simp)

/-- The borrow succeeds again after any number of borrow and return rounds. -/
theorem round_trip_iterate (l : Library) (x h : Int) (hkeys : keysCarryIDs l)
    (hok : (BorrowBook l x h).2 = none) (n : Nat) :
    keysCarryIDs ((fun s => borrowReturn s x h)^[n] l) ∧
    (BorrowBook ((fun s => borrowReturn s x h)^[n] l) x h).2 = none := by
  induction n with
  | zero => exact ⟨hkeys, hok⟩
  | succ n ih =>
    rw [Function.iterate_succ_apply']
    exact borrowReturn_again _ x h ih.1 ih.2

/-- The search loops of the two engines are the same function. -/
theorem removeBorrowed_Task3 (x : Int) (bs : List Book) :
    Task3.removeBorrowed x bs = removeBorrowed x bs := by
  induction bs with
  | nil => rfl
  | cons b bs ih => simp [Task3.removeBorrowed, removeBorrowed, ih]

/-! ## Helper lemmas: slices in memory -/

theorem view_length (hp : Task4Mem.Heap) (s : Task4Mem.Slice) :
    (Task4Mem.view hp s).length = s.len := by
  simp [Task4Mem.view]

theorem map_getD_range (l : List Book) (d : Book) :
    (List.range l.length).map (fun i => l.getD i d) = l := by
  apply List.ext_getElem
  · simp
  · intro i h1 h2
    simp [List.getD_eq_getElem, h2]

theorem writeAt_nil (hp : Task4Mem.Heap) (a : Task4Mem.ArrId) (n : Nat) :
    Task4Mem.writeAt hp a n [] = hp := by
  funext a1 i
  simp [Task4Mem.writeAt]

theorem view_goAppend (g : Nat → Nat) (hp : Task4Mem.Heap) (f : Task4Mem.ArrId)
    (s : Task4Mem.Slice) (vals : List Book) :
    Task4Mem.view (Task4Mem.goAppend g hp f s vals).1 (Task4Mem.goAppend g hp f s vals).2 =
      Task4Mem.view hp s ++ vals := by
  unfold Task4Mem.goAppend
  split
  · simp only [Task4Mem.view]
    rw [List.range_add, List.map_append, List.map_map]
    congr 1
    · apply List.map_congr_left
      intro i hi
      have hi1 : i < s.len := by simpa using hi
      simp only [Task4Mem.writeAt]
      rw [if_neg]
      omega
    · conv_rhs => rw [← map_getD_range vals Task4Mem.zeroBook]
      apply List.map_congr_left
      intro i hi
      have hi1 : i < vals.length := by simpa using hi
      simp only [Task4Mem.writeAt, Function.comp]
      rw [if_pos ⟨trivial, by omega, by omega⟩]
      congr 1
      omega
  · simp only [Task4Mem.view]
    have hlen : s.len + vals.length = (Task4Mem.view hp s ++ vals).length := by
      simp [view_length]
    rw [hlen]
    simp only [Task4Mem.view, if_true, Nat.zero_add]
    exact map_getD_range _ _

theorem view_goAppend_of_ne (g : Nat → Nat) (hp : Task4Mem.Heap) (f : Task4Mem.ArrId)
    (s t : Task4Mem.Slice) (vals : List Book) (h1 : t.arr ≠ s.arr) (h2 : t.arr ≠ f) :
    Task4Mem.view (Task4Mem.goAppend g hp f s vals).1 t = Task4Mem.view hp t := by
  unfold Task4Mem.goAppend
  split
  · simp only [Task4Mem.view, Task4Mem.writeAt]
    apply List.map_congr_left
    intro i _
    rw [if_neg]
    intro h
    exact h1 h.1
  · simp only [Task4Mem.view]
    apply List.map_congr_left
    intro i _
    rw [if_neg h2]

theorem view_of_len_zero (hp : Task4Mem.Heap) (t : Task4Mem.Slice) (h : t.len = 0) :
    Task4Mem.view hp t = [] := by
  simp [Task4Mem.view, h]

theorem freshArr_ne (l : Task4Mem.Library) (k : Int) (m : Task4Mem.Member)
    (h : l.Members.lookup k = some m) : m.BorrowedBooks.arr ≠ Task4Mem.freshArr l := by
  intro he
  have hmem : (⟨k, m⟩ : Sigma (fun _ : Int => Task4Mem.Member)) ∈ l.Members.entries :=
    Finmap.lookup_eq_some_iff.1 h
  have hle : Task4Mem.engineIndex m.BorrowedBooks.arr ≤
      (l.Members.entries.map (fun e => Task4Mem.engineIndex e.2.BorrowedBooks.arr)).sup :=
    Multiset.le_sup (Multiset.mem_map.2 ⟨_, hmem, rfl⟩)
  rw [he] at hle
  simp only [Task4Mem.freshArr, Task4Mem.engineIndex] at hle
  omega

theorem lookup_mapVal {V W : Type} (f : V → W) (m : Finmap (fun _ : Int => V)) (k : Int) :
    (Task4Mem.mapVal f m).lookup k = (m.lookup k).map f := by
  cases h : m.lookup k with
  | none =>
    rw [Finmap.lookup_eq_none] at h
    rw [Option.map_none', Finmap.lookup_eq_none]
    intro hk
    apply h
    rw [Finmap.mem_def] at hk ⊢
    simpa [Task4Mem.mapVal, Multiset.keys, Multiset.map_map, Function.comp] using hk
  | some v =>
    rw [Option.map_some']
    apply Finmap.lookup_eq_some_iff.2
    have hmem := Finmap.lookup_eq_some_iff.1 h
    exact Multiset.mem_map.2 ⟨_, hmem, rfl⟩

theorem removeBorrowed_eq_indexOfID (x : Int) (v : List Book) :
    removeBorrowed x v =
      (Task4Mem.indexOfID x v).map (fun i => v.take i ++ v.drop (i + 1)) := by
  induction v with
  | nil => simp [removeBorrowed, Task4Mem.indexOfID]
  | cons b bs ih =>
    by_cases hb : b.ID = x
    · simp [removeBorrowed, Task4Mem.indexOfID, hb]
    · simp only [removeBorrowed, Task4Mem.indexOfID, hb, if_false, ih, Option.map_map]
      cases Task4Mem.indexOfID x bs <;> simp

theorem indexOfID_lt (x : Int) (v : List Book) (i : Nat)
    (h : Task4Mem.indexOfID x v = some i) : i < v.length := by
  induction v generalizing i with
  | nil => simp [Task4Mem.indexOfID] at h
  | cons b bs ih =>
    by_cases hb : b.ID = x
    · simp [Task4Mem.indexOfID, hb] at h
      subst h
      simp
    · simp only [Task4Mem.indexOfID, hb, if_false, Option.map_eq_some'] at h
      obtain ⟨j, hj, rfl⟩ := h
      have := ih j hj
      simp
      omega

theorem view_take (hp : Task4Mem.Heap) (s : Task4Mem.Slice) (i : Nat) (hi : i ≤ s.len) :
    Task4Mem.view hp { s with len := i } = (Task4Mem.view hp s).take i := by
  apply List.ext_getElem
  · simp [Task4Mem.view, hi]
  · intro j h1 h2
    simp [Task4Mem.view]

theorem view_drop (hp : Task4Mem.Heap) (s : Task4Mem.Slice) (i : Nat) :
    Task4Mem.view hp { s with off := s.off + i, len := s.len - i, cap := s.cap - i } =
      (Task4Mem.view hp s).drop i := by
  apply List.ext_getElem
  · simp [Task4Mem.view]
  · intro j h1 h2
    simp [Task4Mem.view, Nat.add_assoc]

theorem view_goAppend_alloc (g : Nat → Nat) (hp : Task4Mem.Heap) (f : Task4Mem.ArrId)
    (s t : Task4Mem.Slice) (vals : List Book) (h1 : ¬ s.len + vals.length ≤ s.cap)
    (h2 : t.arr ≠ f) :
    Task4Mem.view (Task4Mem.goAppend g hp f s vals).1 t = Task4Mem.view hp t := by
  unfold Task4Mem.goAppend
  rw [if_neg h1]
  simp only [Task4Mem.view]
  apply List.map_congr_left
  intro i _
  rw [if_neg h2]

theorem goAppend_arr (g : Nat → Nat) (hp : Task4Mem.Heap) (f : Task4Mem.ArrId)
    (s : Task4Mem.Slice) (vals : List Book) :
    (s.len + vals.length ≤ s.cap ∧
      (Task4Mem.goAppend g hp f s vals).2 = { s with len := s.len + vals.length }) ∨
    (¬ s.len + vals.length ≤ s.cap ∧ (Task4Mem.goAppend g hp f s vals).2.arr = f) := by
  unfold Task4Mem.goAppend
  by_cases h : s.len + vals.length ≤ s.cap
  · left
    simp [h]
  · right
    simp [h]

/-- The members of the view: each with the elements of its slice. -/
theorem lookup_viewLibrary (l : Task4Mem.Library) (k : Int) :
    (Task4Mem.viewLibrary l).Members.lookup k =
      (l.Members.lookup k).map (Task4Mem.viewMember l.heap) :=
  lookup_mapVal _ _ _

/-- What a successful `BorrowBook` found and what it returns, in memory. -/
theorem BorrowBook_mem_ok (g : Nat → Nat) (l : Task4Mem.Library) (x h : Int)
    (hok : (Task4Mem.BorrowBook g l x h).2 = none) :
    ∃ b m, l.Books.lookup x = some b ∧ l.Members.lookup h = some m ∧
      b.Status ≠ "Borrowed" ∧
      (∀ r, l.reservations.lookup x = some r → r.MemberID = h) ∧
      (Task4Mem.BorrowBook g l x h).1 =
        { Books := l.Books.insert x { b with Status := "Borrowed" }
          Members := l.Members.insert h
            { m with BorrowedBooks :=
                (Task4Mem.goAppend g l.heap (Task4Mem.freshArr l) m.BorrowedBooks
                  [{ b with Status := "Borrowed" }]).2 }
          reservations := l.reservations.erase x
          heap :=
            (Task4Mem.goAppend g l.heap (Task4Mem.freshArr l) m.BorrowedBooks
              [{ b with Status := "Borrowed" }]).1 } := by
  cases hb : l.Books.lookup x with
  | none => simp [Task4Mem.BorrowBook, hb] at hok
  | some b =>
    cases hm : l.Members.lookup h with
    | none => simp [Task4Mem.BorrowBook, hb, hm] at hok
    | some m =>
      refine ⟨b, m, rfl, rfl, ?_⟩
      cases hr : l.reservations.lookup x with
      | none =>
        by_cases hst : b.Status = "Borrowed"
        · simp [Task4Mem.BorrowBook, hb, hm, hr, hst] at hok
        · refine ⟨hst, by simp, ?_⟩
          simp [Task4Mem.BorrowBook, hb, hm, hr, hst, erase_of_lookup_none _ _ hr]
      | some r =>
        by_cases hne : r.MemberID = h
        · by_cases hst : b.Status = "Borrowed"
          · simp [Task4Mem.BorrowBook, hb, hm, hr, hst, hne] at hok
          · refine ⟨hst, by simp [hne], ?_⟩
            simp [Task4Mem.BorrowBook, hb, hm, hr, hst, hne]
        · simp [Task4Mem.BorrowBook, hb, hm, hr, hne] at hok

/-- A failing `BorrowBook` returns the library it was given, in memory. -/
theorem BorrowBook_mem_fail (g : Nat → Nat) (l : Task4Mem.Library) (x h : Int)
    (hf : (Task4Mem.BorrowBook g l x h).2 ≠ none) : (Task4Mem.BorrowBook g l x h).1 = l := by
  cases hb : l.Books.lookup x with
  | none => simp [Task4Mem.BorrowBook, hb]
  | some b =>
    cases hm : l.Members.lookup h with
    | none => simp [Task4Mem.BorrowBook, hb, hm]
    | some m =>
      by_cases hst : b.Status = "Borrowed"
      · cases hr : l.reservations.lookup x with
        | none => simp [Task4Mem.BorrowBook, hb, hm, hr, hst]
        | some r =>
          by_cases hne : r.MemberID = h
          · simp [Task4Mem.BorrowBook, hb, hm, hr, hst, hne]
          · simp [Task4Mem.BorrowBook, hb, hm, hr, hne]
      · cases hr : l.reservations.lookup x with
        | none => simp [Task4Mem.BorrowBook, hb, hm, hr, hst] at hf
        | some r =>
          by_cases hne : r.MemberID = h
          · simp [Task4Mem.BorrowBook, hb, hm, hr, hst, hne] at hf
          · simp [Task4Mem.BorrowBook, hb, hm, hr, hne]

/-- The reply of `BorrowBook` is the one the view of the state gives. -/
theorem BorrowBook_reply (g : Nat → Nat) (l : Task4Mem.Library) (x h : Int) :
    (Task4Mem.BorrowBook g l x h).2 = (BorrowBook (Task4Mem.viewLibrary l) x h).2 := by
  have hv := lookup_viewLibrary l h
  have hB : (Task4Mem.viewLibrary l).Books = l.Books := rfl
  have hR : (Task4Mem.viewLibrary l).reservations = l.reservations := rfl
  cases hb : l.Books.lookup x with
  | none => simp [Task4Mem.BorrowBook, BorrowBook, hb, hB]
  | some b =>
    cases hm : l.Members.lookup h with
    | none =>
      rw [hm] at hv
      simp [Task4Mem.BorrowBook, BorrowBook, hb, hm, hB, hv]
    | some m =>
      rw [hm] at hv
      cases hr : l.reservations.lookup x with
      | none =>
        by_cases hst : b.Status = "Borrowed"
        · simp [Task4Mem.BorrowBook, BorrowBook, hb, hm, hB, hR, hv, hr, hst]
        · simp [Task4Mem.BorrowBook, BorrowBook, hb, hm, hB, hR, hv, hr, hst]
      | some r =>
        by_cases hne : r.MemberID = h
        · by_cases hst : b.Status = "Borrowed"
          · simp [Task4Mem.BorrowBook, BorrowBook, hb, hm, hB, hR, hv, hr, hst, hne]
          · simp [Task4Mem.BorrowBook, BorrowBook, hb, hm, hB, hR, hv, hr, hst, hne]
        · simp [Task4Mem.BorrowBook, BorrowBook, hb, hm, hB, hR, hv, hr, hne]

/-- What a successful `ReturnBook` found and what it returns, in memory. -/
theorem ReturnBook_mem_ok (g : Nat → Nat) (l : Task4Mem.Library) (x h : Int)
    (hok : (Task4Mem.ReturnBook g l x h).2 = none) :
    ∃ b m i, l.Books.lookup x = some b ∧ l.Members.lookup h = some m ∧
      Task4Mem.indexOfID x (Task4Mem.view l.heap m.BorrowedBooks) = some i ∧
      (Task4Mem.ReturnBook g l x h).1 =
        { Books := l.Books.insert x { b with Status := "Available" }
          Members := l.Members.insert h
            { m with BorrowedBooks :=
                (Task4Mem.goAppend g l.heap (Task4Mem.freshArr l)
                  { m.BorrowedBooks with len := i }
                  (Task4Mem.view l.heap
                    { m.BorrowedBooks with
                      off := m.BorrowedBooks.off + (i + 1)
                      len := m.BorrowedBooks.len - (i + 1)
                      cap := m.BorrowedBooks.cap - (i + 1) })).2 }
          reservations := l.reservations
          heap :=
            (Task4Mem.goAppend g l.heap (Task4Mem.freshArr l)
              { m.BorrowedBooks with len := i }
              (Task4Mem.view l.heap
                { m.BorrowedBooks with
                  off := m.BorrowedBooks.off + (i + 1)
                  len := m.BorrowedBooks.len - (i + 1)
                  cap := m.BorrowedBooks.cap - (i + 1) })).1 } := by
  cases hm : l.Members.lookup h with
  | none => simp [Task4Mem.ReturnBook, hm] at hok
  | some m =>
    cases hb : l.Books.lookup x with
    | none => simp [Task4Mem.ReturnBook, hb, hm] at hok
    | some b =>
      cases hr : Task4Mem.indexOfID x (Task4Mem.view l.heap m.BorrowedBooks) with
      | none => simp [Task4Mem.ReturnBook, hb, hm, hr] at hok
      | some i =>
        exact ⟨b, m, i, rfl, rfl, hr, by simp [Task4Mem.ReturnBook, hb, hm, hr]⟩

/-- A failing `ReturnBook` returns the library it was given, in memory. -/
theorem ReturnBook_mem_fail (g : Nat → Nat) (l : Task4Mem.Library) (x h : Int)
    (hf : (Task4Mem.ReturnBook g l x h).2 ≠ none) : (Task4Mem.ReturnBook g l x h).1 = l := by
  cases hm : l.Members.lookup h with
  | none => simp [Task4Mem.ReturnBook, hm]
  | some m =>
    cases hb : l.Books.lookup x with
    | none => simp [Task4Mem.ReturnBook, hb, hm]
    | some b =>
      cases hr : Task4Mem.indexOfID x (Task4Mem.view l.heap m.BorrowedBooks) with
      | none => simp [Task4Mem.ReturnBook, hb, hm, hr]
      | some i => simp [Task4Mem.ReturnBook, hb, hm, hr] at hf

/-- The reply of `ReturnBook` is the one the view of the state gives. -/
theorem ReturnBook_reply (g : Nat → Nat) (l : Task4Mem.Library) (x h : Int) :
    (Task4Mem.ReturnBook g l x h).2 = (ReturnBook (Task4Mem.viewLibrary l) x h).2 := by
  have hv := lookup_viewLibrary l h
  have hB : (Task4Mem.viewLibrary l).Books = l.Books := rfl
  cases hm : l.Members.lookup h with
  | none =>
    rw [hm] at hv
    simp [Task4Mem.ReturnBook, ReturnBook, hm, hv]
  | some m =>
    rw [hm] at hv
    cases hb : l.Books.lookup x with
    | none => simp [Task4Mem.ReturnBook, ReturnBook, hm, hv, hb, hB]
    | some b =>
      have hrel := removeBorrowed_eq_indexOfID x (Task4Mem.view l.heap m.BorrowedBooks)
      cases hr : Task4Mem.indexOfID x (Task4Mem.view l.heap m.BorrowedBooks) with
      | none =>
        rw [hr] at hrel
        simp [Task4Mem.ReturnBook, ReturnBook, hm, hv, hb, hB, hr, Task4Mem.viewMember, hrel]
      | some i =>
        rw [hr] at hrel
        simp [Task4Mem.ReturnBook, ReturnBook, hm, hv, hb, hB, hr, Task4Mem.viewMember, hrel]

/-- After a successful `BorrowBook` the elements of the borrower's slice are the previous
ones followed by the borrowed record, whatever the slice shares. -/
theorem BorrowBook_mem_self (g : Nat → Nat) (l : Task4Mem.Library) (x h : Int)
    (hok : (Task4Mem.BorrowBook g l x h).2 = none) :
    ∃ b m, l.Books.lookup x = some b ∧ l.Members.lookup h = some m ∧
      (Task4Mem.viewLibrary (Task4Mem.BorrowBook g l x h).1).Members.lookup h =
        some { ID := m.ID, Name := m.Name
               BorrowedBooks :=
                 Task4Mem.view l.heap m.BorrowedBooks ++ [{ b with Status := "Borrowed" }] } := by
  obtain ⟨b, m, hb, hm, -, -, hst⟩ := BorrowBook_mem_ok g l x h hok
  refine ⟨b, m, hb, hm, ?_⟩
  rw [lookup_viewLibrary, hst]
  simp [Task4Mem.viewMember, view_goAppend]

/-- A successful `BorrowBook` leaves the elements of a slice apart from the borrower's as
they were. -/
theorem BorrowBook_mem_other (g : Nat → Nat) (l : Task4Mem.Library) (x h k : Int)
    (mh mk : Task4Mem.Member) (hok : (Task4Mem.BorrowBook g l x h).2 = none)
    (hh : l.Members.lookup h = some mh) (hk : l.Members.lookup k = some mk)
    (hap : Task4Mem.apart mh.BorrowedBooks mk.BorrowedBooks) :
    Task4Mem.view (Task4Mem.BorrowBook g l x h).1.heap mk.BorrowedBooks =
      Task4Mem.view l.heap mk.BorrowedBooks := by
  obtain ⟨b, m, hb, hm, -, -, hst⟩ := BorrowBook_mem_ok g l x h hok
  rw [hh] at hm
  cases hm
  rw [hst]
  show Task4Mem.view (Task4Mem.goAppend g l.heap (Task4Mem.freshArr l) mh.BorrowedBooks
    [{ b with Status := "Borrowed" }]).1 mk.BorrowedBooks = _
  have hf := freshArr_ne l k mk hk
  rcases hap with h1 | h1 | h1
  · exact view_goAppend_of_ne _ _ _ _ _ _ (fun e => h1 e.symm) hf
  · exact view_goAppend_alloc _ _ _ _ _ _ (by simp [h1.1, h1.2]) hf
  · rw [view_of_len_zero _ _ h1.1, view_of_len_zero _ _ h1.1]

/-- After a successful `ReturnBook` the elements of the returner's slice are the previous
ones without the first whose id is `x`, whatever the slice shares. -/
theorem ReturnBook_mem_self (g : Nat → Nat) (l : Task4Mem.Library) (x h : Int)
    (hok : (Task4Mem.ReturnBook g l x h).2 = none) :
    ∃ b m rest, l.Books.lookup x = some b ∧ l.Members.lookup h = some m ∧
      removeBorrowed x (Task4Mem.view l.heap m.BorrowedBooks) = some rest ∧
      (Task4Mem.viewLibrary (Task4Mem.ReturnBook g l x h).1).Members.lookup h =
        some { ID := m.ID, Name := m.Name, BorrowedBooks := rest } := by
  obtain ⟨b, m, i, hb, hm, hi, hst⟩ := ReturnBook_mem_ok g l x h hok
  have hlt := indexOfID_lt _ _ _ hi
  rw [view_length] at hlt
  refine ⟨b, m, (Task4Mem.view l.heap m.BorrowedBooks).take i ++
    (Task4Mem.view l.heap m.BorrowedBooks).drop (i + 1), hb, hm, ?_, ?_⟩
  · rw [removeBorrowed_eq_indexOfID, hi]
    rfl
  · rw [lookup_viewLibrary, hst]
    simp only [Finmap.lookup_insert, Option.map_some', Task4Mem.viewMember, view_goAppend]
    rw [view_take _ _ _ (by omega), view_drop]

/-- A successful `ReturnBook` leaves the elements of a slice apart from the returner's as
they were. -/
theorem ReturnBook_mem_other (g : Nat → Nat) (l : Task4Mem.Library) (x h k : Int)
    (mh mk : Task4Mem.Member) (hok : (Task4Mem.ReturnBook g l x h).2 = none)
    (hh : l.Members.lookup h = some mh) (hk : l.Members.lookup k = some mk)
    (hap : Task4Mem.apart mh.BorrowedBooks mk.BorrowedBooks) :
    Task4Mem.view (Task4Mem.ReturnBook g l x h).1.heap mk.BorrowedBooks =
      Task4Mem.view l.heap mk.BorrowedBooks := by
  obtain ⟨b, m, i, hb, hm, hi, hst⟩ := ReturnBook_mem_ok g l x h hok
  rw [hh] at hm
  cases hm
  have hlt := indexOfID_lt _ _ _ hi
  rw [view_length] at hlt
  rw [hst]
  show Task4Mem.view (Task4Mem.goAppend g l.heap (Task4Mem.freshArr l) _ _).1
    mk.BorrowedBooks = _
  have hf := freshArr_ne l k mk hk
  rcases hap with h1 | h1 | h1
  · exact view_goAppend_of_ne _ _ _ _ _ _ (fun e => h1 e.symm) hf
  · omega
  · rw [view_of_len_zero _ _ h1.1, view_of_len_zero _ _ h1.1]

/-- Without shared backing arrays, `BorrowBook` acts on the view of the state as the engine
with one list per member does. -/
theorem BorrowBook_view (g : Nat → Nat) (l : Task4Mem.Library) (x h : Int)
    (hS : Task4Mem.Sep l) :
    Task4Mem.viewLibrary (Task4Mem.BorrowBook g l x h).1 =
      (BorrowBook (Task4Mem.viewLibrary l) x h).1 := by
  by_cases hok : (Task4Mem.BorrowBook g l x h).2 = none
  · have hok2 : (BorrowBook (Task4Mem.viewLibrary l) x h).2 = none := by
      rw [← BorrowBook_reply]
      exact hok
    obtain ⟨b, m, hb, hm, -, -, hst⟩ := BorrowBook_mem_ok g l x h hok
    obtain ⟨b2, m2, hb2, hm2, -, -, hst2⟩ := BorrowBook_ok _ x h hok2
    have hbb : b2 = b := by
      have : l.Books.lookup x = some b2 := hb2
      rw [hb] at this
      exact (Option.some.inj this).symm
    have hmm : m2 = Task4Mem.viewMember l.heap m := by
      rw [lookup_viewLibrary, hm] at hm2
      exact (Option.some.inj hm2).symm
    subst hbb hmm
    rw [hst2]
    have hB := congrArg Task4Mem.Library.Books hst
    have hR := congrArg Task4Mem.Library.reservations hst
    have hM := congrArg Task4Mem.Library.Members hst
    simp only at hB hR hM
    show Task4.Library.mk _ _ _ = Task4.Library.mk _ _ _
    rw [Task4.Library.mk.injEq]
    refine ⟨hB, ?_, hR⟩
    apply Finmap.ext_lookup
    intro k
    rw [lookup_mapVal, hM]
    by_cases hk : k = h
    · subst hk
      rw [Finmap.lookup_insert, Finmap.lookup_insert, Option.map_some', hst]
      simp [Task4Mem.viewMember, view_goAppend]
    · rw [Finmap.lookup_insert_of_ne _ hk, Finmap.lookup_insert_of_ne _ hk]
      show _ = (Task4Mem.viewLibrary l).Members.lookup k
      rw [lookup_viewLibrary]
      cases hlk : l.Members.lookup k with
      | none => rfl
      | some mk =>
        have hv := BorrowBook_mem_other g l x h k m mk hok hm hlk
          (hS h k m mk (fun e => hk e.symm) hm hlk)
        simp only [Option.map_some', Task4Mem.viewMember, hv]
  · rw [BorrowBook_mem_fail g l x h hok, BorrowBook_fail_state]
    rw [← BorrowBook_reply]
    exact hok

/-- Without shared backing arrays, `ReturnBook` acts on the view of the state as the engine
with one list per member does. -/
theorem ReturnBook_view (g : Nat → Nat) (l : Task4Mem.Library) (x h : Int)
    (hS : Task4Mem.Sep l) :
    Task4Mem.viewLibrary (Task4Mem.ReturnBook g l x h).1 =
      (ReturnBook (Task4Mem.viewLibrary l) x h).1 := by
  by_cases hok : (Task4Mem.ReturnBook g l x h).2 = none
  · have hok2 : (ReturnBook (Task4Mem.viewLibrary l) x h).2 = none := by
      rw [← ReturnBook_reply]
      exact hok
    obtain ⟨b, m, i, hb, hm, hi, hst⟩ := ReturnBook_mem_ok g l x h hok
    obtain ⟨b1, m1, rest1, hb1, hm1, hr1, hself⟩ := ReturnBook_mem_self g l x h hok
    obtain ⟨b2, m2, rest2, hb2, hm2, hr2, hst2⟩ := ReturnBook_ok _ x h hok2
    have hbb : b2 = b := by
      have : l.Books.lookup x = some b2 := hb2
      rw [hb] at this
      exact (Option.some.inj this).symm
    have hmm : m2 = Task4Mem.viewMember l.heap m := by
      rw [lookup_viewLibrary, hm] at hm2
      exact (Option.some.inj hm2).symm
    have hm1m : m1 = m := by
      rw [hm] at hm1
      exact (Option.some.inj hm1).symm
    subst hbb hmm hm1m
    have hrr : rest2 = rest1 := by
      have : removeBorrowed x (Task4Mem.view l.heap m1.BorrowedBooks) = some rest2 := hr2
      rw [hr1] at this
      exact (Option.some.inj this).symm
    subst hrr
    rw [hst2]
    have hB := congrArg Task4Mem.Library.Books hst
    have hR := congrArg Task4Mem.Library.reservations hst
    have hM := congrArg Task4Mem.Library.Members hst
    simp only at hB hR hM
    show Task4.Library.mk _ _ _ = Task4.Library.mk _ _ _
    rw [Task4.Library.mk.injEq]
    refine ⟨hB, ?_, hR⟩
    apply Finmap.ext_lookup
    intro k
    by_cases hk : k = h
    · subst hk
      rw [Finmap.lookup_insert]
      exact hself
    · rw [Finmap.lookup_insert_of_ne _ hk, lookup_mapVal, hM,
        Finmap.lookup_insert_of_ne _ hk]
      show _ = (Task4Mem.viewLibrary l).Members.lookup k
      rw [lookup_viewLibrary]
      cases hlk : l.Members.lookup k with
      | none => rfl
      | some mk =>
        have hv := ReturnBook_mem_other g l x h k m1 mk hok hm hlk
          (hS h k m1 mk (fun e => hk e.symm) hm hlk)
        simp only [Option.map_some', Task4Mem.viewMember, hv]
  · rw [ReturnBook_mem_fail g l x h hok, ReturnBook_fail_state]
    rw [← ReturnBook_reply]
    exact hok

/-- `BorrowBook` introduces no sharing of backing arrays. -/
theorem Sep_BorrowBook (g : Nat → Nat) (l : Task4Mem.Library) (x h : Int)
    (hS : Task4Mem.Sep l) : Task4Mem.Sep (Task4Mem.BorrowBook g l x h).1 := by
  by_cases hok : (Task4Mem.BorrowBook g l x h).2 = none
  · obtain ⟨b, m, hb, hm, -, -, hst⟩ := BorrowBook_mem_ok g l x h hok
    have key : ∀ k mk, k ≠ h → l.Members.lookup k = some mk →
        Task4Mem.apart (Task4Mem.goAppend g l.heap (Task4Mem.freshArr l) m.BorrowedBooks
          [{ b with Status := "Borrowed" }]).2 mk.BorrowedBooks := by
      intro k mk hk hlk
      have hf := freshArr_ne l k mk hlk
      rcases goAppend_arr g l.heap (Task4Mem.freshArr l) m.BorrowedBooks
        [{ b with Status := "Borrowed" }] with ⟨hin, he⟩ | ⟨-, he⟩
      · rcases hS h k m mk (fun e => hk e.symm) hm hlk with h1 | h1 | h1
        · left
          rw [he]
          exact h1
        · simp [h1.1, h1.2] at hin
        · exact Or.inr (Or.inr h1)
      · left
        rw [he]
        exact fun e => hf e.symm
    rw [hst]
    intro k1 k2 m1 m2 hne h1 h2
    simp only at h1 h2
    by_cases hk1 : k1 = h
    · have hk2 : k2 ≠ h := fun e => hne (hk1.trans e.symm)
      rw [hk1, Finmap.lookup_insert] at h1
      rw [Finmap.lookup_insert_of_ne _ hk2] at h2
      cases h1
      exact key k2 m2 hk2 h2
    · rw [Finmap.lookup_insert_of_ne _ hk1] at h1
      by_cases hk2 : k2 = h
      · rw [hk2, Finmap.lookup_insert] at h2
        cases h2
        rcases key k1 m1 hk1 h1 with h3 | h3 | h3
        · exact Or.inl (fun e => h3 e.symm)
        · exact Or.inr (Or.inr h3)
        · exact Or.inr (Or.inl h3)
      · rw [Finmap.lookup_insert_of_ne _ hk2] at h2
        exact hS k1 k2 m1 m2 hne h1 h2
  · rw [BorrowBook_mem_fail g l x h hok]
    exact hS

/-- `ReturnBook` introduces no sharing of backing arrays. -/
theorem Sep_ReturnBook (g : Nat → Nat) (l : Task4Mem.Library) (x h : Int)
    (hS : Task4Mem.Sep l) : Task4Mem.Sep (Task4Mem.ReturnBook g l x h).1 := by
  by_cases hok : (Task4Mem.ReturnBook g l x h).2 = none
  · obtain ⟨b, m, i, hb, hm, hi, hst⟩ := ReturnBook_mem_ok g l x h hok
    have hlt := indexOfID_lt _ _ _ hi
    rw [view_length] at hlt
    have key : ∀ k mk, k ≠ h → l.Members.lookup k = some mk →
        Task4Mem.apart (Task4Mem.goAppend g l.heap (Task4Mem.freshArr l)
          { m.BorrowedBooks with len := i }
          (Task4Mem.view l.heap
            { m.BorrowedBooks with
              off := m.BorrowedBooks.off + (i + 1)
              len := m.BorrowedBooks.len - (i + 1)
              cap := m.BorrowedBooks.cap - (i + 1) })).2 mk.BorrowedBooks := by
      intro k mk hk hlk
      have hf := freshArr_ne l k mk hlk
      rcases goAppend_arr g l.heap (Task4Mem.freshArr l) { m.BorrowedBooks with len := i }
        (Task4Mem.view l.heap
            { m.BorrowedBooks with
              off := m.BorrowedBooks.off + (i + 1)
              len := m.BorrowedBooks.len - (i + 1)
              cap := m.BorrowedBooks.cap - (i + 1) }) with ⟨-, he⟩ | ⟨-, he⟩
      · rcases hS h k m mk (fun e => hk e.symm) hm hlk with h1 | h1 | h1
        · left
          rw [he]
          exact h1
        · omega
        · exact Or.inr (Or.inr h1)
      · left
        rw [he]
        exact fun e => hf e.symm
    rw [hst]
    intro k1 k2 m1 m2 hne h1 h2
    simp only at h1 h2
    by_cases hk1 : k1 = h
    · have hk2 : k2 ≠ h := fun e => hne (hk1.trans e.symm)
      rw [hk1, Finmap.lookup_insert] at h1
      rw [Finmap.lookup_insert_of_ne _ hk2] at h2
      cases h1
      exact key k2 m2 hk2 h2
    · rw [Finmap.lookup_insert_of_ne _ hk1] at h1
      by_cases hk2 : k2 = h
      · rw [hk2, Finmap.lookup_insert] at h2
        cases h2
        rcases key k1 m1 hk1 h1 with h3 | h3 | h3
        · exact Or.inl (fun e => h3 e.symm)
        · exact Or.inr (Or.inr h3)
        · exact Or.inr (Or.inl h3)
      · rw [Finmap.lookup_insert_of_ne _ hk2] at h2
        exact hS k1 k2 m1 m2 hne h1 h2
  · rw [ReturnBook_mem_fail g l x h hok]
    exact hS

/-- `RemoveBook` acts on the view of the state as the engine with one list per member
does, and touches neither the members nor the backing arrays. -/
theorem RemoveBook_view (l : Task4Mem.Library) (x : Int) :
    Task4Mem.viewLibrary (Task4Mem.RemoveBook l x).1 =
      (RemoveBook (Task4Mem.viewLibrary l) x).1 ∧
    (Task4Mem.RemoveBook l x).2 = (RemoveBook (Task4Mem.viewLibrary l) x).2 ∧
    (Task4Mem.RemoveBook l x).1.Members = l.Members ∧
    (Task4Mem.RemoveBook l x).1.heap = l.heap := by
  have hB : (Task4Mem.viewLibrary l).Books = l.Books := rfl
  have hR : (Task4Mem.viewLibrary l).reservations = l.reservations := rfl
  cases hb : l.Books.lookup x with
  | none => simp [Task4Mem.RemoveBook, RemoveBook, hb, hB]
  | some b =>
    by_cases hst : b.Status = "Borrowed"
    · simp [Task4Mem.RemoveBook, RemoveBook, hb, hB, hst]
    · cases hr : l.reservations.lookup x with
      | some r => simp [Task4Mem.RemoveBook, RemoveBook, hb, hB, hR, hst, hr]
      | none =>
        simp [Task4Mem.RemoveBook, RemoveBook, hb, hB, hR, hst, hr]
        rfl

/-- The worker's handling of a request acts on the view of the state as the engine with one
list per member does, and touches neither the members nor the backing arrays. -/
theorem handleRequest_view (l : Task4Mem.Library) (req : ReservationRequest) :
    Task4Mem.viewLibrary (Task4Mem.handleRequest l req).1 =
      (handleRequest (Task4Mem.viewLibrary l) req).1 ∧
    (Task4Mem.handleRequest l req).2 = (handleRequest (Task4Mem.viewLibrary l) req).2 ∧
    (Task4Mem.handleRequest l req).1.Members = l.Members ∧
    (Task4Mem.handleRequest l req).1.heap = l.heap := by
  have hB : (Task4Mem.viewLibrary l).Books = l.Books := rfl
  have hR : (Task4Mem.viewLibrary l).reservations = l.reservations := rfl
  have hv := lookup_viewLibrary l req.MemberID
  cases hb : l.Books.lookup req.BookID with
  | none => simp [Task4Mem.handleRequest, handleRequest, hb, hB]
  | some b =>
    cases hm : l.Members.lookup req.MemberID with
    | none =>
      rw [hm] at hv
      simp [Task4Mem.handleRequest, handleRequest, hb, hB, hm, hv]
    | some m =>
      rw [hm] at hv
      by_cases hst : b.Status = "Borrowed"
      · simp [Task4Mem.handleRequest, handleRequest, hb, hB, hm, hv, hst]
      · cases hr : l.reservations.lookup req.BookID with
        | some r => simp [Task4Mem.handleRequest, handleRequest, hb, hB, hR, hm, hv, hst, hr]
        | none =>
          simp [Task4Mem.handleRequest, handleRequest, hb, hB, hR, hm, hv, hst, hr]
          rfl

/-- The expiry action acts on the view of the state as the engine with one list per member
does, and touches neither the members nor the backing arrays. -/
theorem expiry_view (l : Task4Mem.Library) (x h : Int) :
    Task4Mem.viewLibrary (Task4Mem.expiry l x h) = expiry (Task4Mem.viewLibrary l) x h ∧
    (Task4Mem.expiry l x h).Members = l.Members ∧
    (Task4Mem.expiry l x h).heap = l.heap := by
  have hB : (Task4Mem.viewLibrary l).Books = l.Books := rfl
  have hR : (Task4Mem.viewLibrary l).reservations = l.reservations := rfl
  cases hr : l.reservations.lookup x with
  | none => simp [Task4Mem.expiry, expiry, hR, hr]
  | some r =>
    by_cases hne : r.MemberID = h
    · cases hb : l.Books.lookup x with
      | none => simp [Task4Mem.expiry, expiry, hR, hr, hne, hB, hb]
      | some b =>
        by_cases hst : b.Status = "Borrowed"
        · simp [Task4Mem.expiry, expiry, hR, hr, hne, hB, hb, hst]
        · simp [Task4Mem.expiry, expiry, hR, hr, hne, hB, hb, hst]
          rfl
    · simp [Task4Mem.expiry, expiry, hR, hr, hne]

/-- `RegisterMember` stores, in the view, the member with the elements of its slice. -/
theorem RegisterMember_view (l : Task4Mem.Library) (m : Task4Mem.Member) :
    Task4Mem.viewLibrary (Task4Mem.RegisterMember l m) =
      RegisterMember (Task4Mem.viewLibrary l) (Task4Mem.viewMember l.heap m) := by
  show Task4.Library.mk _ _ _ = Task4.Library.mk _ _ _
  rw [Task4.Library.mk.injEq]
  refine ⟨rfl, ?_, rfl⟩
  apply Finmap.ext_lookup
  intro k
  show (Task4Mem.mapVal (Task4Mem.viewMember l.heap) (l.Members.insert m.ID m)).lookup k =
    ((Task4Mem.mapVal (Task4Mem.viewMember l.heap) l.Members).insert m.ID
      (Task4Mem.viewMember l.heap m)).lookup k
  rw [lookup_mapVal]
  by_cases hk : k = m.ID
  · subst hk
    rw [Finmap.lookup_insert, Finmap.lookup_insert]
    rfl
  · rw [Finmap.lookup_insert_of_ne _ hk, Finmap.lookup_insert_of_ne _ hk, lookup_mapVal]

/-- Without shared backing arrays, every operation acts on the view of the state as the
engine with one list per member does. -/
theorem step_view (g : Nat → Nat) (l : Task4Mem.Library) (op : Task4Mem.Op)
    (hS : Task4Mem.Sep l) :
    Task4Mem.viewLibrary (Task4Mem.step g l op) =
      step (Task4Mem.viewLibrary l) (Task4Mem.viewOp l.heap op) := by
  cases op with
  | addBook b => rfl
  | registerMember m => exact RegisterMember_view l m
  | removeBook x => exact (RemoveBook_view l x).1
  | borrowBook x h => exact BorrowBook_view g l x h hS
  | returnBook x h => exact ReturnBook_view g l x h hS
  | reserve x h => exact (handleRequest_view l _).1
  | expire x h => exact (expiry_view l x h).1

/-- No operation introduces sharing of backing arrays, except a `RegisterMember` that brings
a shared slice. -/
theorem Sep_step (g : Nat → Nat) (l : Task4Mem.Library) (op : Task4Mem.Op)
    (hS : Task4Mem.Sep l) (ho : Task4Mem.ownArray l op) :
    Task4Mem.Sep (Task4Mem.step g l op) := by
  cases op with
  | addBook b => exact hS
  | registerMember m =>
    have key : ∀ k mk, k ≠ m.ID → l.Members.lookup k = some mk →
        Task4Mem.apart m.BorrowedBooks mk.BorrowedBooks := fun k mk hk hlk =>
      ho ⟨k, mk⟩ (Finmap.lookup_eq_some_iff.1 hlk) hk
    intro k1 k2 m1 m2 hne h1 h2
    simp only [Task4Mem.step, Task4Mem.RegisterMember] at h1 h2
    by_cases hk1 : k1 = m.ID
    · have hk2 : k2 ≠ m.ID := fun e => hne (hk1.trans e.symm)
      rw [hk1, Finmap.lookup_insert] at h1
      rw [Finmap.lookup_insert_of_ne _ hk2] at h2
      cases h1
      exact key k2 m2 hk2 h2
    · rw [Finmap.lookup_insert_of_ne _ hk1] at h1
      by_cases hk2 : k2 = m.ID
      · rw [hk2, Finmap.lookup_insert] at h2
        cases h2
        rcases key k1 m1 hk1 h1 with h3 | h3 | h3
        · exact Or.inl (fun e => h3 e.symm)
        · exact Or.inr (Or.inr h3)
        · exact Or.inr (Or.inl h3)
      · rw [Finmap.lookup_insert_of_ne _ hk2] at h2
        exact hS k1 k2 m1 m2 hne h1 h2
  | removeBook x =>
    intro k1 k2 m1 m2 hne h1 h2
    simp only [Task4Mem.step, (RemoveBook_view l x).2.2.1] at h1 h2
    exact hS k1 k2 m1 m2 hne h1 h2
  | borrowBook x h => exact Sep_BorrowBook g l x h hS
  | returnBook x h => exact Sep_ReturnBook g l x h hS
  | reserve x h =>
    intro k1 k2 m1 m2 hne h1 h2
    simp only [Task4Mem.step, (handleRequest_view l _).2.2.1] at h1 h2
    exact hS k1 k2 m1 m2 hne h1 h2
  | expire x h =>
    intro k1 k2 m1 m2 hne h1 h2
    simp only [Task4Mem.step, (expiry_view l x h).2.1] at h1 h2
    exact hS k1 k2 m1 m2 hne h1 h2

/-- A fresh library has no members, so no sharing. -/
theorem Sep_NewLibrary (hp : Task4Mem.Heap) : Task4Mem.Sep (Task4Mem.NewLibrary hp) := by
  intro k1 k2 m1 m2 _ h1 _
  simp [Task4Mem.NewLibrary] at h1

/-- A run in which every `RegisterMember` brings a slice of its own keeps the backing arrays
unshared. -/
theorem Sep_runFrom (g : Nat → Nat) (ops : List Task4Mem.Op) :
    ∀ l : Task4Mem.Library, Task4Mem.Sep l → Task4Mem.ownArrayFrom g l ops →
      Task4Mem.Sep (Task4Mem.runFrom g l ops) := by
  induction ops with
  | nil => intro l hS _; exact hS
  | cons op ops ih =>
    intro l hS ho
    exact ih _ (Sep_step g l op hS ho.1) ho.2

/-- Where every key of `Books` carries a record with that id, no record is listed twice. -/
theorem count_one_of_keysCarryIDs (l : Library) (hid : keysCarryIDs l) :
    ∀ r ∈ (ListAvailableBooks l).2, (ListAvailableBooks l).2.count r = 1 := by
  intro r hr
  apply le_antisymm
  · rw [count_ListAvailableBooks]
    have hsub : l.Books.keys.filter (fun id => l.Books.lookup id = some r ∧
        r.Status = "Available" ∧ l.reservations.lookup id = none) ⊆ {r.ID} := by
      intro id hmem
      rw [Finset.mem_filter] at hmem
      rw [Finset.mem_singleton]
      exact (hid id r hmem.2.1).symm
    calc _ ≤ ({r.ID} : Finset Int).card := Finset.card_le_card hsub
      _ = 1 := Finset.card_singleton _
  · exact Multiset.one_le_count_iff_mem.mpr hr

/-- The catalog and the reservation table after `BorrowBook` are those the view of the state
gives, whatever the slices share. -/
theorem BorrowBook_books (g : Nat → Nat) (l : Task4Mem.Library) (x h : Int) :
    (Task4Mem.BorrowBook g l x h).1.Books = (BorrowBook (Task4Mem.viewLibrary l) x h).1.Books ∧
    (Task4Mem.BorrowBook g l x h).1.reservations =
      (BorrowBook (Task4Mem.viewLibrary l) x h).1.reservations := by
  by_cases hok : (Task4Mem.BorrowBook g l x h).2 = none
  · have hok2 : (BorrowBook (Task4Mem.viewLibrary l) x h).2 = none := by
      rw [← BorrowBook_reply]
      exact hok
    obtain ⟨b, m, hb, hm, -, -, hst⟩ := BorrowBook_mem_ok g l x h hok
    obtain ⟨b2, m2, hb2, hm2, -, -, hst2⟩ := BorrowBook_ok _ x h hok2
    have hbb : b2 = b := by
      have : l.Books.lookup x = some b2 := hb2
      rw [hb] at this
      exact (Option.some.inj this).symm
    subst hbb
    rw [hst, hst2]
    exact ⟨rfl, rfl⟩
  · rw [BorrowBook_mem_fail g l x h hok, BorrowBook_fail_state]
    · exact ⟨rfl, rfl⟩
    · rw [← BorrowBook_reply]
      exact hok

/-- The catalog and the reservation table after `ReturnBook` are those the view of the state
gives, whatever the slices share. -/
theorem ReturnBook_books (g : Nat → Nat) (l : Task4Mem.Library) (x h : Int) :
    (Task4Mem.ReturnBook g l x h).1.Books = (ReturnBook (Task4Mem.viewLibrary l) x h).1.Books ∧
    (Task4Mem.ReturnBook g l x h).1.reservations =
      (ReturnBook (Task4Mem.viewLibrary l) x h).1.reservations := by
  by_cases hok : (Task4Mem.ReturnBook g l x h).2 = none
  · have hok2 : (ReturnBook (Task4Mem.viewLibrary l) x h).2 = none := by
      rw [← ReturnBook_reply]
      exact hok
    obtain ⟨b, m, i, hb, hm, hi, hst⟩ := ReturnBook_mem_ok g l x h hok
    obtain ⟨b2, m2, rest2, hb2, hm2, hr2, hst2⟩ := ReturnBook_ok _ x h hok2
    have hbb : b2 = b := by
      have : l.Books.lookup x = some b2 := hb2
      rw [hb] at this
      exact (Option.some.inj this).symm
    subst hbb
    rw [hst, hst2]
    exact ⟨rfl, rfl⟩
  · rw [ReturnBook_mem_fail g l x h hok, ReturnBook_fail_state]
    · exact ⟨rfl, rfl⟩
    · rw [← ReturnBook_reply]
      exact hok

/-- The catalog and the reservation table after any operation are those the view of the
state gives, whatever the slices share. -/
theorem step_books (g : Nat → Nat) (l : Task4Mem.Library) (op : Task4Mem.Op) :
    (Task4Mem.viewLibrary (Task4Mem.step g l op)).Books =
      (step (Task4Mem.viewLibrary l) (Task4Mem.viewOp l.heap op)).Books ∧
    (Task4Mem.viewLibrary (Task4Mem.step g l op)).reservations =
      (step (Task4Mem.viewLibrary l) (Task4Mem.viewOp l.heap op)).reservations := by
  cases op with
  | addBook b => exact ⟨rfl, rfl⟩
  | registerMember m => exact ⟨rfl, rfl⟩
  | removeBook x =>
    have h := (RemoveBook_view l x).1
    exact ⟨congrArg Task4.Library.Books h, congrArg Task4.Library.reservations h⟩
  | borrowBook x h => exact BorrowBook_books g l x h
  | returnBook x h => exact ReturnBook_books g l x h
  | reserve x h =>
    have h := (handleRequest_view l { BookID := x, MemberID := h }).1
    exact ⟨congrArg Task4.Library.Books h, congrArg Task4.Library.reservations h⟩
  | expire x h =>
    have h := (expiry_view l x h).1
    exact ⟨congrArg Task4.Library.Books h, congrArg Task4.Library.reservations h⟩

/-- Every operation keeps the keys of `Books` in step with the ids of the records, whatever
the slices share. -/
theorem keysCarryIDs_mem_step (g : Nat → Nat) (l : Task4Mem.Library) (op : Task4Mem.Op)
    (hk : keysCarryIDs (Task4Mem.viewLibrary l)) :
    keysCarryIDs (Task4Mem.viewLibrary (Task4Mem.step g l op)) := by
  intro k b hb
  rw [(step_books g l op).1] at hb
  exact keysCarryIDs_step _ _ hk k b hb

theorem keysCarryIDs_mem_runFrom (g : Nat → Nat) (ops : List Task4Mem.Op) :
    ∀ l : Task4Mem.Library, keysCarryIDs (Task4Mem.viewLibrary l) →
      keysCarryIDs (Task4Mem.viewLibrary (Task4Mem.runFrom g l ops)) := by
  induction ops with
  | nil => intro l hk; exact hk
  | cons op ops ih =>
    intro l hk
    exact ih _ (keysCarryIDs_mem_step g l op hk)

theorem keysCarryIDs_mem_run (g : Nat → Nat) (hp : Task4Mem.Heap) (ops : List Task4Mem.Op) :
    keysCarryIDs (Task4Mem.viewLibrary (Task4Mem.run g hp ops)) := by
  apply keysCarryIDs_mem_runFrom
  intro k b hb
  simp [Task4Mem.viewLibrary, Task4Mem.NewLibrary] at hb

/-- Without shared backing arrays, an admissible operation keeps `Inv` of the view. -/
theorem Inv_mem_step (g : Nat → Nat) (l : Task4Mem.Library) (op : Task4Mem.Op)
    (hS : Task4Mem.Sep l) (hI : Inv (Task4Mem.viewLibrary l))
    (ha : admissible (Task4Mem.viewLibrary l) (Task4Mem.viewOp l.heap op)) :
    Inv (Task4Mem.viewLibrary (Task4Mem.step g l op)) := by
  rw [step_view g l op hS]
  exact Inv_step _ _ hI ha

/-- A run of admissible operations in which every `RegisterMember` brings a slice of its
own keeps the backing arrays unshared and `Inv` of the view. -/
theorem Inv_mem_runFrom (g : Nat → Nat) (ops : List Task4Mem.Op) :
    ∀ l : Task4Mem.Library, Task4Mem.Sep l → Inv (Task4Mem.viewLibrary l) →
      Task4Mem.alongRun g admissible l ops → Task4Mem.ownArrayFrom g l ops →
      Task4Mem.Sep (Task4Mem.runFrom g l ops) ∧
      Inv (Task4Mem.viewLibrary (Task4Mem.runFrom g l ops)) := by
  induction ops with
  | nil => intro l hS hI _ _; exact ⟨hS, hI⟩
  | cons op ops ih =>
    intro l hS hI ha ho
    exact ih _ (Sep_step g l op hS ho.1) (Inv_mem_step g l op hS hI ha.1) ha.2 ho.2

/-- The view of a fresh library is the fresh library. -/
theorem viewLibrary_NewLibrary (hp : Task4Mem.Heap) :
    Task4Mem.viewLibrary (Task4Mem.NewLibrary hp) = NewLibrary := by
  show Task4.Library.mk _ _ _ = Task4.Library.mk _ _ _
  rw [Task4.Library.mk.injEq]
  refine ⟨rfl, ?_, rfl⟩
  apply Finmap.ext_lookup
  intro k
  show (Task4Mem.mapVal _ _).lookup k = _
  rw [lookup_mapVal]
  rfl

/-- The holders of `x`, once `x` is Borrowed and held by `h` alone, stay as they are under
every operation that is neither a successful `ReturnBook` of `x`, nor an `AddBook` with id
`x`, nor a `RegisterMember` that changes who holds `x`. -/
theorem holders_step (l : Library) (op : Op) (x h : Int) (hkeys : keysCarryIDs l)
    (hB : ∃ b, l.Books.lookup x = some b ∧ b.Status = "Borrowed")
    (hh : heldBy l x h) (hsole : ∀ h1, heldBy l x h1 → h1 = h)
    (hk : keepsHeld x l op) (hr : keepsHolder x h l op) :
    heldBy (step l op) x h ∧ ∀ h1, heldBy (step l op) x h1 → h1 = h := by
  cases op with
  | addBook book => exact ⟨hh, hsole⟩
  | registerMember m =>
    have hr1 : m.ID = h ↔ ∃ e ∈ m.BorrowedBooks, e.ID = x := hr
    constructor
    · by_cases hmh : m.ID = h
      · obtain ⟨e, he, hid⟩ := hr1.mp hmh
        refine ⟨m, ?_, e, he, hid⟩
        simp only [step, RegisterMember]
        rw [← hmh]
        exact Finmap.lookup_insert _
      · obtain ⟨mh, hm, e, he, hid⟩ := hh
        refine ⟨mh, ?_, e, he, hid⟩
        simp only [step, RegisterMember]
        rw [Finmap.lookup_insert_of_ne _ (fun e => hmh e.symm)]
        exact hm
    · rintro k ⟨mk, hmk, e, he, hid⟩
      simp only [step, RegisterMember] at hmk
      by_cases hkm : k = m.ID
      · rw [hkm, Finmap.lookup_insert] at hmk
        cases hmk
        rw [hkm]
        exact hr1.mpr ⟨e, he, hid⟩
      · rw [Finmap.lookup_insert_of_ne _ hkm] at hmk
        exact hsole k ⟨mk, hmk, e, he, hid⟩
  | removeBook id =>
    have hM := heldBy_of_Members_eq l (step l (.removeBook id)) (RemoveBook_Members l id) x
    exact ⟨(hM h).mpr hh, fun h1 h1h => hsole h1 ((hM h1).mp h1h)⟩
  | borrowBook y h1 =>
    refine ⟨heldBy_step l _ x h hh trivial hk, ?_⟩
    by_cases hok : (BorrowBook l y h1).2 = none
    · obtain ⟨b, m, hb, hm, hst, _, heq⟩ := BorrowBook_ok l y h1 hok
      have hyx : x ≠ b.ID := by
        intro hx
        obtain ⟨b0, hb0, hst0⟩ := hB
        rw [hx, hkeys y b hb, hb] at hb0
        cases hb0
        exact hst hst0
      intro k hk1
      simp only [step, heq] at hk1
      rcases (heldBy_BorrowBook l y h1 b m hm x k).mp hk1 with h2 | h2
      · exact hsole k h2
      · exact absurd h2.2 hyx
    · simp only [step, BorrowBook_fail_state l y h1 hok]
      exact hsole
  | returnBook y h1 =>
    refine ⟨heldBy_step l _ x h hh trivial hk, ?_⟩
    by_cases hok : (ReturnBook l y h1).2 = none
    · obtain ⟨b, m, rest, _, hm, hrem, heq⟩ := ReturnBook_ok l y h1 hok
      obtain ⟨pre, e0, post, hsplit, _, _, hrest⟩ := removeBorrowed_eq_some y _ rest hrem
      rintro k ⟨mk, hmk, e, he, hid⟩
      simp only [step, heq] at hmk
      by_cases hne : k = h1
      · rw [hne, Finmap.lookup_insert] at hmk
        cases hmk
        apply hsole
        rw [hne]
        refine ⟨m, hm, e, ?_, hid⟩
        have he1 : e ∈ rest := he
        rw [hrest] at he1
        rw [hsplit]
        rcases List.mem_append.mp he1 with hp | hp
        · exact List.mem_append_left _ hp
        · exact List.mem_append_right _ (List.mem_cons_of_mem _ hp)
      · rw [Finmap.lookup_insert_of_ne _ hne] at hmk
        exact hsole k ⟨mk, hmk, e, he, hid⟩
    · simp only [step, ReturnBook_fail_state l y h1 hok]
      exact hsole
  | reserve y h1 =>
    have hM := heldBy_of_Members_eq l (step l (.reserve y h1)) (handleRequest_Members l _) x
    exact ⟨(hM h).mpr hh, fun k hk1 => hsole k ((hM k).mp hk1)⟩
  | expire y h1 =>
    have hM := heldBy_of_Members_eq l (step l (.expire y h1)) (expiry_frame l y h1).2.1 x
    exact ⟨(hM h).mpr hh, fun k hk1 => hsole k ((hM k).mp hk1)⟩

/-- A Borrowed book stays Borrowed along a run in memory without successful `ReturnBook` of
it and without `AddBook` with its id, whatever the slices share. -/
theorem borrowed_mem_along (g : Nat → Nat) (x : Int) (post : List Task4Mem.Op) :
    ∀ l : Task4Mem.Library, (∃ b, l.Books.lookup x = some b ∧ b.Status = "Borrowed") →
      Task4Mem.alongRun g (keepsHeld x) l post →
      ∀ n : Nat, ∃ b, (Task4Mem.runFrom g l (post.take n)).Books.lookup x = some b ∧
        b.Status = "Borrowed" := by
  induction post with
  | nil =>
    intro l hB _ n
    simp only [List.take_nil]
    exact hB
  | cons op ops ih =>
    intro l hB hk n
    cases n with
    | zero => exact hB
    | succ n =>
      obtain ⟨hk1, hk2⟩ := hk
      have hB1 := borrowed_step (Task4Mem.viewLibrary l) (Task4Mem.viewOp l.heap op) x hB hk1
      rw [← (step_books g l op).1] at hB1
      exact ih (Task4Mem.step g l op) hB1 hk2 n

/-- Along a run in memory that shares no backing array, has no successful `ReturnBook` of
`x`, no `AddBook` with id `x` and no `RegisterMember` that changes who holds `x`, a Borrowed
book `x` held by `h` alone stays held by `h` alone. -/
theorem holders_mem_along (g : Nat → Nat) (x h : Int) (post : List Task4Mem.Op) :
    ∀ l : Task4Mem.Library, Task4Mem.Sep l → keysCarryIDs (Task4Mem.viewLibrary l) →
      (∃ b, l.Books.lookup x = some b ∧ b.Status = "Borrowed") →
      heldBy (Task4Mem.viewLibrary l) x h →
      (∀ h1, heldBy (Task4Mem.viewLibrary l) x h1 → h1 = h) →
      Task4Mem.alongRun g (keepsHeld x) l post →
      Task4Mem.alongRun g (keepsHolder x h) l post →
      Task4Mem.ownArrayFrom g l post →
      ∀ n : Nat, heldBy (Task4Mem.viewLibrary (Task4Mem.runFrom g l (post.take n))) x h ∧
        ∀ h1, heldBy (Task4Mem.viewLibrary (Task4Mem.runFrom g l (post.take n))) x h1 →
          h1 = h := by
  induction post with
  | nil =>
    intro l _ _ _ hh hsole _ _ _ n
    simp only [List.take_nil]
    exact ⟨hh, hsole⟩
  | cons op ops ih =>
    intro l hS hkeys hB hh hsole hk hr ho n
    cases n with
    | zero => exact ⟨hh, hsole⟩
    | succ n =>
      obtain ⟨hk1, hk2⟩ := hk
      obtain ⟨hr1, hr2⟩ := hr
      obtain ⟨ho1, ho2⟩ := ho
      have hstep := holders_step (Task4Mem.viewLibrary l) (Task4Mem.viewOp l.heap op) x h
        hkeys hB hh hsole hk1 hr1
      have hB1 := borrowed_step (Task4Mem.viewLibrary l) (Task4Mem.viewOp l.heap op) x hB hk1
      rw [← step_view g l op hS] at hstep
      rw [← (step_books g l op).1] at hB1
      exact ih (Task4Mem.step g l op) (Sep_step g l op hS ho1)
        (keysCarryIDs_mem_step g l op hkeys) hB1 hstep.1 hstep.2 hk2 hr2 ho2 n

theorem indexOfID_append_self (x : Int) (v : List Book) (b : Book)
    (hfree : ∀ e ∈ v, e.ID ≠ x) (hid : b.ID = x) :
    Task4Mem.indexOfID x (v ++ [b]) = some v.length := by
  induction v with
  | nil => simp [Task4Mem.indexOfID, hid]
  | cons a v ih =>
    have ha : a.ID ≠ x := hfree a (List.mem_cons_self _ _)
    have ih1 := ih (fun e he => hfree e (List.mem_cons_of_mem _ he))
    simp [Task4Mem.indexOfID, ha, ih1]

theorem goAppend_len (g : Nat → Nat) (hp : Task4Mem.Heap) (f : Task4Mem.ArrId)
    (s : Task4Mem.Slice) (vals : List Book) :
    (Task4Mem.goAppend g hp f s vals).2.len = s.len + vals.length := by
  unfold Task4Mem.goAppend
  split <;> rfl

theorem goAppend_cap (g : Nat → Nat) (hp : Task4Mem.Heap) (f : Task4Mem.ArrId)
    (s : Task4Mem.Slice) (vals : List Book) :
    s.len + vals.length ≤ (Task4Mem.goAppend g hp f s vals).2.cap := by
  unfold Task4Mem.goAppend
  split
  · assumption
  · exact le_max_right _ _

theorem goAppend_nil (g : Nat → Nat) (hp : Task4Mem.Heap) (f : Task4Mem.ArrId)
    (s : Task4Mem.Slice) (h : s.len ≤ s.cap) :
    Task4Mem.goAppend g hp f s [] = (hp, s) := by
  unfold Task4Mem.goAppend
  rw [if_pos (by simpa using h), writeAt_nil]
  rfl

/-- After `append(s, b)` the cell behind the elements of `s` holds `b`. -/
theorem goAppend_cell (g : Nat → Nat) (hp : Task4Mem.Heap) (f : Task4Mem.ArrId)
    (s : Task4Mem.Slice) (b : Book) :
    (Task4Mem.goAppend g hp f s [b]).1 (Task4Mem.goAppend g hp f s [b]).2.arr
      ((Task4Mem.goAppend g hp f s [b]).2.off + s.len) = b := by
  unfold Task4Mem.goAppend
  split
  · simp [Task4Mem.writeAt]
  · simp [view_length]

/-- Appending to a slice with room a record that the cell behind its elements already
holds changes no array. -/
theorem goAppend_same (g : Nat → Nat) (hp : Task4Mem.Heap) (f : Task4Mem.ArrId)
    (s : Task4Mem.Slice) (b : Book) (hroom : s.len + 1 ≤ s.cap)
    (hcell : hp s.arr (s.off + s.len) = b) :
    Task4Mem.goAppend g hp f s [b] = (hp, { s with len := s.len + 1 }) := by
  unfold Task4Mem.goAppend
  rw [if_pos (by simpa using hroom)]
  have hw : Task4Mem.writeAt hp s.arr (s.off + s.len) [b] = hp := by
    funext a i
    simp only [Task4Mem.writeAt, List.length_singleton]
    split
    · rename_i hc
      obtain ⟨ha, h1, h2⟩ := hc
      have hi : i = s.off + s.len := by omega
      rw [ha, hi, hcell]
      simp
    · rfl
  rw [hw]
  rfl

/-- A book that a registered member holds can be returned by that member. -/
theorem ReturnBook_succeeds_of_held (l : Library) (x h : Int) (b : Book) (m : Member)
    (hb : l.Books.lookup x = some b) (hm : l.Members.lookup h = some m)
    (hheld : ∃ e ∈ m.BorrowedBooks, e.ID = x) : (ReturnBook l x h).2 = none := by
  cases hr : removeBorrowed x m.BorrowedBooks with
  | none =>
    obtain ⟨e, he, hid⟩ := hheld
    exact absurd hid ((removeBorrowed_eq_none x _).mp hr e he)
  | some rest => simp [ReturnBook, hb, hm, hr]

/-- After a successful `BorrowBook` the borrower's new slice is apart from every slice the
old one was apart from. -/
theorem BorrowBook_apart (g : Nat → Nat) (l : Task4Mem.Library) (x h k : Int)
    (m mk : Task4Mem.Member) (hok : (Task4Mem.BorrowBook g l x h).2 = none)
    (hm : l.Members.lookup h = some m) (hlk : l.Members.lookup k = some mk)
    (hap : Task4Mem.apart m.BorrowedBooks mk.BorrowedBooks) :
    ∃ m1, (Task4Mem.BorrowBook g l x h).1.Members.lookup h = some m1 ∧
      Task4Mem.apart m1.BorrowedBooks mk.BorrowedBooks := by
  obtain ⟨b, m0, hb, hm0, -, -, hst⟩ := BorrowBook_mem_ok g l x h hok
  rw [hm] at hm0
  cases hm0
  refine ⟨_, by rw [hst]; exact Finmap.lookup_insert _, ?_⟩
  have hf := freshArr_ne l k mk hlk
  show Task4Mem.apart (Task4Mem.goAppend g l.heap (Task4Mem.freshArr l) m.BorrowedBooks
    [{ b with Status := "Borrowed" }]).2 mk.BorrowedBooks
  rcases goAppend_arr g l.heap (Task4Mem.freshArr l) m.BorrowedBooks
    [{ b with Status := "Borrowed" }] with ⟨hin, he⟩ | ⟨-, he⟩
  · rcases hap with h1 | h1 | h1
    · left
      rw [he]
      exact h1
    · simp [h1.1, h1.2] at hin
    · exact Or.inr (Or.inr h1)
  · left
    rw [he]
    exact fun e => hf e.symm

/-- In a state whose keys carry the ids, a successful `BorrowBook x h` is followed by a
successful `ReturnBook x h`, whatever the slices share; the catalog then has `x` Available,
the reservation table no entry for `x`, and every other member its record. -/
theorem round_trip_mem_general (g : Nat → Nat) (l : Task4Mem.Library) (x h : Int)
    (hkeys : keysCarryIDs (Task4Mem.viewLibrary l))
    (hok : (Task4Mem.BorrowBook g l x h).2 = none) :
    ∃ b m, l.Books.lookup x = some b ∧ l.Members.lookup h = some m ∧
      (Task4Mem.ReturnBook g (Task4Mem.BorrowBook g l x h).1 x h).2 = none ∧
      (Task4Mem.borrowReturn g l x h).Books =
        l.Books.insert x { b with Status := "Available" } ∧
      (Task4Mem.borrowReturn g l x h).reservations = l.reservations.erase x ∧
      (∀ k, k ≠ h → (Task4Mem.borrowReturn g l x h).Members.lookup k = l.Members.lookup k) ∧
      ∃ m2, (Task4Mem.borrowReturn g l x h).Members.lookup h = some m2 := by
  obtain ⟨b, m, hb, hm, _, _, heq⟩ := BorrowBook_mem_ok g l x h hok
  obtain ⟨b0, m0, hb0, hm0, hself⟩ := BorrowBook_mem_self g l x h hok
  rw [hb] at hb0
  rw [hm] at hm0
  cases hb0
  cases hm0
  have hid : b.ID = x := hkeys x b hb
  have hb1 : (Task4Mem.BorrowBook g l x h).1.Books.lookup x =
      some { b with Status := "Borrowed" } := by
    rw [heq]
    exact Finmap.lookup_insert _
  have hret : (Task4Mem.ReturnBook g (Task4Mem.BorrowBook g l x h).1 x h).2 = none := by
    rw [ReturnBook_reply]
    exact ReturnBook_succeeds_of_held _ x h _ _ hb1 hself
      ⟨{ b with Status := "Borrowed" }, by simp, hid⟩
  obtain ⟨b2, m2, i, hb2, hm2, _, heq2⟩ := ReturnBook_mem_ok g _ x h hret
  rw [hb1] at hb2
  cases hb2
  refine ⟨b, m, hb, hm, hret, ?_, ?_, ?_, ?_⟩
  · show (Task4Mem.ReturnBook g (Task4Mem.BorrowBook g l x h).1 x h).1.Books = _
    rw [heq2]
    show ((Task4Mem.BorrowBook g l x h).1.Books.insert x _) = _
    rw [heq]
    exact Finmap.insert_insert _
  · show (Task4Mem.ReturnBook g (Task4Mem.BorrowBook g l x h).1 x h).1.reservations = _
    rw [heq2]
    show (Task4Mem.BorrowBook g l x h).1.reservations = _
    rw [heq]
  · intro k hk
    show (Task4Mem.ReturnBook g (Task4Mem.BorrowBook g l x h).1 x h).1.Members.lookup k = _
    rw [heq2]
    show ((Task4Mem.BorrowBook g l x h).1.Members.insert h _).lookup k = _
    rw [Finmap.lookup_insert_of_ne _ hk, heq]
    exact Finmap.lookup_insert_of_ne _ hk
  · show ∃ m3,
      (Task4Mem.ReturnBook g (Task4Mem.BorrowBook g l x h).1 x h).1.Members.lookup h = some m3
    rw [heq2]
    exact ⟨_, Finmap.lookup_insert _⟩

/-- After a round trip the keys still carry the ids and the borrow succeeds again. -/
theorem round_trip_mem_again (g : Nat → Nat) (l : Task4Mem.Library) (x h : Int)
    (hkeys : keysCarryIDs (Task4Mem.viewLibrary l))
    (hok : (Task4Mem.BorrowBook g l x h).2 = none) :
    keysCarryIDs (Task4Mem.viewLibrary (Task4Mem.borrowReturn g l x h)) ∧
    (Task4Mem.BorrowBook g (Task4Mem.borrowReturn g l x h) x h).2 = none := by
  obtain ⟨b, m, hb, hm, _, hB, hR, _, m2, hm2⟩ := round_trip_mem_general g l x h hkeys hok
  constructor
  · exact keysCarryIDs_mem_step g _ (.returnBook x h)
      (keysCarryIDs_mem_step g l (.borrowBook x h) hkeys)
  · rw [BorrowBook_reply]
    apply BorrowBook_succeeds _ x h { b with Status := "Available" }
      (Task4Mem.viewMember (Task4Mem.borrowReturn g l x h).heap m2)
    · show (Task4Mem.borrowReturn g l x h).Books.lookup x = _
      rw [hB]
      exact Finmap.lookup_insert _
    · rw [lookup_viewLibrary, hm2]
      rfl
    · show "Available" ≠ "Borrowed"
      decide
    · intro r hr
      have hr1 : (Task4Mem.borrowReturn g l x h).reservations.lookup x = some r := hr
      rw [hR, Finmap.lookup_erase] at hr1
      cases hr1

theorem round_trip_mem_iterate (g : Nat → Nat) (l : Task4Mem.Library) (x h : Int)
    (hkeys : keysCarryIDs (Task4Mem.viewLibrary l))
    (hok : (Task4Mem.BorrowBook g l x h).2 = none) (n : Nat) :
    keysCarryIDs (Task4Mem.viewLibrary ((fun s => Task4Mem.borrowReturn g s x h)^[n] l)) ∧
    (Task4Mem.BorrowBook g ((fun s => Task4Mem.borrowReturn g s x h)^[n] l) x h).2 = none := by
  induction n with
  | zero => exact ⟨hkeys, hok⟩
  | succ n ih =>
    rw [Function.iterate_succ_apply']
    exact round_trip_mem_again g _ x h ih.1 ih.2

/-- Removing the last element of a slice by `append(s[:n], s[n+1:]...)` shortens the header
and writes nothing. -/
theorem goAppend_cut (g : Nat → Nat) (hp : Task4Mem.Heap) (f : Task4Mem.ArrId)
    (s : Task4Mem.Slice) (n : Nat) (hlen : s.len = n + 1) (hcap : n + 1 ≤ s.cap) :
    Task4Mem.goAppend g hp f { s with len := n }
      (Task4Mem.view hp
        { s with off := s.off + (n + 1), len := s.len - (n + 1), cap := s.cap - (n + 1) }) =
      (hp, { s with len := n }) := by
  have hv : Task4Mem.view hp
      { s with off := s.off + (n + 1), len := s.len - (n + 1), cap := s.cap - (n + 1) } =
      [] := view_of_len_zero _ _ (by simp [hlen])
  rw [hv]
  exact goAppend_nil g hp f _ (by show n ≤ s.cap; omega)

/-- The state after `BorrowBook x h` and `ReturnBook x h` when `h` held no entry with id `x`:
the member's slice has its old length again, and the cell behind its elements holds the
Borrowed record. -/
theorem round_trip_mem_of_free (g : Nat → Nat) (l : Task4Mem.Library) (x h : Int) (b : Book)
    (m : Task4Mem.Member) (hb : l.Books.lookup x = some b)
    (hm : l.Members.lookup h = some m) (hst : b.Status ≠ "Borrowed") (hid : b.ID = x)
    (hfree : ∀ e ∈ Task4Mem.view l.heap m.BorrowedBooks, e.ID ≠ x)
    (hres : ∀ r, l.reservations.lookup x = some r → r.MemberID = h) :
    Task4Mem.borrowReturn g l x h =
      { Books := l.Books.insert x { b with Status := "Available" }
        Members := l.Members.insert h
          { m with BorrowedBooks :=
              { (Task4Mem.goAppend g l.heap (Task4Mem.freshArr l) m.BorrowedBooks
                  [{ b with Status := "Borrowed" }]).2 with len := m.BorrowedBooks.len } }
        reservations := l.reservations.erase x
        heap := (Task4Mem.goAppend g l.heap (Task4Mem.freshArr l) m.BorrowedBooks
          [{ b with Status := "Borrowed" }]).1 } := by
  have hok : (Task4Mem.BorrowBook g l x h).2 = none := by
    rw [BorrowBook_reply]
    exact BorrowBook_succeeds _ x h b (Task4Mem.viewMember l.heap m) hb
      (by rw [lookup_viewLibrary, hm]; rfl) hst hres
  obtain ⟨b0, m0, hb0, hm0, _, _, heq⟩ := BorrowBook_mem_ok g l x h hok
  rw [hb] at hb0
  rw [hm] at hm0
  cases hb0
  cases hm0
  obtain ⟨b1, m1, hb1, hm1, hself⟩ := BorrowBook_mem_self g l x h hok
  rw [hb] at hb1
  rw [hm] at hm1
  cases hb1
  cases hm1
  have hbk : (Task4Mem.BorrowBook g l x h).1.Books.lookup x =
      some { b with Status := "Borrowed" } := by
    rw [heq]
    exact Finmap.lookup_insert _
  have hret : (Task4Mem.ReturnBook g (Task4Mem.BorrowBook g l x h).1 x h).2 = none := by
    rw [ReturnBook_reply]
    exact ReturnBook_succeeds_of_held _ x h _ _ hbk hself
      ⟨{ b with Status := "Borrowed" }, by simp, hid⟩
  obtain ⟨b2, m2, i, hb2, hm2, hi, heq2⟩ := ReturnBook_mem_ok g _ x h hret
  rw [hbk] at hb2
  cases hb2
  have hm2e : m2 = { m with BorrowedBooks :=
      (Task4Mem.goAppend g l.heap (Task4Mem.freshArr l) m.BorrowedBooks
        [{ b with Status := "Borrowed" }]).2 } := by
    rw [heq] at hm2
    simp only [Finmap.lookup_insert] at hm2
    exact (Option.some.inj hm2).symm
  have hheap : (Task4Mem.BorrowBook g l x h).1.heap =
      (Task4Mem.goAppend g l.heap (Task4Mem.freshArr l) m.BorrowedBooks
        [{ b with Status := "Borrowed" }]).1 := by
    rw [heq]
  subst hm2e
  have hie : i = m.BorrowedBooks.len := by
    rw [hheap] at hi
    simp only [view_goAppend] at hi
    rw [indexOfID_append_self x _ { b with Status := "Borrowed" } hfree hid,
      view_length] at hi
    exact (Option.some.inj hi).symm
  subst hie
  have hcut := goAppend_cut g (Task4Mem.BorrowBook g l x h).1.heap
    (Task4Mem.freshArr (Task4Mem.BorrowBook g l x h).1)
    (Task4Mem.goAppend g l.heap (Task4Mem.freshArr l) m.BorrowedBooks
      [{ b with Status := "Borrowed" }]).2 m.BorrowedBooks.len
    (goAppend_len _ _ _ _ _)
    (goAppend_cap g l.heap (Task4Mem.freshArr l) m.BorrowedBooks
      [{ b with Status := "Borrowed" }])
  show (Task4Mem.ReturnBook g (Task4Mem.BorrowBook g l x h).1 x h).1 = _
  rw [heq2]
  simp only [hcut]
  rw [Task4Mem.Library.mk.injEq]
  refine ⟨?_, ?_, ?_, hheap⟩
  · rw [heq]
    exact Finmap.insert_insert _
  · rw [heq]
    exact Finmap.insert_insert _
  · rw [heq]

/-- When `h` held no entry with id `x`, a second round trip changes nothing: the second
borrow writes the record the cell already holds. -/
theorem round_trip_mem_fix (g : Nat → Nat) (l : Task4Mem.Library) (x h : Int) (b : Book)
    (m : Task4Mem.Member) (hb : l.Books.lookup x = some b)
    (hm : l.Members.lookup h = some m) (hst : b.Status ≠ "Borrowed") (hid : b.ID = x)
    (hfree : ∀ e ∈ Task4Mem.view l.heap m.BorrowedBooks, e.ID ≠ x)
    (hres : ∀ r, l.reservations.lookup x = some r → r.MemberID = h) :
    Task4Mem.borrowReturn g (Task4Mem.borrowReturn g l x h) x h =
      Task4Mem.borrowReturn g l x h := by
  rw [round_trip_mem_of_free g l x h b m hb hm hst hid hfree hres]
  have hlen := goAppend_len g l.heap (Task4Mem.freshArr l) m.BorrowedBooks
    [{ b with Status := "Borrowed" }]
  have hcap := goAppend_cap g l.heap (Task4Mem.freshArr l) m.BorrowedBooks
    [{ b with Status := "Borrowed" }]
  have hcell := goAppend_cell g l.heap (Task4Mem.freshArr l) m.BorrowedBooks
    { b with Status := "Borrowed" }
  have hview := view_goAppend g l.heap (Task4Mem.freshArr l) m.BorrowedBooks
    [{ b with Status := "Borrowed" }]
  simp only [List.length_singleton] at hlen hcap
  generalize Task4Mem.goAppend g l.heap (Task4Mem.freshArr l) m.BorrowedBooks
    [{ b with Status := "Borrowed" }] = r at hlen hcap hcell hview ⊢
  have hfree2 : ∀ e ∈ Task4Mem.view r.1 { r.2 with len := m.BorrowedBooks.len },
      e.ID ≠ x := by
    rw [view_take _ _ _ (by omega), hview]
    have hl : m.BorrowedBooks.len = (Task4Mem.view l.heap m.BorrowedBooks).length :=
      (view_length _ _).symm
    rw [hl, List.take_left']
    · exact hfree
    · rfl
  rw [round_trip_mem_of_free g _ x h { b with Status := "Available" }
    { m with BorrowedBooks := { r.2 with len := m.BorrowedBooks.len } }
    (Finmap.lookup_insert _) (Finmap.lookup_insert _)
    (show "Available" ≠ "Borrowed" by decide) hid hfree2
    (by
      intro r0 hr0
      simp only [Finmap.lookup_erase] at hr0
      cases hr0)]
  have hsame := goAppend_same g r.1
    (Task4Mem.freshArr
      { Books := l.Books.insert x { b with Status := "Available" }
        Members := l.Members.insert h
          { m with BorrowedBooks := { r.2 with len := m.BorrowedBooks.len } }
        reservations := l.reservations.erase x
        heap := r.1 })
    { r.2 with len := m.BorrowedBooks.len } { b with Status := "Borrowed" }
    (by show m.BorrowedBooks.len + 1 ≤ r.2.cap; exact hcap) hcell
  simp only at hsame ⊢
  rw [hsame]
  rw [Task4Mem.Library.mk.injEq]
  refine ⟨Finmap.insert_insert _, Finmap.insert_insert _, ?_, rfl⟩
  exact erase_of_lookup_none _ _ (Finmap.lookup_erase _ _)

/-! ## Claims -/

/-- C1: `BorrowBook` fails exactly in four cases, decided in this order: "book not found"
when the book is absent; else "member not found" when the member is absent; else "book is
reserved by another member" when a reservation on the book names another member; else
"book already borrowed" when the status is Borrowed. In every other case it succeeds, and
it succeeds only if the book carries no reservation or one naming the borrower (I4). -/
theorem BorrowBook_error_cases (l : Library) (bookID memberID : Int) :
    (l.Books.lookup bookID = none →
      (BorrowBook l bookID memberID).2 = some "book not found") ∧
    (bookID ∈ l.Books → l.Members.lookup memberID = none →
      (BorrowBook l bookID memberID).2 = some "member not found") ∧
    (bookID ∈ l.Books → memberID ∈ l.Members →
      (∃ r, l.reservations.lookup bookID = some r ∧ r.MemberID ≠ memberID) →
      (BorrowBook l bookID memberID).2 = some "book is reserved by another member") ∧
    (∀ b, l.Books.lookup bookID = some b → memberID ∈ l.Members →
      (¬ ∃ r, l.reservations.lookup bookID = some r ∧ r.MemberID ≠ memberID) →
      b.Status = "Borrowed" →
      (BorrowBook l bookID memberID).2 = some "book already borrowed") ∧
    (∀ b, l.Books.lookup bookID = some b → memberID ∈ l.Members →
      (¬ ∃ r, l.reservations.lookup bookID = some r ∧ r.MemberID ≠ memberID) →
      b.Status ≠ "Borrowed" →
      (BorrowBook l bookID memberID).2 = none) ∧
    ((BorrowBook l bookID memberID).2 = none →
      l.reservations.lookup bookID = none ∨
      l.reservations.lookup bookID = some { MemberID := memberID }) := by
  refine ⟨?_, ?_, ?_, ?_, ?_, ?_⟩
  · intro hb
    simp [BorrowBook, hb]
  · intro hb hm
    obtain ⟨b, hb⟩ := Finmap.mem_iff.mp hb
    simp [BorrowBook, hb, hm]
  · intro hb hm ⟨r, hr, hne⟩
    obtain ⟨b, hb⟩ := Finmap.mem_iff.mp hb
    obtain ⟨m, hm⟩ := Finmap.mem_iff.mp hm
    simp [BorrowBook, hb, hm, hr, hne]
  · intro b hb hm hres hst
    obtain ⟨m, hm⟩ := Finmap.mem_iff.mp hm
    cases hr : l.reservations.lookup bookID with
    | none => simp [BorrowBook, hb, hm, hr, hst]
    | some r =>
      have : r.MemberID = memberID := by
        by_contra hne
        exact hres ⟨r, hr, hne⟩
      simp [BorrowBook, hb, hm, hr, hst, this]
  · intro b hb hm hres hst
    obtain ⟨m, hm⟩ := Finmap.mem_iff.mp hm
    cases hr : l.reservations.lookup bookID with
    | none => simp [BorrowBook, hb, hm, hr, hst]
    | some r =>
      have : r.MemberID = memberID := by
        by_contra hne
        exact hres ⟨r, hr, hne⟩
      simp [BorrowBook, hb, hm, hr, hst, this]
  · intro hok
    cases hr : l.reservations.lookup bookID with
    | none => exact Or.inl rfl
    | some r =>
      right
      cases hb : l.Books.lookup bookID with
      | none => simp [BorrowBook, hb] at hok
      | some b =>
        cases hm : l.Members.lookup memberID with
        | none => simp [BorrowBook, hb, hm] at hok
        | some m =>
          by_cases hne : r.MemberID = memberID
          · cases r
            simp at hne
            simp [hne]
          · simp [BorrowBook, hb, hm, hr, hne] at hok

/-- C2, as stated, fails: members 1 and 2 were registered with one and the same slice
`make([]models.Book, 0, 4)`, and member 1 has borrowed book 1. `BorrowBook 2 2` then
succeeds and writes book 2 into cell 0 of the shared array, so the `BorrowedBooks` of member
1, who is not the borrower, change from book 1 to book 2. -/
theorem BorrowBook_overwrites_shared_slice :
    (Task4Mem.BorrowBook Task4Mem.doubling Task4Mem.sharedBorrowed 2 2).2 = none ∧
    (Task4Mem.viewLibrary Task4Mem.sharedBorrowed).Members.lookup 1 =
      some { ID := 1, Name := "Alice",
             BorrowedBooks := [{ ID := 1, Title := "The Go Programming Language",
                                 Author := "Donovan & Kernighan", Status := "Borrowed" }] } ∧
    (Task4Mem.viewLibrary
      (Task4Mem.BorrowBook Task4Mem.doubling Task4Mem.sharedBorrowed 2 2).1).Members.lookup 1 =
      some { ID := 1, Name := "Alice",
             BorrowedBooks := [{ ID := 2, Title := "Concurrency in Go",
                                 Author := "Katherine Cox-Buday", Status := "Borrowed" }] } := by
  decide

/-- C2 (amended): whenever `BorrowBook x h` succeeds, the new state is the old one changed in
exactly these ways: `Books[x]` is the old record with status Borrowed; member `h` keeps its
id and name and its `BorrowedBooks` is the previous sequence with that Borrowed record
appended; the reservation table has no entry for `x` (and had none naming anyone but `h`).
Every other book and every reservation on another item is unchanged; every other member
keeps its record with its slice header, and the elements of its `BorrowedBooks` are
unchanged provided its slice shares no backing array with the slice of `h`. -/
theorem BorrowBook_success_effect (g : Nat → Nat) (l : Task4Mem.Library) (x h : Int)
    (hok : (Task4Mem.BorrowBook g l x h).2 = none) :
    ∃ b m, l.Books.lookup x = some b ∧ l.Members.lookup h = some m ∧
      (Task4Mem.BorrowBook g l x h).1.Books.lookup x =
        some { ID := b.ID, Title := b.Title, Author := b.Author, Status := "Borrowed" } ∧
      (Task4Mem.viewLibrary (Task4Mem.BorrowBook g l x h).1).Members.lookup h =
        some { ID := m.ID, Name := m.Name,
               BorrowedBooks := Task4Mem.view l.heap m.BorrowedBooks ++
                 [{ ID := b.ID, Title := b.Title, Author := b.Author, Status := "Borrowed" }] } ∧
      (Task4Mem.BorrowBook g l x h).1.reservations.lookup x = none ∧
      (∀ r, l.reservations.lookup x = some r → r.MemberID = h) ∧
      (∀ k, k ≠ x → (Task4Mem.BorrowBook g l x h).1.Books.lookup k = l.Books.lookup k) ∧
      (∀ k, k ≠ x →
        (Task4Mem.BorrowBook g l x h).1.reservations.lookup k = l.reservations.lookup k) ∧
      (∀ k, k ≠ h → (Task4Mem.BorrowBook g l x h).1.Members.lookup k = l.Members.lookup k) ∧
      (∀ k mk, k ≠ h → l.Members.lookup k = some mk →
        Task4Mem.apart m.BorrowedBooks mk.BorrowedBooks →
        (Task4Mem.viewLibrary (Task4Mem.BorrowBook g l x h).1).Members.lookup k =
          (Task4Mem.viewLibrary l).Members.lookup k) := by
  obtain ⟨b, m, hb, hm, _, hres, heq⟩ := BorrowBook_mem_ok g l x h hok
  obtain ⟨b1, m1, hb1, hm1, hself⟩ := BorrowBook_mem_self g l x h hok
  rw [hb] at hb1
  rw [hm] at hm1
  cases hb1
  cases hm1
  have hM : ∀ k, k ≠ h →
      (Task4Mem.BorrowBook g l x h).1.Members.lookup k = l.Members.lookup k := by
    intro k hk
    rw [heq]
    exact Finmap.lookup_insert_of_ne _ hk
  refine ⟨b, m, hb, hm, ?_, hself, ?_, hres, ?_, ?_, hM, ?_⟩
  · rw [heq]; simp
  · rw [heq]; simp
  · intro k hk
    rw [heq]
    exact Finmap.lookup_insert_of_ne _ hk
  · intro k hk
    rw [heq]
    exact Finmap.lookup_erase_ne hk
  · intro k mk hk hlk hap
    rw [lookup_viewLibrary, lookup_viewLibrary, hM k hk, hlk]
    simp only [Option.map_some', Task4Mem.viewMember,
      BorrowBook_mem_other g l x h k m mk hok hm hlk hap]

/-- C2 (amended), on the seeded library: member 1 borrows book 1; member 2, registered
like every member of the seed with a nil slice, is as before. -/
theorem BorrowBook_success_effect_witness :
    (Task4Mem.BorrowBook Task4Mem.doubling Task4Mem.seedLibrary 1 1).2 = none ∧
    (Task4Mem.viewLibrary
      (Task4Mem.BorrowBook Task4Mem.doubling Task4Mem.seedLibrary 1 1).1).Members.lookup 1 =
      some { ID := 1, Name := "Alice",
             BorrowedBooks := [{ ID := 1, Title := "The Go Programming Language",
                                 Author := "Donovan & Kernighan", Status := "Borrowed" }] } ∧
    ∃ b m, Task4Mem.seedLibrary.Books.lookup 1 = some b ∧
      Task4Mem.seedLibrary.Members.lookup 1 = some m ∧
      (Task4Mem.BorrowBook Task4Mem.doubling Task4Mem.seedLibrary 1 1).1.Books.lookup 1 =
        some { ID := b.ID, Title := b.Title, Author := b.Author, Status := "Borrowed" } ∧
      (Task4Mem.viewLibrary
        (Task4Mem.BorrowBook Task4Mem.doubling Task4Mem.seedLibrary 1 1).1).Members.lookup 1 =
        some { ID := m.ID, Name := m.Name,
               BorrowedBooks := Task4Mem.view Task4Mem.seedLibrary.heap m.BorrowedBooks ++
                 [{ ID := b.ID, Title := b.Title, Author := b.Author, Status := "Borrowed" }] } ∧
      (Task4Mem.BorrowBook Task4Mem.doubling Task4Mem.seedLibrary 1 1).1.reservations.lookup 1 =
        none ∧
      (∀ r, Task4Mem.seedLibrary.reservations.lookup 1 = some r → r.MemberID = 1) ∧
      (∀ k, k ≠ 1 →
        (Task4Mem.BorrowBook Task4Mem.doubling Task4Mem.seedLibrary 1 1).1.Books.lookup k =
          Task4Mem.seedLibrary.Books.lookup k) ∧
      (∀ k, k ≠ 1 →
        (Task4Mem.BorrowBook Task4Mem.doubling Task4Mem.seedLibrary 1 1).1.reservations.lookup
          k = Task4Mem.seedLibrary.reservations.lookup k) ∧
      (∀ k, k ≠ 1 →
        (Task4Mem.BorrowBook Task4Mem.doubling Task4Mem.seedLibrary 1 1).1.Members.lookup k =
          Task4Mem.seedLibrary.Members.lookup k) ∧
      (∀ k mk, k ≠ 1 → Task4Mem.seedLibrary.Members.lookup k = some mk →
        Task4Mem.apart m.BorrowedBooks mk.BorrowedBooks →
        (Task4Mem.viewLibrary
          (Task4Mem.BorrowBook Task4Mem.doubling Task4Mem.seedLibrary 1 1).1).Members.lookup k =
          (Task4Mem.viewLibrary Task4Mem.seedLibrary).Members.lookup k) :=
  ⟨by decide, by decide,
    BorrowBook_success_effect Task4Mem.doubling Task4Mem.seedLibrary 1 1 (by decide)⟩

/-- C3: `ReturnBook` fails with "member not found" when the member is absent, with "book
not found" when the member exists and the book is absent, with "book not borrowed by this
member" when both exist and no entry of the member's `BorrowedBooks` has the book's id, and
succeeds in every other case, whatever the status of the book in the catalog. -/
theorem ReturnBook_error_cases (l : Library) (bookID memberID : Int) :
    (l.Members.lookup memberID = none →
      (ReturnBook l bookID memberID).2 = some "member not found") ∧
    (memberID ∈ l.Members → l.Books.lookup bookID = none →
      (ReturnBook l bookID memberID).2 = some "book not found") ∧
    (∀ m, l.Members.lookup memberID = some m → bookID ∈ l.Books →
      (∀ e ∈ m.BorrowedBooks, e.ID ≠ bookID) →
      (ReturnBook l bookID memberID).2 = some "book not borrowed by this member") ∧
    (∀ m, l.Members.lookup memberID = some m → bookID ∈ l.Books →
      (∃ e ∈ m.BorrowedBooks, e.ID = bookID) →
      (ReturnBook l bookID memberID).2 = none) := by
  refine ⟨?_, ?_, ?_, ?_⟩
  · intro hm
    simp [ReturnBook, hm]
  · intro hm hb
    obtain ⟨m, hm⟩ := Finmap.mem_iff.mp hm
    simp [ReturnBook, hm, hb]
  · intro m hm hb hno
    obtain ⟨b, hb⟩ := Finmap.mem_iff.mp hb
    have hr := (removeBorrowed_eq_none bookID m.BorrowedBooks).mpr hno
    simp [ReturnBook, hm, hb, hr]
  · intro m hm hb ⟨e, he, hid⟩
    obtain ⟨b, hb⟩ := Finmap.mem_iff.mp hb
    cases hr : removeBorrowed bookID m.BorrowedBooks with
    | none =>
      exact absurd hid ((removeBorrowed_eq_none bookID m.BorrowedBooks).mp hr e he)
    | some rest => simp [ReturnBook, hm, hb, hr]

/-- C4, as stated, fails: members 1 and 2 were registered with one and the same slice
`make([]models.Book, 0, 4)`; member 1 borrowed books 1 and 2, then member 2 borrowed book 3,
which overwrote cell 0 of the shared array. `ReturnBook 3 1` then succeeds and shifts the
array in place, so the `BorrowedBooks` of member 2, who is not the returner, change from
book 3 to book 2. -/
theorem ReturnBook_shifts_shared_slice :
    (Task4Mem.ReturnBook Task4Mem.doubling
      (Task4Mem.runFrom Task4Mem.doubling Task4Mem.sharedLibrary
        [.borrowBook 1 1, .borrowBook 2 1, .borrowBook 3 2]) 3 1).2 = none ∧
    ((Task4Mem.viewLibrary
      (Task4Mem.runFrom Task4Mem.doubling Task4Mem.sharedLibrary
        [.borrowBook 1 1, .borrowBook 2 1, .borrowBook 3 2])).Members.lookup 2).map
      (fun m => m.BorrowedBooks.map (fun e => e.ID)) = some [3] ∧
    ((Task4Mem.viewLibrary
      (Task4Mem.ReturnBook Task4Mem.doubling
        (Task4Mem.runFrom Task4Mem.doubling Task4Mem.sharedLibrary
          [.borrowBook 1 1, .borrowBook 2 1, .borrowBook 3 2]) 3 1).1).Members.lookup 2).map
      (fun m => m.BorrowedBooks.map (fun e => e.ID)) = some [2] := by
  decide

/-- C4 (amended): whenever `ReturnBook x h` succeeds, member `h` keeps its id and name and
its `BorrowedBooks` is the previous sequence with the first entry whose id is `x` removed,
the other entries in their order; `Books[x]` is the old record with status Available; the
reservation table is the one before the call; every other book is unchanged; every other
member keeps its record with its slice header, and the elements of its `BorrowedBooks` are
unchanged provided its slice shares no backing array with the slice of `h`. -/
theorem ReturnBook_success_effect (g : Nat → Nat) (l : Task4Mem.Library) (x h : Int)
    (hok : (Task4Mem.ReturnBook g l x h).2 = none) :
    ∃ b m pre e post, l.Books.lookup x = some b ∧ l.Members.lookup h = some m ∧
      Task4Mem.view l.heap m.BorrowedBooks = pre ++ e :: post ∧ e.ID = x ∧
      (∀ p ∈ pre, p.ID ≠ x) ∧
      (Task4Mem.viewLibrary (Task4Mem.ReturnBook g l x h).1).Members.lookup h =
        some { ID := m.ID, Name := m.Name, BorrowedBooks := pre ++ post } ∧
      (Task4Mem.ReturnBook g l x h).1.Books.lookup x =
        some { ID := b.ID, Title := b.Title, Author := b.Author, Status := "Available" } ∧
      (Task4Mem.ReturnBook g l x h).1.reservations = l.reservations ∧
      (∀ k, k ≠ x → (Task4Mem.ReturnBook g l x h).1.Books.lookup k = l.Books.lookup k) ∧
      (∀ k, k ≠ h → (Task4Mem.ReturnBook g l x h).1.Members.lookup k = l.Members.lookup k) ∧
      (∀ k mk, k ≠ h → l.Members.lookup k = some mk →
        Task4Mem.apart m.BorrowedBooks mk.BorrowedBooks →
        (Task4Mem.viewLibrary (Task4Mem.ReturnBook g l x h).1).Members.lookup k =
          (Task4Mem.viewLibrary l).Members.lookup k) := by
  obtain ⟨b, m, i, hb, hm, hi, heq⟩ := ReturnBook_mem_ok g l x h hok
  obtain ⟨b1, m1, rest, hb1, hm1, hr, hself⟩ := ReturnBook_mem_self g l x h hok
  rw [hb] at hb1
  rw [hm] at hm1
  cases hb1
  cases hm1
  obtain ⟨pre, e, post, h1, h2, h3, h4⟩ := removeBorrowed_eq_some x _ rest hr
  have hM : ∀ k, k ≠ h →
      (Task4Mem.ReturnBook g l x h).1.Members.lookup k = l.Members.lookup k := by
    intro k hk
    rw [heq]
    exact Finmap.lookup_insert_of_ne _ hk
  refine ⟨b, m, pre, e, post, hb, hm, h1, h2, h3, ?_, ?_, ?_, ?_, hM, ?_⟩
  · rw [hself, h4]
  · rw [heq]; simp
  · rw [heq]
  · intro k hk
    rw [heq]
    exact Finmap.lookup_insert_of_ne _ hk
  · intro k mk hk hlk hap
    rw [lookup_viewLibrary, lookup_viewLibrary, hM k hk, hlk]
    simp only [Option.map_some', Task4Mem.viewMember,
      ReturnBook_mem_other g l x h k m mk hok hm hlk hap]

/-- C4 (amended), on the seeded library after member 1 borrowed books 2 and 1: returning
book 2 leaves member 1 holding book 1 only. -/
theorem ReturnBook_success_effect_witness :
    (Task4Mem.ReturnBook Task4Mem.doubling
      (Task4Mem.runFrom Task4Mem.doubling Task4Mem.seedLibrary
        [.borrowBook 2 1, .borrowBook 1 1]) 2 1).2 = none ∧
    ((Task4Mem.viewLibrary
      (Task4Mem.ReturnBook Task4Mem.doubling
        (Task4Mem.runFrom Task4Mem.doubling Task4Mem.seedLibrary
          [.borrowBook 2 1, .borrowBook 1 1]) 2 1).1).Members.lookup 1).map
      (fun m => m.BorrowedBooks.map (fun e => e.ID)) = some [1] ∧
    ∃ b m pre e post,
      (Task4Mem.runFrom Task4Mem.doubling Task4Mem.seedLibrary
        [.borrowBook 2 1, .borrowBook 1 1]).Books.lookup 2 = some b ∧
      (Task4Mem.runFrom Task4Mem.doubling Task4Mem.seedLibrary
        [.borrowBook 2 1, .borrowBook 1 1]).Members.lookup 1 = some m ∧
      Task4Mem.view
        (Task4Mem.runFrom Task4Mem.doubling Task4Mem.seedLibrary
          [.borrowBook 2 1, .borrowBook 1 1]).heap m.BorrowedBooks = pre ++ e :: post ∧
      e.ID = 2 ∧ (∀ p ∈ pre, p.ID ≠ 2) ∧
      (Task4Mem.viewLibrary
        (Task4Mem.ReturnBook Task4Mem.doubling
          (Task4Mem.runFrom Task4Mem.doubling Task4Mem.seedLibrary
            [.borrowBook 2 1, .borrowBook 1 1]) 2 1).1).Members.lookup 1 =
        some { ID := m.ID, Name := m.Name, BorrowedBooks := pre ++ post } :=
  have w := ReturnBook_success_effect Task4Mem.doubling
    (Task4Mem.runFrom Task4Mem.doubling Task4Mem.seedLibrary
      [.borrowBook 2 1, .borrowBook 1 1]) 2 1 (by decide)
  ⟨by decide, by decide,
    w.elim fun b hw => hw.elim fun m hw => hw.elim fun pre hw => hw.elim fun e hw =>
      hw.elim fun post hw =>
        ⟨b, m, pre, e, post, hw.1, hw.2.1, hw.2.2.1, hw.2.2.2.1, hw.2.2.2.2.1,
          hw.2.2.2.2.2.1⟩⟩

/-- C5: `RemoveBook id` fails with "book not found" when the id is absent, with "cannot
remove: book is borrowed" when the status is Borrowed, with "cannot remove: book is
reserved" when the status is not Borrowed and a reservation exists on the id, and otherwise
succeeds; after a success the id is absent from `Books`, every other book is unchanged, and
so are all members and the whole reservation table. -/
theorem RemoveBook_cases (l : Library) (id : Int) :
    (l.Books.lookup id = none → (RemoveBook l id).2 = some "book not found") ∧
    (∀ b, l.Books.lookup id = some b → b.Status = "Borrowed" →
      (RemoveBook l id).2 = some "cannot remove: book is borrowed") ∧
    (∀ b, l.Books.lookup id = some b → b.Status ≠ "Borrowed" → id ∈ l.reservations →
      (RemoveBook l id).2 = some "cannot remove: book is reserved") ∧
    (∀ b, l.Books.lookup id = some b → b.Status ≠ "Borrowed" → id ∉ l.reservations →
      (RemoveBook l id).2 = none) ∧
    ((RemoveBook l id).2 = none →
      (RemoveBook l id).1.Books.lookup id = none ∧
      (∀ k, k ≠ id → (RemoveBook l id).1.Books.lookup k = l.Books.lookup k) ∧
      (RemoveBook l id).1.Members = l.Members ∧
      (RemoveBook l id).1.reservations = l.reservations) := by
  refine ⟨?_, ?_, ?_, ?_, ?_⟩
  · intro hb
    simp [RemoveBook, hb]
  · intro b hb hst
    simp [RemoveBook, hb, hst]
  · intro b hb hst hr
    obtain ⟨r, hr⟩ := Finmap.mem_iff.mp hr
    simp [RemoveBook, hb, hst, hr]
  · intro b hb hst hr
    have hr := Finmap.lookup_eq_none.mpr hr
    simp [RemoveBook, hb, hst, hr]
  · intro hok
    obtain ⟨b, _, _, _, heq⟩ := RemoveBook_ok l id hok
    refine ⟨?_, ?_, ?_, ?_⟩
    · rw [heq]; simp
    · intro k hk
      rw [heq]
      exact Finmap.lookup_erase_ne hk
    · rw [heq]
    · rw [heq]

/-- C6: the worker answers a request with "book not found" when the book is absent; else
"member not found" when the member is absent; else "book already borrowed" when the status
is Borrowed; else "book already reserved" when any reservation exists on the book, also
one naming the requesting member; else success. On success the reservation table gains the
one entry for the book, naming the member, and `Books` and `Members` are unchanged.
`ReserveBook` returns the worker's reply and state. -/
theorem handleRequest_cases (l : Library) (bookID memberID : Int) :
    (l.Books.lookup bookID = none →
      (handleRequest l { BookID := bookID, MemberID := memberID }).2 =
        some "book not found") ∧
    (bookID ∈ l.Books → l.Members.lookup memberID = none →
      (handleRequest l { BookID := bookID, MemberID := memberID }).2 =
        some "member not found") ∧
    (∀ b, l.Books.lookup bookID = some b → memberID ∈ l.Members → b.Status = "Borrowed" →
      (handleRequest l { BookID := bookID, MemberID := memberID }).2 =
        some "book already borrowed") ∧
    (∀ b, l.Books.lookup bookID = some b → memberID ∈ l.Members → b.Status ≠ "Borrowed" →
      bookID ∈ l.reservations →
      (handleRequest l { BookID := bookID, MemberID := memberID }).2 =
        some "book already reserved") ∧
    (∀ b, l.Books.lookup bookID = some b → memberID ∈ l.Members → b.Status ≠ "Borrowed" →
      l.reservations.lookup bookID = some { MemberID := memberID } →
      (handleRequest l { BookID := bookID, MemberID := memberID }).2 =
        some "book already reserved") ∧
    (∀ b, l.Books.lookup bookID = some b → memberID ∈ l.Members → b.Status ≠ "Borrowed" →
      bookID ∉ l.reservations →
      (handleRequest l { BookID := bookID, MemberID := memberID }).2 = none) ∧
    ((handleRequest l { BookID := bookID, MemberID := memberID }).2 = none →
      l.reservations.lookup bookID = none ∧
      (handleRequest l { BookID := bookID, MemberID := memberID }).1.reservations.lookup
        bookID = some { MemberID := memberID } ∧
      (∀ k, k ≠ bookID →
        (handleRequest l { BookID := bookID, MemberID := memberID }).1.reservations.lookup k =
          l.reservations.lookup k) ∧
      (handleRequest l { BookID := bookID, MemberID := memberID }).1.Books = l.Books ∧
      (handleRequest l { BookID := bookID, MemberID := memberID }).1.Members = l.Members) ∧
    ReserveBook l bookID memberID =
      handleRequest l { BookID := bookID, MemberID := memberID } := by
  refine ⟨?_, ?_, ?_, ?_, ?_, ?_, ?_, ?_⟩
  · intro hb
    simp [handleRequest, hb]
  · intro hb hm
    obtain ⟨b, hb⟩ := Finmap.mem_iff.mp hb
    simp [handleRequest, hb, hm]
  · intro b hb hm hst
    obtain ⟨m, hm⟩ := Finmap.mem_iff.mp hm
    simp [handleRequest, hb, hm, hst]
  · intro b hb hm hst hr
    obtain ⟨m, hm⟩ := Finmap.mem_iff.mp hm
    obtain ⟨r, hr⟩ := Finmap.mem_iff.mp hr
    simp [handleRequest, hb, hm, hst, hr]
  · intro b hb hm hst hr
    obtain ⟨m, hm⟩ := Finmap.mem_iff.mp hm
    simp [handleRequest, hb, hm, hst, hr]
  · intro b hb hm hst hr
    obtain ⟨m, hm⟩ := Finmap.mem_iff.mp hm
    have hr := Finmap.lookup_eq_none.mpr hr
    simp [handleRequest, hb, hm, hst, hr]
  · intro hok
    obtain ⟨b, m, _, _, _, hr, heq⟩ := handleRequest_ok l _ hok
    refine ⟨hr, ?_, ?_, ?_, ?_⟩
    · rw [heq]; simp
    · intro k hk
      rw [heq]
      exact Finmap.lookup_insert_of_ne _ hk
    · rw [heq]
    · rw [heq]
  · simp [ReserveBook, startReservationWorker]

/-- C8: `ListBorrowedBooks` returns the member's `BorrowedBooks` in the same order when
the member is registered (the empty sequence when the member holds nothing), returns an
empty result when the member is unknown, and leaves the state unchanged. -/
theorem ListBorrowedBooks_spec (l : Library) (memberID : Int) :
    (∀ m, l.Members.lookup memberID = some m →
      (ListBorrowedBooks l memberID).2 = m.BorrowedBooks) ∧
    (∀ m, l.Members.lookup memberID = some m → m.BorrowedBooks = [] →
      (ListBorrowedBooks l memberID).2 = []) ∧
    (l.Members.lookup memberID = none → (ListBorrowedBooks l memberID).2 = []) ∧
    (ListBorrowedBooks l memberID).1 = l := by
  refine ⟨?_, ?_, ?_, ?_⟩
  · intro m hm
    simp [ListBorrowedBooks, hm]
  · intro m hm he
    simp [ListBorrowedBooks, hm, he]
  · intro hm
    simp [ListBorrowedBooks, hm]
  · unfold ListBorrowedBooks
    split <;> rfl

/-- C9: when book `x` exists, is not Borrowed and has no reservation, and the worker
handles `N >= 1` requests for `x` by registered members one after another, the first
request handled gets success, each of the other `N - 1` gets "book already reserved",
exactly one reply is a success, and the final reservation on `x` names the member of the
first request handled. The list is arbitrary, so this holds for every handling order. -/
theorem first_reservation_wins (l : Library) (x : Int) (b : Book)
    (q : ReservationRequest) (rest : List ReservationRequest)
    (hb : l.Books.lookup x = some b) (hst : b.Status ≠ "Borrowed")
    (hr : l.reservations.lookup x = none)
    (hx : ∀ p ∈ q :: rest, p.BookID = x ∧ p.MemberID ∈ l.Members) :
    (startReservationWorker l (q :: rest)).2 =
      none :: List.replicate rest.length (some "book already reserved") ∧
    ((startReservationWorker l (q :: rest)).2.filter (fun reply => reply = none)).length = 1 ∧
    (startReservationWorker l (q :: rest)).1.reservations.lookup x =
      some { MemberID := q.MemberID } := by
  obtain ⟨hq, hm⟩ := hx q (List.mem_cons_self _ _)
  obtain ⟨m, hm⟩ := Finmap.mem_iff.mp hm
  have hstep : handleRequest l q =
      ({ l with reservations := l.reservations.insert x { MemberID := q.MemberID } },
        none) := by
    have hb1 := hb
    have hr1 := hr
    rw [← hq] at hb1 hr1
    simp [handleRequest, hb1, hm, hst, hr1, hq]
  have hrest := worker_all_rejected
    { l with reservations := l.reservations.insert x { MemberID := q.MemberID } }
    x b { MemberID := q.MemberID } hb hst (by simp) rest
    (fun p hp => hx p (List.mem_cons_of_mem _ hp))
  refine ⟨?_, ?_, ?_⟩
  · simp [startReservationWorker, hstep, hrest]
  · simp [startReservationWorker, hstep, hrest, List.filter_cons]
  · simp [startReservationWorker, hstep, hrest]

/-- C9, on the seeded library: members 3, 1, 5, 2, 4 ask for book 1 in that order, as in
`simulateConcurrentReservations`; member 3 wins. -/
theorem first_reservation_wins_witness :
    (startReservationWorker seedLibrary
      [⟨1, 3⟩, ⟨1, 1⟩, ⟨1, 5⟩, ⟨1, 2⟩, ⟨1, 4⟩]).2 =
      none :: List.replicate 4 (some "book already reserved") ∧
    ((startReservationWorker seedLibrary
      [⟨1, 3⟩, ⟨1, 1⟩, ⟨1, 5⟩, ⟨1, 2⟩, ⟨1, 4⟩]).2.filter
        (fun reply => reply = none)).length = 1 ∧
    (startReservationWorker seedLibrary
      [⟨1, 3⟩, ⟨1, 1⟩, ⟨1, 5⟩, ⟨1, 2⟩, ⟨1, 4⟩]).1.reservations.lookup 1 =
      some { MemberID := 3 } :=
  first_reservation_wins seedLibrary 1
    { ID := 1, Title := "The Go Programming Language", Author := "Donovan & Kernighan",
      Status := "Available" }
    ⟨1, 3⟩ [⟨1, 1⟩, ⟨1, 5⟩, ⟨1, 2⟩, ⟨1, 4⟩] (by decide) (by decide) (by decide) (by decide)

/-- C7: in every state the engine reaches, a record is in the result of `ListAvailableBooks`
if and only if it is the catalog record of some id whose status is Available and which has
no reservation; each such record is listed exactly once; and the call leaves the state
unchanged. The same holds in every state reached with slices in memory, whatever backing
arrays they share. -/
theorem ListAvailableBooks_spec (ops : List Op) :
    (∀ r, r ∈ (ListAvailableBooks (run ops)).2 ↔
      ∃ id, (run ops).Books.lookup id = some r ∧ r.Status = "Available" ∧
        (run ops).reservations.lookup id = none) ∧
    (∀ r ∈ (ListAvailableBooks (run ops)).2, (ListAvailableBooks (run ops)).2.count r = 1) ∧
    (ListAvailableBooks (run ops)).1 = run ops ∧
    ∀ (g : Nat → Nat) (hp : Task4Mem.Heap) (mops : List Task4Mem.Op),
      (∀ r, r ∈ (ListAvailableBooks (Task4Mem.viewLibrary (Task4Mem.run g hp mops))).2 ↔
        ∃ id, (Task4Mem.run g hp mops).Books.lookup id = some r ∧ r.Status = "Available" ∧
          (Task4Mem.run g hp mops).reservations.lookup id = none) ∧
      (∀ r ∈ (ListAvailableBooks (Task4Mem.viewLibrary (Task4Mem.run g hp mops))).2,
        (ListAvailableBooks (Task4Mem.viewLibrary (Task4Mem.run g hp mops))).2.count r = 1) ∧
      (ListAvailableBooks (Task4Mem.viewLibrary (Task4Mem.run g hp mops))).1 =
        Task4Mem.viewLibrary (Task4Mem.run g hp mops) :=
  ⟨mem_ListAvailableBooks (run ops),
    count_one_of_keysCarryIDs (run ops) (keysCarryIDs_run ops), rfl,
    fun g hp mops =>
      ⟨mem_ListAvailableBooks _,
        count_one_of_keysCarryIDs _ (keysCarryIDs_mem_run g hp mops), rfl⟩⟩

/-- C10, as stated, fails, in two ways. After the run `doubleGrant`, in which book 1 is
added again while member 1 holds it, book 1 has status Borrowed and is in the
`BorrowedBooks` of member 1 and of member 2. And after two members were registered with one
and the same slice `make([]models.Book, 0, 4)` and member 1 borrowed book 1 and member 2
book 2, a run in which every `AddBook` and `RegisterMember` is admissible, book 2 has
status Borrowed and is in the `BorrowedBooks` of member 1 and of member 2. In neither state
does I1 hold. -/
theorem I1_fails_after_doubleGrant :
    ¬ I1 (Task4Mem.viewLibrary
      (Task4Mem.run Task4Mem.doubling Task4Mem.emptyHeap Task4Mem.doubleGrant)) ∧
    Task4Mem.alongRun Task4Mem.doubling admissible (Task4Mem.NewLibrary Task4Mem.emptyHeap)
      (Task4Mem.sharedOps ++ [.borrowBook 1 1, .borrowBook 2 2]) ∧
    ¬ I1 (Task4Mem.viewLibrary
      (Task4Mem.run Task4Mem.doubling Task4Mem.emptyHeap
        (Task4Mem.sharedOps ++ [.borrowBook 1 1, .borrowBook 2 2]))) := by
  refine ⟨?_, by decide, ?_⟩
  · intro hI
    have hb : (Task4Mem.viewLibrary
        (Task4Mem.run Task4Mem.doubling Task4Mem.emptyHeap Task4Mem.doubleGrant)).Books.lookup
          1 =
        some { ID := 1, Title := "The Go Programming Language",
               Author := "Donovan & Kernighan", Status := "Borrowed" } := by decide
    obtain ⟨h, _, huniq⟩ := (hI 1 _ hb).mp rfl
    have h1 : (1 : Int) = h := huniq 1 (by decide)
    have h2 : (2 : Int) = h := huniq 2 (by decide)
    omega
  · intro hI
    have hb : (Task4Mem.viewLibrary
        (Task4Mem.run Task4Mem.doubling Task4Mem.emptyHeap
          (Task4Mem.sharedOps ++ [.borrowBook 1 1, .borrowBook 2 2]))).Books.lookup 2 =
        some { ID := 2, Title := "Concurrency in Go", Author := "Katherine Cox-Buday",
               Status := "Borrowed" } := by decide
    obtain ⟨h, _, huniq⟩ := (hI 2 _ hb).mp rfl
    have h1 : (1 : Int) = h := huniq 1 (by decide)
    have h2 : (2 : Int) = h := huniq 2 (by decide)
    omega

/-- C10 (amended): in every state reached from `NewLibrary` by a sequence of the engine's
operations in which no `AddBook` stores a record with status Borrowed or overwrites a
Borrowed book, no `RegisterMember` stores a member with held books or overwrites a member
who holds books, and no `RegisterMember` brings a slice that shares a backing array with the
slice of a member registered under another id (all other operations with any arguments),
the status of every catalog book is Borrowed if and only if exactly one member's
`BorrowedBooks` contains an entry with that book's id (I1). -/
theorem I1_of_admissible_run (g : Nat → Nat) (hp : Task4Mem.Heap) (ops : List Task4Mem.Op)
    (ha : Task4Mem.alongRun g admissible (Task4Mem.NewLibrary hp) ops)
    (ho : Task4Mem.ownArrayFrom g (Task4Mem.NewLibrary hp) ops) :
    I1 (Task4Mem.viewLibrary (Task4Mem.run g hp ops)) :=
  I1_of_Inv _ (Inv_mem_runFrom g ops (Task4Mem.NewLibrary hp) (Sep_NewLibrary hp)
    (by rw [viewLibrary_NewLibrary]; exact Inv_NewLibrary) ha ho).2

/-- C10 (amended), on `sampleRun` with nil slices: the run is admissible and shares no
backing array, and I1 holds after it; in the final state book 2 is Borrowed and held by
member 2. -/
theorem I1_of_admissible_run_witness :
    Task4Mem.alongRun Task4Mem.doubling admissible (Task4Mem.NewLibrary Task4Mem.emptyHeap)
      Task4Mem.sampleRun ∧
    Task4Mem.ownArrayFrom Task4Mem.doubling (Task4Mem.NewLibrary Task4Mem.emptyHeap)
      Task4Mem.sampleRun ∧
    I1 (Task4Mem.viewLibrary
      (Task4Mem.run Task4Mem.doubling Task4Mem.emptyHeap Task4Mem.sampleRun)) ∧
    heldBy (Task4Mem.viewLibrary
      (Task4Mem.run Task4Mem.doubling Task4Mem.emptyHeap Task4Mem.sampleRun)) 2 2 :=
  ⟨by decide, by decide,
    I1_of_admissible_run Task4Mem.doubling Task4Mem.emptyHeap Task4Mem.sampleRun
      (by decide) (by decide),
    by decide⟩

/-- C18: the expiry action for `(x, h)` deletes the reservation entry of `x` when a
reservation on `x` exists, names `h`, and book `x` is in the catalog with a status other
than Borrowed; in every other case it changes nothing. It never changes `Books`, `Members`
or the reservation of another item, and running it twice gives the state of running it
once. -/
theorem expiry_spec (l : Library) (x h : Int) :
    (∀ r b, l.reservations.lookup x = some r → r.MemberID = h →
      l.Books.lookup x = some b → b.Status ≠ "Borrowed" →
      (expiry l x h).reservations.lookup x = none) ∧
    ((¬ ∃ r b, l.reservations.lookup x = some r ∧ r.MemberID = h ∧
        l.Books.lookup x = some b ∧ b.Status ≠ "Borrowed") →
      expiry l x h = l) ∧
    (expiry l x h).Books = l.Books ∧
    (expiry l x h).Members = l.Members ∧
    (∀ k, k ≠ x → (expiry l x h).reservations.lookup k = l.reservations.lookup k) ∧
    expiry (expiry l x h) x h = expiry l x h := by
  refine ⟨?_, ?_, ?_, ?_, ?_, ?_⟩
  · intro r b hr hrh hb hst
    rw [expiry_fires l x h r b hr hrh hb hst]
    exact Finmap.lookup_erase _ _
  · intro hno
    cases hl : l.reservations.lookup x with
    | none => exact expiry_noop_of_not_named l x h (by simp [hl])
    | some r =>
      by_cases hrh : r.MemberID = h
      · apply expiry_noop_of_book
        intro b hb
        by_contra hst
        exact hno ⟨r, b, hl, hrh, hb, hst⟩
      · apply expiry_noop_of_not_named
        intro r1 hr1
        rw [hl] at hr1
        cases hr1
        exact hrh
  · rcases expiry_cases l x h with h1 | h1 <;> rw [h1]
  · rcases expiry_cases l x h with h1 | h1 <;> rw [h1]
  · intro k hk
    rcases expiry_cases l x h with h1 | h1 <;> rw [h1]
    exact Finmap.lookup_erase_ne hk
  · rcases expiry_cases l x h with h1 | h1
    · rw [h1, h1]
    · apply expiry_noop_of_not_named
      intro r hr
      rw [h1] at hr
      simp at hr

/-- C15: when book `x` exists, is not Borrowed and has no reservation, and `c` and `d` are
registered members, `ReserveBook x c` succeeds and leaves the library with the one new
reservation entry of `x`, naming `c`; the expiry action for `(x, c)` run next gives back the
library as it was before the reservation (`Books`, `Members` and the reservation table);
and `ReserveBook x d` then succeeds and leaves the entry of `x` naming `d`. -/
theorem reserve_expire_reserve (l : Library) (x c d : Int) (b : Book)
    (hb : l.Books.lookup x = some b) (hst : b.Status ≠ "Borrowed")
    (hr : l.reservations.lookup x = none) (hc : c ∈ l.Members) (hd : d ∈ l.Members) :
    (ReserveBook l x c).2 = none ∧
    (ReserveBook l x c).1 =
      { l with reservations := l.reservations.insert x { MemberID := c } } ∧
    (ReserveBook l x c).1.reservations.lookup x = some { MemberID := c } ∧
    expiry (ReserveBook l x c).1 x c = l ∧
    (ReserveBook (expiry (ReserveBook l x c).1 x c) x d).2 = none ∧
    (ReserveBook (expiry (ReserveBook l x c).1 x c) x d).1 =
      { l with reservations := l.reservations.insert x { MemberID := d } } ∧
    (ReserveBook (expiry (ReserveBook l x c).1 x c) x d).1.reservations.lookup x =
      some { MemberID := d } := by
  obtain ⟨mc, hc⟩ := Finmap.mem_iff.mp hc
  obtain ⟨md, hd⟩ := Finmap.mem_iff.mp hd
  have h1 : ReserveBook l x c =
      ({ l with reservations := l.reservations.insert x { MemberID := c } }, none) := by
    simp [ReserveBook, startReservationWorker, handleRequest, hb, hc, hst, hr]
  have h2 : expiry (ReserveBook l x c).1 x c = l := by
    have hf := expiry_fires
      { l with reservations := l.reservations.insert x { MemberID := c } } x c
      { MemberID := c } b (Finmap.lookup_insert _) rfl hb hst
    rw [h1]
    show expiry { l with reservations := l.reservations.insert x { MemberID := c } } x c = l
    rw [hf]
    cases l with
    | mk B M R =>
      simp only [Library.mk.injEq, true_and]
      apply Finmap.ext_lookup
      intro k
      by_cases hk : k = x
      · subst hk
        rw [Finmap.lookup_erase]
        exact hr.symm
      · rw [Finmap.lookup_erase_ne hk, Finmap.lookup_insert_of_ne _ hk]
  have h3 : ReserveBook l x d =
      ({ l with reservations := l.reservations.insert x { MemberID := d } }, none) := by
    simp [ReserveBook, startReservationWorker, handleRequest, hb, hd, hst, hr]
  refine ⟨by rw [h1], by rw [h1], ?_, h2, ?_, ?_, ?_⟩
  · rw [h1]
    exact Finmap.lookup_insert _
  · rw [h2, h3]
  · rw [h2, h3]
  · rw [h2, h3]
    exact Finmap.lookup_insert _

/-- C15, on the seeded library: member 3 reserves book 2, the reservation expires, member 4
reserves it. -/
theorem reserve_expire_reserve_witness :
    (ReserveBook seedLibrary 2 3).2 = none ∧
    (ReserveBook seedLibrary 2 3).1.reservations.lookup 2 = some { MemberID := 3 } ∧
    expiry (ReserveBook seedLibrary 2 3).1 2 3 = seedLibrary ∧
    (ReserveBook (expiry (ReserveBook seedLibrary 2 3).1 2 3) 2 4).2 = none ∧
    (ReserveBook (expiry (ReserveBook seedLibrary 2 3).1 2 3) 2 4).1.reservations.lookup 2 =
      some { MemberID := 4 } :=
  have w := reserve_expire_reserve seedLibrary 2 3 4
    { ID := 2, Title := "Concurrency in Go", Author := "Katherine Cox-Buday",
      Status := "Available" }
    (by decide) (by decide) (by decide) (by decide) (by decide)
  ⟨w.1, w.2.2.1, w.2.2.2.1, w.2.2.2.2.1, w.2.2.2.2.2.2⟩

/-- C19: when book `x` exists with a status other than Borrowed, member `h` is registered
and the reservation on `x` names `h`, `BorrowBook x h` followed by the expiry action for
`(x, h)` gives the same library as the expiry action followed by `BorrowBook x h`;
`BorrowBook` succeeds in both orders, and in the final state `x` is Borrowed, its record is
the last entry of the `BorrowedBooks` of `h`, and `x` has no reservation. -/
theorem borrow_expiry_commute (l : Library) (x h : Int) (b : Book) (m : Member)
    (r : reservation) (hb : l.Books.lookup x = some b) (hst : b.Status ≠ "Borrowed")
    (hm : l.Members.lookup h = some m) (hr : l.reservations.lookup x = some r)
    (hrh : r.MemberID = h) :
    (BorrowBook l x h).2 = none ∧
    (BorrowBook (expiry l x h) x h).2 = none ∧
    expiry (BorrowBook l x h).1 x h = (BorrowBook (expiry l x h) x h).1 ∧
    (expiry (BorrowBook l x h).1 x h).Books.lookup x =
      some { ID := b.ID, Title := b.Title, Author := b.Author, Status := "Borrowed" } ∧
    (expiry (BorrowBook l x h).1 x h).Members.lookup h =
      some { ID := m.ID, Name := m.Name,
             BorrowedBooks := m.BorrowedBooks ++
               [{ ID := b.ID, Title := b.Title, Author := b.Author, Status := "Borrowed" }] } ∧
    (expiry (BorrowBook l x h).1 x h).reservations.lookup x = none ∧
    (b.ID = x → heldBy (expiry (BorrowBook l x h).1 x h) x h) := by
  have h1 : BorrowBook l x h =
      ({ Books := l.Books.insert x { b with Status := "Borrowed" }
         Members := l.Members.insert h
           { m with BorrowedBooks := m.BorrowedBooks ++ [{ b with Status := "Borrowed" }] }
         reservations := l.reservations.erase x }, none) := by
    simp [BorrowBook, hb, hm, hr, hrh, hst]
  have h2 : expiry l x h = { l with reservations := l.reservations.erase x } :=
    expiry_fires l x h r b hr hrh hb hst
  have h3 : expiry (BorrowBook l x h).1 x h = (BorrowBook l x h).1 := by
    apply expiry_noop_of_not_named
    intro r1 hr1
    rw [h1] at hr1
    simp at hr1
  have h4 : BorrowBook (expiry l x h) x h = BorrowBook l x h := by
    rw [h2, h1]
    simp [BorrowBook, hb, hm, hst]
  refine ⟨by rw [h1], by rw [h4, h1], by rw [h3, h4], ?_, ?_, ?_, ?_⟩
  · rw [h3, h1]
    simp
  · rw [h3, h1]
    simp
  · rw [h3, h1]
    simp
  · intro hbx
    rw [h3, h1]
    exact ⟨_, Finmap.lookup_insert _, _,
      List.mem_append_right _ (List.mem_singleton_self _), hbx⟩

/-- C19, on the seeded library after member 1 reserved book 1: both orders end in the same
library, with book 1 held by member 1. -/
theorem borrow_expiry_commute_witness :
    (BorrowBook (ReserveBook seedLibrary 1 1).1 1 1).2 = none ∧
    (BorrowBook (expiry (ReserveBook seedLibrary 1 1).1 1 1) 1 1).2 = none ∧
    expiry (BorrowBook (ReserveBook seedLibrary 1 1).1 1 1).1 1 1 =
      (BorrowBook (expiry (ReserveBook seedLibrary 1 1).1 1 1) 1 1).1 ∧
    (expiry (BorrowBook (ReserveBook seedLibrary 1 1).1 1 1).1 1 1).reservations.lookup 1 =
      none ∧
    heldBy (expiry (BorrowBook (ReserveBook seedLibrary 1 1).1 1 1).1 1 1) 1 1 :=
  have w := borrow_expiry_commute (ReserveBook seedLibrary 1 1).1 1 1
    { ID := 1, Title := "The Go Programming Language", Author := "Donovan & Kernighan",
      Status := "Available" }
    { ID := 1, Name := "Alice", BorrowedBooks := [] } { MemberID := 1 }
    (by decide) (by decide) (by decide) (by decide) rfl
  ⟨w.1, w.2.1, w.2.2.1, w.2.2.2.2.2.1, w.2.2.2.2.2.2 rfl⟩

/-- C16: a reservation entry for item `x` naming member `h` leaves the table only through a
successful `BorrowBook x h` or through the expiry action for `(x, h)` run while `x` is in
the catalog and not Borrowed: after any other operation the entry is still there and names
`h`. `AddBook`, `RegisterMember`, `RemoveBook`, `ReturnBook`, `ListAvailableBooks` and
`ListBorrowedBooks` leave the whole table as it was, so does every failing `BorrowBook`,
every `BorrowBook` on another item leaves the entry of `x`, and the handling of a Reserve
request keeps every existing entry. -/
theorem reservation_leaves_only_by (l : Library) (x h : Int)
    (hr : l.reservations.lookup x = some { MemberID := h }) :
    (∀ op, (step l op).reservations.lookup x = some { MemberID := h } ∨
      (op = .borrowBook x h ∧ (BorrowBook l x h).2 = none) ∨
      (op = .expire x h ∧ ∃ b, l.Books.lookup x = some b ∧ b.Status ≠ "Borrowed")) ∧
    (∀ book, (AddBook l book).reservations = l.reservations) ∧
    (∀ m, (RegisterMember l m).reservations = l.reservations) ∧
    (∀ id, (RemoveBook l id).1.reservations = l.reservations) ∧
    (∀ y h1, (ReturnBook l y h1).1.reservations = l.reservations) ∧
    (ListAvailableBooks l).1.reservations = l.reservations ∧
    (∀ h1, (ListBorrowedBooks l h1).1.reservations = l.reservations) ∧
    (∀ y h1, (BorrowBook l y h1).2 ≠ none →
      (BorrowBook l y h1).1.reservations = l.reservations) ∧
    (∀ y h1, y ≠ x →
      (BorrowBook l y h1).1.reservations.lookup x = some { MemberID := h }) ∧
    (∀ req k r, l.reservations.lookup k = some r →
      (handleRequest l req).1.reservations.lookup k = some r) := by
  refine ⟨?_, fun _ => rfl, fun _ => rfl, RemoveBook_reservations l,
    ReturnBook_reservations l, rfl, ?_, ?_, ?_, handleRequest_keeps l⟩
  · intro op
    cases op with
    | addBook book => exact Or.inl hr
    | registerMember m => exact Or.inl hr
    | removeBook id =>
      left
      show (RemoveBook l id).1.reservations.lookup x = _
      rw [RemoveBook_reservations]
      exact hr
    | borrowBook y h1 =>
      by_cases hy : x = y
      · subst hy
        by_cases hok : (BorrowBook l x h1).2 = none
        · obtain ⟨_, _, _, _, _, hres, _⟩ := BorrowBook_ok l x h1 hok
          have hh : h = h1 := hres _ hr
          subst hh
          exact Or.inr (Or.inl ⟨rfl, hok⟩)
        · left
          show (BorrowBook l x h1).1.reservations.lookup x = _
          rw [BorrowBook_fail_state l x h1 hok]
          exact hr
      · left
        show (BorrowBook l y h1).1.reservations.lookup x = _
        rw [BorrowBook_reservations_ne l y h1 x hy]
        exact hr
    | returnBook y h1 =>
      left
      show (ReturnBook l y h1).1.reservations.lookup x = _
      rw [ReturnBook_reservations]
      exact hr
    | reserve y h1 => exact Or.inl (handleRequest_keeps l _ x _ hr)
    | expire y h1 =>
      show (expiry l y h1).reservations.lookup x = _ ∨ _
      by_cases hy : x = y
      · subst hy
        by_cases hh : h = h1
        · subst hh
          cases hb : l.Books.lookup x with
          | none =>
            left
            rw [expiry_noop_of_book l x h (by simp [hb])]
            exact hr
          | some b =>
            by_cases hst : b.Status = "Borrowed"
            · left
              rw [expiry_noop_of_book l x h]
              · exact hr
              · intro b1 hb1
                rw [hb] at hb1
                cases hb1
                exact hst
            · exact Or.inr (Or.inr ⟨rfl, b, rfl, hst⟩)
        · left
          rw [expiry_noop_of_not_named l x h1]
          · exact hr
          · intro r1 hr1
            rw [hr] at hr1
            cases hr1
            exact hh
      · left
        rw [(expiry_reservations_ne l y h1 x hy)]
        exact hr
  · intro h1
    unfold ListBorrowedBooks
    split <;> rfl
  · intro y h1 hf
    rw [BorrowBook_fail_state l y h1 hf]
  · intro y h1 hy
    rw [BorrowBook_reservations_ne l y h1 x (Ne.symm hy)]
    exact hr

/-- C16, on the seeded library after member 1 reserved book 1: the entry survives member
2's failing attempt to borrow book 1 and member 2's borrowing of book 2. -/
theorem reservation_leaves_only_by_witness :
    (BorrowBook (ReserveBook seedLibrary 1 1).1 1 2).2 ≠ none ∧
    (BorrowBook (ReserveBook seedLibrary 1 1).1 1 2).1.reservations =
      (ReserveBook seedLibrary 1 1).1.reservations ∧
    (BorrowBook (ReserveBook seedLibrary 1 1).1 2 2).1.reservations.lookup 1 =
      some { MemberID := 1 } :=
  have w := reservation_leaves_only_by (ReserveBook seedLibrary 1 1).1 1 1 (by decide)
  ⟨by decide, w.2.2.2.2.2.2.2.1 1 2 (by decide), w.2.2.2.2.2.2.2.2.1 2 2 (by decide)⟩

/-- C13: in every reachable state in which book `x` has status Available and no
reservation, and for two distinct registered members `a` and `b`: `ReserveBook x a`
succeeds; `BorrowBook x b` then fails with "book is reserved by another member" and
returns the library unchanged; `BorrowBook x a` then succeeds, leaving `x` Borrowed, held
by `a` and without reservation; `ReturnBook x a` then succeeds, leaving `x` Available. -/
theorem reserve_scenario (ops : List Op) (x a b : Int) (bk : Book)
    (hx : (run ops).Books.lookup x = some bk) (hst : bk.Status = "Available")
    (hr : (run ops).reservations.lookup x = none)
    (ha : a ∈ (run ops).Members) (hb : b ∈ (run ops).Members) (hab : a ≠ b) :
    ∃ s1 s2 s3,
      ReserveBook (run ops) x a = (s1, none) ∧
      BorrowBook s1 x b = (s1, some "book is reserved by another member") ∧
      BorrowBook s1 x a = (s2, none) ∧
      s2.Books.lookup x =
        some { ID := bk.ID, Title := bk.Title, Author := bk.Author, Status := "Borrowed" } ∧
      heldBy s2 x a ∧
      s2.reservations.lookup x = none ∧
      ReturnBook s2 x a = (s3, none) ∧
      s3.Books.lookup x =
        some { ID := bk.ID, Title := bk.Title, Author := bk.Author,
               Status := "Available" } :=
  scenario_of_keyID (run ops) x a b bk hx (keysCarryIDs_run ops x bk hx) hst hr ha hb hab

/-- C13, after the run `sampleRun`, in which book 1 was removed and added again and members
1 and 2 are registered: member 1 reserves, member 2 is refused, member 1 borrows and
returns. -/
theorem reserve_scenario_witness :
    ∃ s1 s2 s3,
      ReserveBook (run sampleRun) 1 1 = (s1, none) ∧
      BorrowBook s1 1 2 = (s1, some "book is reserved by another member") ∧
      BorrowBook s1 1 1 = (s2, none) ∧
      s2.Books.lookup 1 =
        some { ID := 1, Title := "The Go Programming Language",
               Author := "Donovan & Kernighan", Status := "Borrowed" } ∧
      heldBy s2 1 1 ∧
      s2.reservations.lookup 1 = none ∧
      ReturnBook s2 1 1 = (s3, none) ∧
      s3.Books.lookup 1 =
        some { ID := 1, Title := "The Go Programming Language",
               Author := "Donovan & Kernighan", Status := "Available" } :=
  reserve_scenario sampleRun 1 1 2
    { ID := 1, Title := "The Go Programming Language", Author := "Donovan & Kernighan",
      Status := "Available" }
    (by decide) rfl (by decide) (by decide) (by decide) (by decide)

/-- C11, as stated, fails: after the run `overwriteReserved` item 1 has a reservation and
its status is Borrowed, so I2 does not hold in that state. -/
theorem I2_fails_after_overwriteReserved : ¬ I2 (run overwriteReserved) := by
  intro hI
  obtain ⟨b, hb, hst⟩ := hI 1 { MemberID := 1 } (by decide)
  have hb1 : (run overwriteReserved).Books.lookup 1 =
      some { ID := 1, Title := "The Go Programming Language",
             Author := "Donovan & Kernighan", Status := "Borrowed" } := by decide
  rw [hb1] at hb
  cases hb
  exact absurd hst (by decide)

/-- C11 (amended): in every state reached from `NewLibrary` by a sequence of the engine's
operations with any arguments, no item has more than one reservation (I3); and when every
`AddBook` of the sequence stores a record with status Available, every item that has a
reservation has status Available (I2). -/
theorem I2_I3_of_run (ops : List Op) :
    I3 (run ops) ∧ ((∀ op ∈ ops, addsAvailable op) → I2 (run ops)) :=
  ⟨I3_holds (run ops),
    fun ha => (StatusInv_runFrom ops NewLibrary StatusInv_NewLibrary ha).reservedAvailable⟩

/-- C11 (amended), on `sampleRun` followed by a reservation of book 1 by member 2: every
`AddBook` of the run stores an Available record, the final state has that reservation, and
I2 holds in it. -/
theorem I2_I3_of_run_witness :
    (∀ op ∈ sampleRun ++ [.reserve 1 2], addsAvailable op) ∧
    (run (sampleRun ++ [.reserve 1 2])).reservations.lookup 1 = some { MemberID := 2 } ∧
    I2 (run (sampleRun ++ [.reserve 1 2])) :=
  ⟨by decide, by decide, (I2_I3_of_run (sampleRun ++ [.reserve 1 2])).2 (by decide)⟩

/-- C12, as stated, fails, in two ways. In the reachable state after `readdHeld`, in which
member 1 holds books 1 and 2 and book 1 was added again, `BorrowBook 1 1` succeeds and so
does the following `ReturnBook 1 1`, but the `BorrowedBooks` of member 1 are then books 2,
1, while before the borrow they were books 1, 2. And when members 1 and 2 were registered
with one and the same slice `make([]models.Book, 0, 4)` and member 1 borrowed book 1,
`BorrowBook 2 2` and `ReturnBook 2 2` succeed, member 2 holds nothing before and after, but
the `BorrowedBooks` of member 1 change from book 1 to book 2. -/
theorem round_trip_changes_holder :
    ((Task4Mem.BorrowBook Task4Mem.doubling
        (Task4Mem.run Task4Mem.doubling Task4Mem.emptyHeap Task4Mem.readdHeld) 1 1).2 = none ∧
      (Task4Mem.ReturnBook Task4Mem.doubling
        (Task4Mem.BorrowBook Task4Mem.doubling
          (Task4Mem.run Task4Mem.doubling Task4Mem.emptyHeap Task4Mem.readdHeld) 1 1).1
        1 1).2 = none ∧
      ((Task4Mem.viewLibrary
        (Task4Mem.run Task4Mem.doubling Task4Mem.emptyHeap
          Task4Mem.readdHeld)).Members.lookup 1).map
        (fun m => m.BorrowedBooks.map (fun e => e.ID)) = some [1, 2] ∧
      ((Task4Mem.viewLibrary
        (Task4Mem.borrowReturn Task4Mem.doubling
          (Task4Mem.run Task4Mem.doubling Task4Mem.emptyHeap Task4Mem.readdHeld)
          1 1)).Members.lookup 1).map
        (fun m => m.BorrowedBooks.map (fun e => e.ID)) = some [2, 1]) ∧
    ((Task4Mem.BorrowBook Task4Mem.doubling Task4Mem.sharedBorrowed 2 2).2 = none ∧
      (Task4Mem.ReturnBook Task4Mem.doubling
        (Task4Mem.BorrowBook Task4Mem.doubling Task4Mem.sharedBorrowed 2 2).1 2 2).2 = none ∧
      ((Task4Mem.viewLibrary Task4Mem.sharedBorrowed).Members.lookup 2).map
        (fun m => m.BorrowedBooks.map (fun e => e.ID)) = some [] ∧
      ((Task4Mem.viewLibrary Task4Mem.sharedBorrowed).Members.lookup 1).map
        (fun m => m.BorrowedBooks.map (fun e => e.ID)) = some [1] ∧
      ((Task4Mem.viewLibrary
        (Task4Mem.borrowReturn Task4Mem.doubling Task4Mem.sharedBorrowed
          2 2)).Members.lookup 1).map
        (fun m => m.BorrowedBooks.map (fun e => e.ID)) = some [2]) := by
  decide

/-- C12 (amended): in every state reached from `NewLibrary`, whenever `BorrowBook x h`
succeeds the immediately following `ReturnBook x h` succeeds; afterwards `x` has status
Available and no reservation, every other book is as before the borrow, every other member
has its record with its slice header as before, and the pair can be repeated any number of
times, each time with the same two successes. The elements of another member's
`BorrowedBooks` are as before the borrow provided its slice shares no backing array with the
slice of `h`. When `h` held no entry with id `x` before the borrow, the `BorrowedBooks` of
`h` are as before the borrow, and every repetition ends in the same state. -/
theorem borrow_return_round_trip (g : Nat → Nat) (hp : Task4Mem.Heap) (x h : Int) :
    (∀ ops : List Task4Mem.Op, (Task4Mem.BorrowBook g (Task4Mem.run g hp ops) x h).2 = none →
      (Task4Mem.ReturnBook g (Task4Mem.BorrowBook g (Task4Mem.run g hp ops) x h).1 x h).2 =
        none ∧
      (∃ b, (Task4Mem.run g hp ops).Books.lookup x = some b ∧
        (Task4Mem.borrowReturn g (Task4Mem.run g hp ops) x h).Books.lookup x =
          some { ID := b.ID, Title := b.Title, Author := b.Author,
                 Status := "Available" }) ∧
      (Task4Mem.borrowReturn g (Task4Mem.run g hp ops) x h).reservations.lookup x = none ∧
      (∀ k, k ≠ h →
        (Task4Mem.borrowReturn g (Task4Mem.run g hp ops) x h).Members.lookup k =
          (Task4Mem.run g hp ops).Members.lookup k) ∧
      (∀ k, k ≠ x →
        (Task4Mem.borrowReturn g (Task4Mem.run g hp ops) x h).Books.lookup k =
          (Task4Mem.run g hp ops).Books.lookup k) ∧
      ∀ n : Nat,
        (Task4Mem.BorrowBook g
          ((fun s => Task4Mem.borrowReturn g s x h)^[n]
            (Task4Mem.borrowReturn g (Task4Mem.run g hp ops) x h)) x h).2 = none ∧
        (Task4Mem.ReturnBook g
          (Task4Mem.BorrowBook g
            ((fun s => Task4Mem.borrowReturn g s x h)^[n]
              (Task4Mem.borrowReturn g (Task4Mem.run g hp ops) x h)) x h).1 x h).2 =
          none) ∧
    (∀ (ops : List Task4Mem.Op) (k : Int) (mh mk : Task4Mem.Member),
      (Task4Mem.BorrowBook g (Task4Mem.run g hp ops) x h).2 = none → k ≠ h →
      (Task4Mem.run g hp ops).Members.lookup h = some mh →
      (Task4Mem.run g hp ops).Members.lookup k = some mk →
      Task4Mem.apart mh.BorrowedBooks mk.BorrowedBooks →
      (Task4Mem.viewLibrary
        (Task4Mem.borrowReturn g (Task4Mem.run g hp ops) x h)).Members.lookup k =
        (Task4Mem.viewLibrary (Task4Mem.run g hp ops)).Members.lookup k) ∧
    (∀ ops : List Task4Mem.Op, (Task4Mem.BorrowBook g (Task4Mem.run g hp ops) x h).2 = none →
      ¬ heldBy (Task4Mem.viewLibrary (Task4Mem.run g hp ops)) x h →
      (Task4Mem.viewLibrary
        (Task4Mem.borrowReturn g (Task4Mem.run g hp ops) x h)).Members.lookup h =
        (Task4Mem.viewLibrary (Task4Mem.run g hp ops)).Members.lookup h ∧
      ∀ n : Nat,
        (fun s => Task4Mem.borrowReturn g s x h)^[n + 1]
          (Task4Mem.borrowReturn g (Task4Mem.run g hp ops) x h) =
          Task4Mem.borrowReturn g (Task4Mem.run g hp ops) x h) := by
  refine ⟨?_, ?_, ?_⟩
  · intro ops hok
    have hkeys := keysCarryIDs_mem_run g hp ops
    obtain ⟨b, m, hb, hm, hret, hB, hR, hM, _⟩ :=
      round_trip_mem_general g (Task4Mem.run g hp ops) x h hkeys hok
    refine ⟨hret, ⟨b, hb, ?_⟩, ?_, hM, ?_, ?_⟩
    · rw [hB]
      exact Finmap.lookup_insert _
    · rw [hR]
      exact Finmap.lookup_erase _ _
    · intro k hk
      rw [hB]
      exact Finmap.lookup_insert_of_ne _ hk
    · intro n
      have hit := round_trip_mem_iterate g (Task4Mem.run g hp ops) x h hkeys hok (n + 1)
      rw [Function.iterate_succ_apply] at hit
      obtain ⟨hk1, hok1⟩ := hit
      obtain ⟨_, _, _, _, hret1, _⟩ := round_trip_mem_general g _ x h hk1 hok1
      exact ⟨hok1, hret1⟩
  · intro ops k mh mk hok hk hmh hmk hap
    have hkeys := keysCarryIDs_mem_run g hp ops
    obtain ⟨b, m, hb, hm, hret, _, _, hM, _⟩ :=
      round_trip_mem_general g (Task4Mem.run g hp ops) x h hkeys hok
    obtain ⟨m1, hm1, hap1⟩ := BorrowBook_apart g _ x h k mh mk hok hmh hmk hap
    have hk1 : (Task4Mem.BorrowBook g (Task4Mem.run g hp ops) x h).1.Members.lookup k =
        some mk := by
      obtain ⟨_, _, _, _, _, _, heq⟩ := BorrowBook_mem_ok g _ x h hok
      rw [heq]
      show (Finmap.insert h _ _).lookup k = _
      rw [Finmap.lookup_insert_of_ne _ hk]
      exact hmk
    have hv1 := BorrowBook_mem_other g _ x h k mh mk hok hmh hmk hap
    have hv2 := ReturnBook_mem_other g _ x h k m1 mk hret hm1 hk1 hap1
    rw [lookup_viewLibrary, lookup_viewLibrary, hM k hk, hmk]
    simp only [Option.map_some', Task4Mem.viewMember]
    have hv : Task4Mem.view (Task4Mem.borrowReturn g (Task4Mem.run g hp ops) x h).heap
        mk.BorrowedBooks = Task4Mem.view (Task4Mem.run g hp ops).heap mk.BorrowedBooks :=
      hv2.trans hv1
    rw [hv]
  · intro ops hok hnot
    have hkeys := keysCarryIDs_mem_run g hp ops
    obtain ⟨b, m, hb, hm, hst, hres, _⟩ := BorrowBook_mem_ok g _ x h hok
    have hid : b.ID = x := hkeys x b hb
    have hfree : ∀ e ∈ Task4Mem.view (Task4Mem.run g hp ops).heap m.BorrowedBooks,
        e.ID ≠ x := by
      intro e he hex
      apply hnot
      refine ⟨Task4Mem.viewMember _ m, ?_, e, he, hex⟩
      rw [lookup_viewLibrary, hm]
      rfl
    have hfix := round_trip_mem_fix g _ x h b m hb hm hst hid hfree hres
    constructor
    · rw [round_trip_mem_of_free g _ x h b m hb hm hst hid hfree hres]
      rw [lookup_viewLibrary, lookup_viewLibrary, hm]
      simp only [Finmap.lookup_insert, Option.map_some', Task4Mem.viewMember]
      have hlen := goAppend_len g (Task4Mem.run g hp ops).heap
        (Task4Mem.freshArr (Task4Mem.run g hp ops)) m.BorrowedBooks
        [{ b with Status := "Borrowed" }]
      rw [view_take _ _ _ (by rw [hlen]; omega), view_goAppend]
      have hl : m.BorrowedBooks.len =
          (Task4Mem.view (Task4Mem.run g hp ops).heap m.BorrowedBooks).length :=
        (view_length _ _).symm
      rw [hl, List.take_left']
      rfl
    · intro n
      induction n with
      | zero => exact hfix
      | succ n ih =>
        rw [Function.iterate_succ_apply', ih]
        exact hfix

/-- C12 (amended), after `sampleRun` with nil slices: member 1, who holds nothing, borrows
and returns book 1; the `BorrowedBooks` of member 1 and of member 2 are as before, and a
second round gives the same state. -/
theorem borrow_return_round_trip_witness :
    (Task4Mem.BorrowBook Task4Mem.doubling
      (Task4Mem.run Task4Mem.doubling Task4Mem.emptyHeap Task4Mem.sampleRun) 1 1).2 = none ∧
    (Task4Mem.ReturnBook Task4Mem.doubling
      (Task4Mem.BorrowBook Task4Mem.doubling
        (Task4Mem.run Task4Mem.doubling Task4Mem.emptyHeap Task4Mem.sampleRun) 1 1).1
      1 1).2 = none ∧
    (Task4Mem.viewLibrary
      (Task4Mem.borrowReturn Task4Mem.doubling
        (Task4Mem.run Task4Mem.doubling Task4Mem.emptyHeap Task4Mem.sampleRun)
        1 1)).Members.lookup 1 =
      (Task4Mem.viewLibrary
        (Task4Mem.run Task4Mem.doubling Task4Mem.emptyHeap
          Task4Mem.sampleRun)).Members.lookup 1 ∧
    Task4Mem.borrowReturn Task4Mem.doubling
      (Task4Mem.borrowReturn Task4Mem.doubling
        (Task4Mem.run Task4Mem.doubling Task4Mem.emptyHeap Task4Mem.sampleRun) 1 1) 1 1 =
      Task4Mem.borrowReturn Task4Mem.doubling
        (Task4Mem.run Task4Mem.doubling Task4Mem.emptyHeap Task4Mem.sampleRun) 1 1 :=
  ⟨by decide,
    ((borrow_return_round_trip Task4Mem.doubling Task4Mem.emptyHeap 1 1).1
      Task4Mem.sampleRun (by decide)).1,
    ((borrow_return_round_trip Task4Mem.doubling Task4Mem.emptyHeap 1 1).2.2
      Task4Mem.sampleRun (by decide) (by decide)).1,
    ((borrow_return_round_trip Task4Mem.doubling Task4Mem.emptyHeap 1 1).2.2
      Task4Mem.sampleRun (by decide) (by decide)).2 0⟩

/-- C14: in every state the engine reaches, from `NewLibrary` by any sequence of its
operations, with one list per member or with slices in memory whatever backing arrays they
share, in which book `x` has status Available and carries a reservation naming `h`:
`ListAvailableBooks` contains no record with id `x`, so not the record of `x`; and after the
expiry action for `(x, h)` the reservation table has no entry for `x` and
`ListAvailableBooks` contains the record of `x`, and no other record with id `x`. -/
theorem reserved_hidden_until_expiry (l : Library) (x h : Int) (b : Book) (r : reservation)
    (hreach : (∃ ops, l = run ops) ∨
      ∃ (g : Nat → Nat) (hp : Task4Mem.Heap) (mops : List Task4Mem.Op),
        l = Task4Mem.viewLibrary (Task4Mem.run g hp mops))
    (hb : l.Books.lookup x = some b) (hst : b.Status = "Available")
    (hr : l.reservations.lookup x = some r) (hrh : r.MemberID = h) :
    (∀ rec ∈ (ListAvailableBooks l).2, rec.ID ≠ x) ∧
    b ∉ (ListAvailableBooks l).2 ∧
    (expiry l x h).reservations.lookup x = none ∧
    b ∈ (ListAvailableBooks (expiry l x h)).2 ∧
    ∀ rec ∈ (ListAvailableBooks (expiry l x h)).2, rec.ID = x → rec = b := by
  have hkeys : keysCarryIDs l := by
    rcases hreach with ⟨ops, rfl⟩ | ⟨g, hp, mops, rfl⟩
    · exact keysCarryIDs_run ops
    · exact keysCarryIDs_mem_run g hp mops
  have hno : ∀ rec ∈ (ListAvailableBooks l).2, rec.ID ≠ x := by
    intro rec hrec hid
    obtain ⟨id, h1, _, h3⟩ := (mem_ListAvailableBooks l rec).mp hrec
    have hk := hkeys id rec h1
    rw [hid] at hk
    subst hk
    rw [hr] at h3
    cases h3
  have hnb : b.Status ≠ "Borrowed" := by
    rw [hst]
    decide
  have hfire := expiry_fires l x h r b hr hrh hb hnb
  refine ⟨hno, fun hmem => hno b hmem (hkeys x b hb), ?_, ?_, ?_⟩
  · rw [hfire]
    exact Finmap.lookup_erase _ _
  · rw [mem_ListAvailableBooks]
    refine ⟨x, ?_, hst, ?_⟩
    · rw [hfire]
      exact hb
    · rw [hfire]
      exact Finmap.lookup_erase _ _
  · intro rec hrec hid
    obtain ⟨id, h1, _, _⟩ := (mem_ListAvailableBooks _ rec).mp hrec
    rw [hfire] at h1
    have h1b : l.Books.lookup id = some rec := h1
    have hk := hkeys id rec h1b
    rw [hid] at hk
    subst hk
    rw [hb] at h1b
    exact (Option.some.inj h1b).symm

/-- C14, after the seeding run and a reservation of book 1 by member 1: no record with id 1
is listed, and the record of book 1 is listed again after the expiry action. -/
theorem reserved_hidden_until_expiry_witness :
    (∀ rec ∈ (ListAvailableBooks
      (run [ .registerMember { ID := 1, Name := "Alice", BorrowedBooks := [] },
             .addBook { ID := 1, Title := "The Go Programming Language",
                        Author := "Donovan & Kernighan", Status := "Available" },
             .addBook { ID := 2, Title := "Concurrency in Go",
                        Author := "Katherine Cox-Buday", Status := "Available" },
             .reserve 1 1 ])).2, rec.ID ≠ 1) ∧
    ({ ID := 1, Title := "The Go Programming Language", Author := "Donovan & Kernighan",
       Status := "Available" } : Book) ∈
      (ListAvailableBooks (expiry
        (run [ .registerMember { ID := 1, Name := "Alice", BorrowedBooks := [] },
               .addBook { ID := 1, Title := "The Go Programming Language",
                          Author := "Donovan & Kernighan", Status := "Available" },
               .addBook { ID := 2, Title := "Concurrency in Go",
                          Author := "Katherine Cox-Buday", Status := "Available" },
               .reserve 1 1 ]) 1 1)).2 :=
  have w := reserved_hidden_until_expiry
    (run [ .registerMember { ID := 1, Name := "Alice", BorrowedBooks := [] },
           .addBook { ID := 1, Title := "The Go Programming Language",
                      Author := "Donovan & Kernighan", Status := "Available" },
           .addBook { ID := 2, Title := "Concurrency in Go",
                      Author := "Katherine Cox-Buday", Status := "Available" },
           .reserve 1 1 ]) 1 1
    { ID := 1, Title := "The Go Programming Language", Author := "Donovan & Kernighan",
      Status := "Available" } { MemberID := 1 }
    (Or.inl ⟨_, rfl⟩) (by decide) rfl (by decide) rfl
  ⟨w.1, w.2.2.2.1⟩

/-- C17, as stated, fails, in three ways. From the reachable state after the first five
operations of `doubleGrant` (member 1 holds book 1, which was added again), `BorrowBook 1 2`
succeeds and book 1 is at once in the `BorrowedBooks` of member 1 and of member 2. When
members 1 and 2 were registered with one and the same slice `make([]models.Book, 0, 4)`,
member 1 borrowed book 1 and neither holds book 2, `BorrowBook 2 2` succeeds and book 2 is
at once in the `BorrowedBooks` of member 1 and of member 2. And after `BorrowBook 1 1` on
the seeded library, a `RegisterMember` with id 1, which is neither a `ReturnBook` nor an
`AddBook`, leaves book 1 in nobody's `BorrowedBooks`, not in those of member 1. -/
theorem two_holders_after_readd :
    ((Task4Mem.BorrowBook Task4Mem.doubling
        (Task4Mem.run Task4Mem.doubling Task4Mem.emptyHeap (Task4Mem.doubleGrant.take 5))
        1 2).2 = none ∧
      heldBy (Task4Mem.viewLibrary
        (Task4Mem.runFrom Task4Mem.doubling
          (Task4Mem.BorrowBook Task4Mem.doubling
            (Task4Mem.run Task4Mem.doubling Task4Mem.emptyHeap (Task4Mem.doubleGrant.take 5))
            1 2).1 [])) 1 2 ∧
      heldBy (Task4Mem.viewLibrary
        (Task4Mem.runFrom Task4Mem.doubling
          (Task4Mem.BorrowBook Task4Mem.doubling
            (Task4Mem.run Task4Mem.doubling Task4Mem.emptyHeap (Task4Mem.doubleGrant.take 5))
            1 2).1 [])) 1 1) ∧
    (¬ heldBy (Task4Mem.viewLibrary Task4Mem.sharedBorrowed) 2 1 ∧
      ¬ heldBy (Task4Mem.viewLibrary Task4Mem.sharedBorrowed) 2 2 ∧
      (Task4Mem.BorrowBook Task4Mem.doubling Task4Mem.sharedBorrowed 2 2).2 = none ∧
      heldBy (Task4Mem.viewLibrary
        (Task4Mem.runFrom Task4Mem.doubling
          (Task4Mem.BorrowBook Task4Mem.doubling Task4Mem.sharedBorrowed 2 2).1 [])) 2 2 ∧
      heldBy (Task4Mem.viewLibrary
        (Task4Mem.runFrom Task4Mem.doubling
          (Task4Mem.BorrowBook Task4Mem.doubling Task4Mem.sharedBorrowed 2 2).1 [])) 2 1) ∧
    ((Task4Mem.BorrowBook Task4Mem.doubling Task4Mem.seedLibrary 1 1).2 = none ∧
      ¬ heldBy (Task4Mem.viewLibrary
        (Task4Mem.runFrom Task4Mem.doubling
          (Task4Mem.BorrowBook Task4Mem.doubling Task4Mem.seedLibrary 1 1).1
          [.registerMember { ID := 1, Name := "Alice", BorrowedBooks := Task4Mem.nilSlice }]))
        1 1) := by
  decide

/-- C17 (amended): after `BorrowBook x h` succeeds in any state, for every subsequent
sequence of operations that contains no successful `ReturnBook` of `x` and no `AddBook`
with id `x`, at every point of that sequence every `BorrowBook x h1`, for any member `h1`
including `h`, fails. When moreover the borrow happens in a reachable state in which no
member other than `h` holds an entry with id `x` and no two members' slices share a backing
array, and the subsequent sequence contains no `RegisterMember` that stores under id `h` a
member without an entry of id `x`, or under another id a member with one, or that brings a
slice sharing a backing array with another member's, then `x` is at every point of the
sequence in the `BorrowedBooks` of `h` and of no other member. -/
theorem exclusive_hold (g : Nat → Nat) (x h : Int) :
    (∀ (l : Task4Mem.Library) (post : List Task4Mem.Op),
      (Task4Mem.BorrowBook g l x h).2 = none →
      Task4Mem.alongRun g (keepsHeld x) (Task4Mem.BorrowBook g l x h).1 post →
      ∀ (n : Nat) (h1 : Int),
        (Task4Mem.BorrowBook g
          (Task4Mem.runFrom g (Task4Mem.BorrowBook g l x h).1 (post.take n)) x h1).2 ≠
          none) ∧
    (∀ (hp : Task4Mem.Heap) (pre post : List Task4Mem.Op),
      (Task4Mem.BorrowBook g (Task4Mem.run g hp pre) x h).2 = none →
      Task4Mem.Sep (Task4Mem.run g hp pre) →
      (∀ k, heldBy (Task4Mem.viewLibrary (Task4Mem.run g hp pre)) x k → k = h) →
      Task4Mem.alongRun g (keepsHeld x)
        (Task4Mem.BorrowBook g (Task4Mem.run g hp pre) x h).1 post →
      Task4Mem.alongRun g (keepsHolder x h)
        (Task4Mem.BorrowBook g (Task4Mem.run g hp pre) x h).1 post →
      Task4Mem.ownArrayFrom g (Task4Mem.BorrowBook g (Task4Mem.run g hp pre) x h).1 post →
      ∀ n : Nat,
        heldBy (Task4Mem.viewLibrary
          (Task4Mem.runFrom g (Task4Mem.BorrowBook g (Task4Mem.run g hp pre) x h).1
            (post.take n))) x h ∧
        ∀ h1, heldBy (Task4Mem.viewLibrary
          (Task4Mem.runFrom g (Task4Mem.BorrowBook g (Task4Mem.run g hp pre) x h).1
            (post.take n))) x h1 → h1 = h) := by
  constructor
  · intro l post hok hkeep n h1
    obtain ⟨b, m, _, _, _, _, heq⟩ := BorrowBook_mem_ok g l x h hok
    have hB : ∃ b1, (Task4Mem.BorrowBook g l x h).1.Books.lookup x = some b1 ∧
        b1.Status = "Borrowed" := by
      rw [heq]
      exact ⟨_, Finmap.lookup_insert _, rfl⟩
    obtain ⟨b1, hb1, hst1⟩ := borrowed_mem_along g x post _ hB hkeep n
    rw [BorrowBook_reply]
    exact BorrowBook_fails_of_Borrowed _ x h1 b1 hb1 hst1
  · intro hp pre post hok hS hnone hkeep hreg hown n
    have hkeys := keysCarryIDs_mem_run g hp pre
    have hok2 : (BorrowBook (Task4Mem.viewLibrary (Task4Mem.run g hp pre)) x h).2 = none := by
      rw [← BorrowBook_reply]
      exact hok
    obtain ⟨b, m, hb, hm, _, _, heq⟩ := BorrowBook_ok _ x h hok2
    have hview := BorrowBook_view g (Task4Mem.run g hp pre) x h hS
    have hid : b.ID = x := hkeys x b hb
    have hheld : ∀ k, heldBy (Task4Mem.viewLibrary
        (Task4Mem.BorrowBook g (Task4Mem.run g hp pre) x h).1) x k ↔
        heldBy (Task4Mem.viewLibrary (Task4Mem.run g hp pre)) x k ∨ (k = h ∧ x = b.ID) := by
      intro k
      rw [hview, heq]
      exact heldBy_BorrowBook _ x h b m hm x k
    have hB : ∃ b1, (Task4Mem.BorrowBook g (Task4Mem.run g hp pre) x h).1.Books.lookup x =
        some b1 ∧ b1.Status = "Borrowed" := by
      have hbk := congrArg Task4.Library.Books hview
      rw [heq] at hbk
      refine ⟨{ b with Status := "Borrowed" }, ?_, rfl⟩
      show (Task4Mem.viewLibrary
        (Task4Mem.BorrowBook g (Task4Mem.run g hp pre) x h).1).Books.lookup x = _
      rw [hbk]
      exact Finmap.lookup_insert _
    exact holders_mem_along g x h post _ (Sep_BorrowBook g _ x h hS)
      (keysCarryIDs_mem_step g _ (.borrowBook x h) hkeys) hB
      ((hheld h).mpr (Or.inr ⟨rfl, hid.symm⟩))
      (fun k hk => by
        rcases (hheld k).mp hk with h2 | h2
        · exact hnone k h2
        · exact h2.1)
      hkeep hreg hown n

/-- C17 (amended), on the seeded library, whose members have nil slices: member 1 borrows
book 1; then member 2 reserves and borrows book 2, tries to borrow, return and reserve book
1, the removal of book 1 is refused and member 3 is registered again; afterwards member 2
cannot borrow book 1 and member 1 holds it. -/
theorem exclusive_hold_witness :
    (Task4Mem.BorrowBook Task4Mem.doubling
      (Task4Mem.runFrom Task4Mem.doubling
        (Task4Mem.BorrowBook Task4Mem.doubling Task4Mem.seedLibrary 1 1).1
        [.reserve 2 2, .borrowBook 2 2, .borrowBook 1 2, .returnBook 1 2, .reserve 1 2,
         .removeBook 1, .expire 2 2,
         .registerMember { ID := 3, Name := "Charlie", BorrowedBooks := Task4Mem.nilSlice }])
      1 2).2 ≠ none ∧
    heldBy (Task4Mem.viewLibrary
      (Task4Mem.runFrom Task4Mem.doubling
        (Task4Mem.BorrowBook Task4Mem.doubling Task4Mem.seedLibrary 1 1).1
        [.reserve 2 2, .borrowBook 2 2, .borrowBook 1 2, .returnBook 1 2, .reserve 1 2,
         .removeBook 1, .expire 2 2,
         .registerMember { ID := 3, Name := "Charlie", BorrowedBooks := Task4Mem.nilSlice }]))
      1 1 :=
  ⟨(exclusive_hold Task4Mem.doubling 1 1).1 Task4Mem.seedLibrary
      [.reserve 2 2, .borrowBook 2 2, .borrowBook 1 2, .returnBook 1 2, .reserve 1 2,
       .removeBook 1, .expire 2 2,
       .registerMember { ID := 3, Name := "Charlie", BorrowedBooks := Task4Mem.nilSlice }]
      (by decide) (by decide) 8 2,
    ((exclusive_hold Task4Mem.doubling 1 1).2 Task4Mem.emptyHeap
      [ .registerMember { ID := 1, Name := "Alice", BorrowedBooks := Task4Mem.nilSlice },
        .registerMember { ID := 2, Name := "Bob", BorrowedBooks := Task4Mem.nilSlice },
        .registerMember { ID := 3, Name := "Charlie", BorrowedBooks := Task4Mem.nilSlice },
        .registerMember { ID := 4, Name := "Dana", BorrowedBooks := Task4Mem.nilSlice },
        .registerMember { ID := 5, Name := "Evan", BorrowedBooks := Task4Mem.nilSlice },
        .addBook { ID := 1, Title := "The Go Programming Language",
                   Author := "Donovan & Kernighan", Status := "Available" },
        .addBook { ID := 2, Title := "Concurrency in Go",
                   Author := "Katherine Cox-Buday", Status := "Available" } ]
      [.reserve 2 2, .borrowBook 2 2, .borrowBook 1 2, .returnBook 1 2, .reserve 1 2,
       .removeBook 1, .expire 2 2,
       .registerMember { ID := 3, Name := "Charlie", BorrowedBooks := Task4Mem.nilSlice }]
      (by decide)
      (Sep_runFrom _ _ _ (Sep_NewLibrary _) (by decide))
      (fun k hk => by
        obtain ⟨m, hm, e, he, _⟩ := hk
        have hall : ∀ en ∈ (Task4Mem.viewLibrary Task4Mem.seedLibrary).Members.entries,
            en.2.BorrowedBooks = [] := by decide
        have := hall ⟨k, m⟩ (Finmap.lookup_eq_some_iff.mp hm)
        simp only at this
        rw [this] at he
        cases he)
      (by decide) (by decide) (by decide) 8).1⟩

/-- C20, as stated, fails: on the seeded library the request `(1, 1)` is accepted and
`BorrowBook 1 1` consumes its reservation; member 1 then returns book 1 and reserves it
again; the expiry action of the first request, run next, deletes the second reservation. -/
theorem stale_expiry_deletes_later_reservation :
    (ReserveBook seedLibrary 1 1).2 = none ∧
    (BorrowBook (ReserveBook seedLibrary 1 1).1 1 1).2 = none ∧
    (BorrowBook (ReserveBook seedLibrary 1 1).1 1 1).1.reservations.lookup 1 = none ∧
    (runFrom (BorrowBook (ReserveBook seedLibrary 1 1).1 1 1).1
      [.returnBook 1 1, .reserve 1 1]).reservations.lookup 1 = some { MemberID := 1 } ∧
    (expiry
      (runFrom (BorrowBook (ReserveBook seedLibrary 1 1).1 1 1).1
        [.returnBook 1 1, .reserve 1 1]) 1 1).reservations.lookup 1 = none := by
  decide

/-- C20 (amended): once `BorrowBook x h` has consumed the reservation of `x` naming `h`,
the expiry action for `(x, h)` is a no-op after every sequence of operations that contains
no newly accepted Reserve request for `(x, h)`: it leaves the library unchanged. In any
state, an expiry action for `(x, h)` deletes no reservation other than one on `x` naming
`h`. -/
theorem stale_expiry_noop (l : Library) (x h : Int) (ops : List Op)
    (hres : l.reservations.lookup x = some { MemberID := h })
    (hok : (BorrowBook l x h).2 = none)
    (hno : noNewReservationFrom x h (BorrowBook l x h).1 ops) :
    (BorrowBook l x h).1.reservations.lookup x = none ∧
    expiry (runFrom (BorrowBook l x h).1 ops) x h = runFrom (BorrowBook l x h).1 ops ∧
    ∀ (s : Library) (k : Int) (r : reservation), s.reservations.lookup k = some r →
      (expiry s x h).reservations.lookup k = some r ∨ (k = x ∧ r.MemberID = h) := by
  have hnone : (BorrowBook l x h).1.reservations.lookup x = none := by
    obtain ⟨_, _, _, _, _, _, heq⟩ := BorrowBook_ok l x h hok
    rw [heq]
    exact Finmap.lookup_erase _ _
  refine ⟨hnone, ?_, ?_⟩
  · apply expiry_noop_of_not_named
    exact not_named_runFrom x h ops _ (by simp [hnone]) hno
  · intro s k r hr
    by_cases hk : k = x
    · subst hk
      by_cases hrh : r.MemberID = h
      · exact Or.inr ⟨rfl, hrh⟩
      · left
        rw [expiry_noop_of_not_named s k h]
        · exact hr
        · intro r1 hr1
          rw [hr] at hr1
          cases hr1
          exact hrh
    · left
      rw [expiry_reservations_ne s x h k hk]
      exact hr

/-- C20 (amended), on the seeded library: after the reservation of book 1 by member 1 was
consumed, member 1 returns the book and member 2 reserves it; the expiry action of the
first request leaves that reservation in place. -/
theorem stale_expiry_noop_witness :
    (runFrom (BorrowBook (ReserveBook seedLibrary 1 1).1 1 1).1
      [.returnBook 1 1, .reserve 1 2]).reservations.lookup 1 = some { MemberID := 2 } ∧
    expiry
      (runFrom (BorrowBook (ReserveBook seedLibrary 1 1).1 1 1).1
        [.returnBook 1 1, .reserve 1 2]) 1 1 =
      runFrom (BorrowBook (ReserveBook seedLibrary 1 1).1 1 1).1
        [.returnBook 1 1, .reserve 1 2] :=
  ⟨by decide,
    (stale_expiry_noop (ReserveBook seedLibrary 1 1).1 1 1 [.returnBook 1 1, .reserve 1 2]
      (by decide) (by decide) (by decide)).2.1⟩

/-- C22: failure is atomic. Whenever `RemoveBook`, `BorrowBook`, `ReturnBook` or the
worker's handling of a Reserve request returns an error, the library returned (`Books`,
`Members` with every member's `BorrowedBooks`, and the reservation table) is the library
before the call. -/
theorem failure_is_atomic (l : Library) :
    (∀ id, (RemoveBook l id).2 ≠ none → (RemoveBook l id).1 = l) ∧
    (∀ x h, (BorrowBook l x h).2 ≠ none → (BorrowBook l x h).1 = l) ∧
    (∀ x h, (ReturnBook l x h).2 ≠ none → (ReturnBook l x h).1 = l) ∧
    (∀ req, (handleRequest l req).2 ≠ none → (handleRequest l req).1 = l) :=
  ⟨RemoveBook_fail_state l, BorrowBook_fail_state l, ReturnBook_fail_state l,
    handleRequest_fail_state l⟩

/-- C22, on the seeded library after member 1 reserved book 1: member 2 is refused the
book, and the library is the one before the call. -/
theorem failure_is_atomic_witness :
    (BorrowBook (ReserveBook seedLibrary 1 1).1 1 2).2 =
      some "book is reserved by another member" ∧
    (BorrowBook (ReserveBook seedLibrary 1 1).1 1 2).1 = (ReserveBook seedLibrary 1 1).1 :=
  ⟨by decide, (failure_is_atomic (ReserveBook seedLibrary 1 1).1).2.1 1 2 (by decide)⟩

/-- C23, as stated, fails: members 1 and 2 were registered with one and the same slice
`make([]models.Book, 0, 4)` and member 1 has borrowed book 1; this state satisfies `Inv`.
`BorrowBook 2 2` writes book 2 into cell 0 of the shared array, after which book 2 is in the
`BorrowedBooks` of member 1 and of member 2, and `Inv` does not hold. -/
theorem Inv_broken_by_shared_slice :
    Inv (Task4Mem.viewLibrary Task4Mem.sharedBorrowed) ∧
    ¬ Inv (Task4Mem.viewLibrary
      (Task4Mem.BorrowBook Task4Mem.doubling Task4Mem.sharedBorrowed 2 2).1) := by
  constructor
  · have he : Task4Mem.viewLibrary Task4Mem.sharedBorrowed =
        runFrom NewLibrary
          [ .registerMember { ID := 1, Name := "Alice", BorrowedBooks := [] },
            .registerMember { ID := 2, Name := "Bob", BorrowedBooks := [] },
            .addBook { ID := 1, Title := "The Go Programming Language",
                       Author := "Donovan & Kernighan", Status := "Available" },
            .addBook { ID := 2, Title := "Concurrency in Go",
                       Author := "Katherine Cox-Buday", Status := "Available" },
            .addBook { ID := 3, Title := "Learning Go", Author := "Jon Bodner",
                       Status := "Available" },
            .borrowBook 1 1 ] := by decide
    rw [he]
    exact Inv_runFrom _ NewLibrary Inv_NewLibrary (by decide)
  · intro hI
    have h12 : (1 : Int) = 2 := hI.oneHolder 2 1 2 (by decide) (by decide)
    omega

/-- C23 (amended): each of `RemoveBook`, `BorrowBook`, `ReturnBook`, the worker's handling
of a Reserve request and the expiry action, with any argument and whether the call succeeds
or fails, maps a state that satisfies `Inv` and in which no two members' slices share a
backing array to a state of the same kind; so do `AddBook` of an Available book under an id
not in the catalog, and `RegisterMember`, under an id not yet registered, of a member with
no held books whose slice shares no backing array with a registered member's slice. -/
theorem Inv_preserved (g : Nat → Nat) (l : Task4Mem.Library) (hS : Task4Mem.Sep l)
    (hI : Inv (Task4Mem.viewLibrary l)) :
    (∀ id, Inv (Task4Mem.viewLibrary (Task4Mem.RemoveBook l id).1) ∧
      Task4Mem.Sep (Task4Mem.RemoveBook l id).1) ∧
    (∀ x h, Inv (Task4Mem.viewLibrary (Task4Mem.BorrowBook g l x h).1) ∧
      Task4Mem.Sep (Task4Mem.BorrowBook g l x h).1) ∧
    (∀ x h, Inv (Task4Mem.viewLibrary (Task4Mem.ReturnBook g l x h).1) ∧
      Task4Mem.Sep (Task4Mem.ReturnBook g l x h).1) ∧
    (∀ req, Inv (Task4Mem.viewLibrary (Task4Mem.handleRequest l req).1) ∧
      Task4Mem.Sep (Task4Mem.handleRequest l req).1) ∧
    (∀ x h, Inv (Task4Mem.viewLibrary (Task4Mem.expiry l x h)) ∧
      Task4Mem.Sep (Task4Mem.expiry l x h)) ∧
    (∀ book : Book, book.Status = "Available" → book.ID ∉ l.Books →
      Inv (Task4Mem.viewLibrary (Task4Mem.AddBook l book)) ∧
      Task4Mem.Sep (Task4Mem.AddBook l book)) ∧
    (∀ m : Task4Mem.Member, Task4Mem.view l.heap m.BorrowedBooks = [] → m.ID ∉ l.Members →
      (∀ k mk, l.Members.lookup k = some mk →
        Task4Mem.apart m.BorrowedBooks mk.BorrowedBooks) →
      Inv (Task4Mem.viewLibrary (Task4Mem.RegisterMember l m)) ∧
      Task4Mem.Sep (Task4Mem.RegisterMember l m)) := by
  refine ⟨fun id => ⟨?_, Sep_step g l (.removeBook id) hS trivial⟩,
    fun x h => ⟨?_, Sep_BorrowBook g l x h hS⟩,
    fun x h => ⟨?_, Sep_ReturnBook g l x h hS⟩,
    fun req => ⟨?_, Sep_step g l (.reserve req.BookID req.MemberID) hS trivial⟩,
    fun x h => ⟨?_, Sep_step g l (.expire x h) hS trivial⟩, ?_, ?_⟩
  · rw [(RemoveBook_view l id).1]
    exact Inv_RemoveBook _ id hI
  · rw [BorrowBook_view g l x h hS]
    exact Inv_BorrowBook _ x h hI
  · rw [ReturnBook_view g l x h hS]
    exact Inv_ReturnBook _ x h hI
  · rw [(handleRequest_view l req).1]
    exact Inv_handleRequest _ req hI
  · rw [(expiry_view l x h).1]
    exact Inv_expiry _ x h hI
  · intro book hst hnew
    refine ⟨?_, Sep_step g l (.addBook book) hS trivial⟩
    apply Inv_AddBook (Task4Mem.viewLibrary l) book hI
    refine ⟨?_, ?_⟩
    · rw [hst]
      decide
    · intro b hb
      have hb1 : b ∈ l.Books.lookup book.ID := hb
      rw [Finmap.lookup_eq_none.mpr hnew] at hb1
      cases hb1
  · intro m hempty hnew hap
    refine ⟨?_, Sep_step g l (.registerMember m) hS ?_⟩
    · rw [RegisterMember_view]
      apply Inv_RegisterMember _ _ hI
      refine ⟨hempty, ?_⟩
      intro m0 hm0
      have hm1 : m0 ∈ (Task4Mem.viewLibrary l).Members.lookup m.ID := hm0
      rw [lookup_viewLibrary, Finmap.lookup_eq_none.mpr hnew] at hm1
      cases hm1
    · intro e he _
      exact hap e.1 e.2 (Finmap.lookup_eq_some_iff.2 he)

/-- C23 (amended), on the seeded library, whose members have nil slices: it satisfies `Inv`
without sharing, and so does the state after member 1 borrowed book 1, in which member 1
holds the book. -/
theorem Inv_preserved_witness :
    Task4Mem.Sep Task4Mem.seedLibrary ∧ Inv (Task4Mem.viewLibrary Task4Mem.seedLibrary) ∧
    Inv (Task4Mem.viewLibrary
      (Task4Mem.BorrowBook Task4Mem.doubling Task4Mem.seedLibrary 1 1).1) ∧
    Task4Mem.Sep (Task4Mem.BorrowBook Task4Mem.doubling Task4Mem.seedLibrary 1 1).1 ∧
    heldBy (Task4Mem.viewLibrary
      (Task4Mem.BorrowBook Task4Mem.doubling Task4Mem.seedLibrary 1 1).1) 1 1 :=
  have hs := Inv_mem_runFrom Task4Mem.doubling
    [ .registerMember { ID := 1, Name := "Alice", BorrowedBooks := Task4Mem.nilSlice },
      .registerMember { ID := 2, Name := "Bob", BorrowedBooks := Task4Mem.nilSlice },
      .registerMember { ID := 3, Name := "Charlie", BorrowedBooks := Task4Mem.nilSlice },
      .registerMember { ID := 4, Name := "Dana", BorrowedBooks := Task4Mem.nilSlice },
      .registerMember { ID := 5, Name := "Evan", BorrowedBooks := Task4Mem.nilSlice },
      .addBook { ID := 1, Title := "The Go Programming Language",
                 Author := "Donovan & Kernighan", Status := "Available" },
      .addBook { ID := 2, Title := "Concurrency in Go",
                 Author := "Katherine Cox-Buday", Status := "Available" } ]
    (Task4Mem.NewLibrary Task4Mem.emptyHeap) (Sep_NewLibrary _)
    (by rw [viewLibrary_NewLibrary]; exact Inv_NewLibrary) (by decide) (by decide)
  ⟨hs.1, hs.2,
    ((Inv_preserved Task4Mem.doubling Task4Mem.seedLibrary hs.1 hs.2).2.1 1 1).1,
    ((Inv_preserved Task4Mem.doubling Task4Mem.seedLibrary hs.1 hs.2).2.1 1 1).2,
    by decide⟩

/-- C24: with an empty reservation table, Task-4's `BorrowBook` and `ReturnBook` succeed
exactly when Task-3's do on the same `Books` and `Members`; they fail for the same reason
(book absent, member absent, book already Borrowed, book not among the member's
`BorrowedBooks`); and they return the same `Books` and `Members` and an empty reservation
table. -/
theorem extends_Task3 (B : Finmap (fun _ : Int => Book))
    (M : Finmap (fun _ : Int => Member)) (x h : Int) :
    ((BorrowBook { Books := B, Members := M, reservations := ∅ } x h).2 = none ↔
      (Task3.BorrowBook { Books := B, Members := M } x h).2 = none) ∧
    (B.lookup x = none →
      (BorrowBook { Books := B, Members := M, reservations := ∅ } x h).2 =
        some "book not found" ∧
      (Task3.BorrowBook { Books := B, Members := M } x h).2 = some "book not found") ∧
    (x ∈ B → M.lookup h = none →
      (BorrowBook { Books := B, Members := M, reservations := ∅ } x h).2 =
        some "member not found" ∧
      (Task3.BorrowBook { Books := B, Members := M } x h).2 = some "member not found") ∧
    (∀ b, B.lookup x = some b → h ∈ M → b.Status = "Borrowed" →
      (BorrowBook { Books := B, Members := M, reservations := ∅ } x h).2 =
        some "book already borrowed" ∧
      (Task3.BorrowBook { Books := B, Members := M } x h).2 =
        some "book is already borrowed") ∧
    (BorrowBook { Books := B, Members := M, reservations := ∅ } x h).1.Books =
      (Task3.BorrowBook { Books := B, Members := M } x h).1.Books ∧
    (BorrowBook { Books := B, Members := M, reservations := ∅ } x h).1.Members =
      (Task3.BorrowBook { Books := B, Members := M } x h).1.Members ∧
    (BorrowBook { Books := B, Members := M, reservations := ∅ } x h).1.reservations = ∅ ∧
    (ReturnBook { Books := B, Members := M, reservations := ∅ } x h).2 =
      (Task3.ReturnBook { Books := B, Members := M } x h).2 ∧
    (ReturnBook { Books := B, Members := M, reservations := ∅ } x h).1.Books =
      (Task3.ReturnBook { Books := B, Members := M } x h).1.Books ∧
    (ReturnBook { Books := B, Members := M, reservations := ∅ } x h).1.Members =
      (Task3.ReturnBook { Books := B, Members := M } x h).1.Members ∧
    (ReturnBook { Books := B, Members := M, reservations := ∅ } x h).1.reservations = ∅ := by
  have hB : ∀ (ob : Option Book) (om : Option Member), B.lookup x = ob → M.lookup h = om →
      ((BorrowBook { Books := B, Members := M, reservations := ∅ } x h).2 = none ↔
        (Task3.BorrowBook { Books := B, Members := M } x h).2 = none) ∧
      (BorrowBook { Books := B, Members := M, reservations := ∅ } x h).1.Books =
        (Task3.BorrowBook { Books := B, Members := M } x h).1.Books ∧
      (BorrowBook { Books := B, Members := M, reservations := ∅ } x h).1.Members =
        (Task3.BorrowBook { Books := B, Members := M } x h).1.Members ∧
      (BorrowBook { Books := B, Members := M, reservations := ∅ } x h).1.reservations =
        ∅ := by
    intro ob om hb hm
    cases ob with
    | none => simp [BorrowBook, Task3.BorrowBook, hb]
    | some b =>
      cases om with
      | none => simp [BorrowBook, Task3.BorrowBook, hb, hm]
      | some m =>
        by_cases hst : b.Status = "Borrowed"
        · simp [BorrowBook, Task3.BorrowBook, hb, hm, hst]
        · simp [BorrowBook, Task3.BorrowBook, hb, hm, hst]
  have hR : ∀ (ob : Option Book) (om : Option Member), B.lookup x = ob → M.lookup h = om →
      (ReturnBook { Books := B, Members := M, reservations := ∅ } x h).2 =
        (Task3.ReturnBook { Books := B, Members := M } x h).2 ∧
      (ReturnBook { Books := B, Members := M, reservations := ∅ } x h).1.Books =
        (Task3.ReturnBook { Books := B, Members := M } x h).1.Books ∧
      (ReturnBook { Books := B, Members := M, reservations := ∅ } x h).1.Members =
        (Task3.ReturnBook { Books := B, Members := M } x h).1.Members ∧
      (ReturnBook { Books := B, Members := M, reservations := ∅ } x h).1.reservations =
        ∅ := by
    intro ob om hb hm
    cases om with
    | none => simp [ReturnBook, Task3.ReturnBook, hm]
    | some m =>
      cases ob with
      | none => simp [ReturnBook, Task3.ReturnBook, hb, hm]
      | some b =>
        cases hr : removeBorrowed x m.BorrowedBooks with
        | none => simp [ReturnBook, Task3.ReturnBook, hb, hm, hr, removeBorrowed_Task3]
        | some rest => simp [ReturnBook, Task3.ReturnBook, hb, hm, hr, removeBorrowed_Task3]
  obtain ⟨b1, b2, b3, b4⟩ := hB _ _ rfl rfl
  obtain ⟨r1, r2, r3, r4⟩ := hR _ _ rfl rfl
  refine ⟨b1, ?_, ?_, ?_, b2, b3, b4, r1, r2, r3, r4⟩
  · intro hb
    simp [BorrowBook, Task3.BorrowBook, hb]
  · intro hb hm
    obtain ⟨b, hb⟩ := Finmap.mem_iff.mp hb
    simp [BorrowBook, Task3.BorrowBook, hb, hm]
  · intro b hb hm hst
    obtain ⟨m, hm⟩ := Finmap.mem_iff.mp hm
    simp [BorrowBook, Task3.BorrowBook, hb, hm, hst]

/-- C24, on the books and members of the seeded library: member 1 borrows book 1 in both
engines, with the same resulting `Books` and `Members`. -/
theorem extends_Task3_witness :
    (BorrowBook
      { Books := seedLibrary.Books, Members := seedLibrary.Members, reservations := ∅ }
      1 1).2 = none ∧
    (Task3.BorrowBook { Books := seedLibrary.Books, Members := seedLibrary.Members }
      1 1).2 = none ∧
    (BorrowBook
      { Books := seedLibrary.Books, Members := seedLibrary.Members, reservations := ∅ }
      1 1).1.Members =
      (Task3.BorrowBook { Books := seedLibrary.Books, Members := seedLibrary.Members }
        1 1).1.Members :=
  ⟨by decide, by decide,
    (extends_Task3 seedLibrary.Books seedLibrary.Members 1 1).2.2.2.2.2.1⟩

end Task4
